import Mathlib

/-!
# go-flagutil: accumulators, binding engine and tag parser

A shallow embedding of `values.go` and `flagutil.go`.

Conventions of the embedding
* A Go `string` is a Lean `String` (a list of characters); `[]T` is `List T`.
* A method with a pointer receiver that mutates it returns the new receiver
  next to its Go result; a Go `error` result is an `Option` (`none` is `nil`).
* The width of `int` and `uint` (`strconv.IntSize`) and `strconv.ParseFloat`
  are the two fields of a `Env`, a parameter of every definition that
  depends on them. A `float64` is kept as its IEEE-754 bit pattern.
* Caller variables live in a typed memory: one region per supported type, so
  that a `*int` and a `*[]int` never alias. Accumulators are objects allocated
  by the package, addressed by their index in an object store.
* The memory `Mem` holds every slice by its elements. Where it matters that a
  destination shares the backing array of its accumulator after a commit, the
  same code is given on the memory `Go.Mem`, in which a slice is a view of a
  backing array and `append` writes in place when the capacity allows it.
* Printing (usage messages, `PrintDefaults`, `String()`) is outside the
  embedding.
-/

namespace Flagutil

/-! ## Go standard library pieces called by the package -/

/-- The two error causes of package `strconv`. -/
inductive ErrKind where
  | ErrSyntax
  | ErrRange
  deriving DecidableEq, Repr

/-- Go `strconv.NumError`. -/
structure NumError where
  Func : String
  Num : String
  Err : ErrKind
  deriving DecidableEq, Repr

/-- The loop of Go `strings.Split(s, sep)` for a non-empty `sep`, over
characters: `cur` holds the piece being collected (reversed), `skip` counts the
characters of a separator occurrence still to be dropped. A piece ends at the
leftmost occurrence of `sep` in what is left, as `strings.Index` finds it. -/
def splitLoop (sep : List Char) : Nat → List Char → List Char → List String
  | _, cur, [] => [String.mk cur.reverse]
  | skip + 1, cur, _ :: t => splitLoop sep skip cur t
  | 0, cur, c :: t =>
    if sep.isPrefixOf (c :: t) then
      String.mk cur.reverse :: splitLoop sep (sep.length - 1) [] t
    else
      splitLoop sep 0 (c :: cur) t

/-- Go `strings.Split(s, sep)`; with `sep = ""` it explodes `s` into its
characters. -/
def strings.Split (s sep : String) : List String :=
  if sep.data = [] then s.data.map (fun c => String.mk [c])
  else splitLoop sep.data 0 [] s.data

/-- The value of a digit character in `strconv.ParseUint`: `c - '0'` for a
decimal digit, `lower(c) - 'a' + 10` for a letter, where
`lower(c) = c | ('x' - 'X')`. -/
def digitVal (c : Char) : Option Nat :=
  let n := c.toNat
  if 48 ≤ n ∧ n ≤ 57 then some (n - 48)
  else if n < 128 ∧ 97 ≤ (n ||| 32) ∧ (n ||| 32) ≤ 122 then some ((n ||| 32) - 97 + 10)
  else none

/-- The digit loop of `strconv.ParseUint`: `n` is the value so far; the result
is `none` after a character that is no digit of `base` (syntax error),
`some none` when the value leaves `[0, maxVal]` (range error). `base0` tells
whether underscores are skipped. -/
def parseDigits (base : Nat) (base0 : Bool) (cutoff maxVal : Nat) :
    List Char → Nat → Option (Option Nat)
  | [], n => some (some n)
  | c :: t, n =>
    if c = '_' ∧ base0 = true then parseDigits base base0 cutoff maxVal t n
    else
      match digitVal c with
      | none => none
      | some d =>
        if base ≤ d then none
        else if cutoff ≤ n then some none
        else
          let n1 := (n * base + d) % 2 ^ 64
          if n1 < n * base ∨ maxVal < n1 then some none
          else parseDigits base base0 cutoff maxVal t n1

/-- Go `strconv.underscoreOK` after the optional sign and base prefix: `saw`
is the class of the previous character (`'0'` digit, `'_'` underscore, `'!'`
other, `'^'` start). -/
def underscoreLoop (hex : Bool) : List Char → Char → Bool
  | [], saw => saw ≠ '_'
  | c :: t, saw =>
    let n := c.toNat
    if (48 ≤ n ∧ n ≤ 57) ∨ (hex = true ∧ n < 128 ∧ 97 ≤ (n ||| 32) ∧ (n ||| 32) ≤ 102) then
      underscoreLoop hex t '0'
    else if c = '_' then
      if saw ≠ '0' then false else underscoreLoop hex t '_'
    else if saw = '_' then false
    else underscoreLoop hex t '!'

/-- Go `strconv.underscoreOK`. -/
def underscoreOK (s : List Char) : Bool :=
  let s1 := match s with
    | '-' :: t => t
    | '+' :: t => t
    | _ => s
  match s1 with
  | '0' :: p :: t =>
    if p = 'b' ∨ p = 'B' ∨ p = 'o' ∨ p = 'O' ∨ p = 'x' ∨ p = 'X' then
      underscoreLoop (p = 'x' ∨ p = 'X') t '0'
    else underscoreLoop false s1 '^'
  | _ => underscoreLoop false s1 '^'

/-- The base and the digits left after the base prefix, for `base = 0` in
`strconv.ParseUint`. -/
def detectBase (s : List Char) : Nat × List Char :=
  match s with
  | '0' :: p :: d :: t =>
    if p = 'b' ∨ p = 'B' then (2, d :: t)
    else if p = 'o' ∨ p = 'O' then (8, d :: t)
    else if p = 'x' ∨ p = 'X' then (16, d :: t)
    else (8, p :: d :: t)
  | '0' :: t => (8, t)
  | _ => (10, s)

/-- Go `strconv.ParseUint(s, base, bitSize)` for `base` 0 or in `[2, 36]` and
`bitSize` in `[1, 64]`. -/
def strconv.ParseUint (s : String) (base bitSize : Nat) : Except NumError Nat :=
  if s.data = [] then .error ⟨"ParseUint", s, .ErrSyntax⟩
  else
    let bd : Nat × List Char := if base = 0 then detectBase s.data else (base, s.data)
    let cutoff := (2 ^ 64 - 1) / bd.1 + 1
    let maxVal := 2 ^ bitSize - 1
    match parseDigits bd.1 (base = 0) cutoff maxVal bd.2 0 with
    | none => .error ⟨"ParseUint", s, .ErrSyntax⟩
    | some none => .error ⟨"ParseUint", s, .ErrRange⟩
    | some (some n) =>
      if (bd.2.contains '_' ∧ base = 0) ∧ underscoreOK s.data = false then
        .error ⟨"ParseUint", s, .ErrSyntax⟩
      else .ok n

/-- Go `strconv.ParseInt(s, base, bitSize)`, same domain as `ParseUint`. -/
def strconv.ParseInt (s : String) (base bitSize : Nat) : Except NumError Int :=
  if s.data = [] then .error ⟨"ParseInt", s, .ErrSyntax⟩
  else
    let neg : Bool := s.data.head? = some '-'
    let rest : List Char := match s.data with
      | '+' :: t => t
      | '-' :: t => t
      | l => l
    match strconv.ParseUint (String.mk rest) base bitSize with
    | .error e =>
      -- `err.(*NumError).Func = fnParseInt; err.(*NumError).Num = s0`; a range
      -- error of `ParseUint` falls through to the cutoff check, which it fails
      .error ⟨"ParseInt", s, e.Err⟩
    | .ok un =>
      let cutoff := 2 ^ (bitSize - 1)
      if neg = false ∧ cutoff ≤ un then .error ⟨"ParseInt", s, .ErrRange⟩
      else if neg = true ∧ cutoff < un then .error ⟨"ParseInt", s, .ErrRange⟩
      else .ok (if neg then -(un : Int) else (un : Int))

/-- A `float64`, by its bit pattern. -/
structure Float64 where
  bits : Nat
  deriving DecidableEq, Repr

/-- The type of `strconv.ParseFloat(·, 64)`. -/
abbrev FloatConv := String → Except NumError Float64

/-- The number `strconv.ParseUint(s, base, bitSize)` returns together with an
error: 0 with a syntax error, `maxVal` with a range error. -/
def strconv.uintOnError (bitSize : Nat) : ErrKind → Nat
  | .ErrSyntax => 0
  | .ErrRange => 2 ^ bitSize - 1

/-- The number `strconv.ParseInt(s, base, bitSize)` returns together with an
error: 0 with a syntax error; with a range error `-cutoff` for a text with a
minus sign and `cutoff - 1` otherwise, where `cutoff = 1 << (bitSize - 1)`. -/
def strconv.intOnError (s : String) (bitSize : Nat) : ErrKind → Int
  | .ErrSyntax => 0
  | .ErrRange =>
    if s.data.head? = some '-' then -(2 ^ (bitSize - 1) : Int) else 2 ^ (bitSize - 1) - 1

/-- The number `strconv.ParseFloat(s, 64)` returns together with an error: 0
with a syntax error; with a range error the infinity of the sign of the text,
bit pattern `0xFFF0000000000000` or `0x7FF0000000000000`. -/
def strconv.floatOnError (s : String) : ErrKind → Float64
  | .ErrSyntax => ⟨0⟩
  | .ErrRange =>
    if s.data.head? = some '-' then ⟨0xFFF0000000000000⟩ else ⟨0x7FF0000000000000⟩

/-! ## The tokenizer github.com/cuberat/go-textparser (external) -/

/-- The token types of package textparser that `parse_tag` tells apart;
`TokenTypeOther` stands for every other type. -/
inductive TokenType where
  | TokenTypeIdent
  | TokenTypeString
  | TokenTypeSymbol
  | TokenTypeOther
  deriving DecidableEq, Repr

/-- A token of package textparser. -/
structure Token where
  Typ : TokenType
  Text : String
  deriving DecidableEq, Repr

/-- What `parse_tag` sees in one round of `for p.Scan()`: whether `p.Err()` is
non-nil and `p.Token()`. -/
structure ScanItem where
  Err : Bool
  Token : Token
  deriving DecidableEq, Repr

/-- The state of the tokenizer between two characters: between tokens, inside
an identifier-like run, inside a quoted string, or inside one right after a
backslash. The characters collected are kept in reverse. -/
inductive ScanMode where
  | start
  | ident (acc : List Char)
  | str (acc : List Char)
  | strEsc (acc : List Char)
  deriving DecidableEq, Repr

/-- Modelled from the spec: the characters of a bare identifier-like run, taken
to be the ASCII letters, the digits and the underscore. -/
def isIdentChar (c : Char) : Bool :=
  decide ((48 ≤ c.toNat ∧ c.toNat ≤ 57) ∨ (65 ≤ c.toNat ∧ c.toNat ≤ 90) ∨
    (97 ≤ c.toNat ∧ c.toNat ≤ 122) ∨ c.toNat = 95)

/-- Modelled from the spec: the whitespace between tokens, taken to be the
space, the tab, the line feed and the carriage return. -/
def isSpaceChar (c : Char) : Bool :=
  decide (c.toNat = 32 ∨ c.toNat = 9 ∨ c.toNat = 10 ∨ c.toNat = 13)

/-- Modelled from the spec: the quote character of a string literal. -/
def quoteChar : Char := Char.ofNat 39

/-- Modelled from the spec: the backslash that escapes a quote. -/
def backslashChar : Char := Char.ofNat 92

/-- Modelled from the spec: what the tokenizer does with a character met
between tokens: whitespace is insignificant, a quote opens a string literal, an
identifier character opens a run, any other character is a symbol token. -/
def startChar (c : Char) : List ScanItem × ScanMode :=
  if isSpaceChar c then ([], .start)
  else if c = quoteChar then ([], .str [])
  else if isIdentChar c then ([], .ident [c])
  else ([{ Err := false, Token := { Typ := .TokenTypeSymbol, Text := String.mk [c] } }], .start)

/-- The token of an identifier-like run. -/
def identItem (acc : List Char) : ScanItem :=
  { Err := false, Token := { Typ := .TokenTypeIdent, Text := String.mk acc.reverse } }

/-- The token of a string literal: its text keeps the surrounding quotes
(`parse_tag` cuts them off) around the decoded characters. -/
def stringItem (acc : List Char) : ScanItem :=
  { Err := false,
    Token := { Typ := .TokenTypeString,
               Text := String.mk (quoteChar :: (acc.reverse ++ [quoteChar])) } }

/-- The round in which the scanner reports an error. -/
def errItem : ScanItem :=
  { Err := true, Token := { Typ := .TokenTypeOther, Text := "" } }

/-- Modelled from the spec: the tokenizer, an external collaborator that
"produces a typed token stream distinguishing identifiers, quoted strings, and
symbols": a token is "a bare identifier-like run of characters" or "a
single-quoted string literal that may contain an escaped single quote"
(backslash, quote) "representing a literal quote character in the decoded
value", and "whitespace between tokens is insignificant". The backslash is an
escape only right before a quote: before any other character it is a character
of the literal like any other, and the character after it is read as usual (so
in backslash, backslash, quote the second backslash escapes the quote). A
string literal that is not closed is reported as an error. -/
def scanLoop : ScanMode → List Char → List ScanItem
  | .start, [] => []
  | .ident acc, [] => [identItem acc]
  | .str _, [] => [errItem]
  | .strEsc _, [] => [errItem]
  | .start, c :: t => (startChar c).1 ++ scanLoop (startChar c).2 t
  | .ident acc, c :: t =>
    if isIdentChar c then scanLoop (.ident (c :: acc)) t
    else identItem acc :: ((startChar c).1 ++ scanLoop (startChar c).2 t)
  | .str acc, c :: t =>
    if c = backslashChar then scanLoop (.strEsc acc) t
    else if c = quoteChar then stringItem acc :: scanLoop .start t
    else scanLoop (.str (c :: acc)) t
  | .strEsc acc, c :: t =>
    if c = quoteChar then scanLoop (.str (quoteChar :: acc)) t
    else if c = backslashChar then scanLoop (.strEsc (backslashChar :: acc)) t
    else scanLoop (.str (c :: backslashChar :: acc)) t

/-- Modelled from the spec: the rounds of `for p.Scan()` on
`textparser.NewScannerString(s)`. -/
def textparser.scan (s : String) : List ScanItem := scanLoop .start s.data

/-! ## The environment of the package -/

/-- What the package takes from outside its source files. -/
structure Env where
  /-- `strconv.IntSize`, the width of `int` and `uint`: 32 or 64. -/
  IntSize : Nat
  /-- `strconv.ParseFloat(·, 64)`. -/
  ParseFloat : FloatConv
  /-- `unicode.IsUpper`. -/
  IsUpper : Char → Bool
  /-- The rounds of `for p.Scan()` on `textparser.NewScannerString(s)`. -/
  Scan : String → List ScanItem

/-- A 64-bit environment with the tokenizer modelled from the spec. Its
`ParseFloat` accepts no text and its `IsUpper` knows the ASCII letters only: it
serves examples in which no `float64` is parsed and names are ASCII. -/
def env64 : Env :=
  { IntSize := 64, ParseFloat := fun s => .error ⟨"ParseFloat", s, .ErrSyntax⟩,
    IsUpper := Char.isUpper, Scan := textparser.scan }

/-- Go conversion `int(v)` of an `int64`, for an `int` of `w` bits
(two's-complement truncation). -/
def int_of_int64 (w : Nat) (v : Int) : Int := (v + 2 ^ (w - 1)) % 2 ^ w - 2 ^ (w - 1)

/-- Go conversion `uint(v)` of a `uint64`, for a `uint` of `w` bits. -/
def uint_of_uint64 (w : Nat) (v : Nat) : Nat := v % 2 ^ w

/-- Go `strconv.ParseBool`. -/
def strconv.ParseBool (str : String) : Except NumError Bool :=
  if str = "1" ∨ str = "t" ∨ str = "T" ∨ str = "TRUE" ∨ str = "true" ∨ str = "True" then .ok true
  else if str = "0" ∨ str = "f" ∨ str = "F" ∨ str = "FALSE" ∨ str = "false" ∨ str = "False" then
    .ok false
  else .error ⟨"ParseBool", str, .ErrSyntax⟩

/-! ## values.go: the accumulators -/

/-- The `for _, str_val := range args` loop shared by the `Set` methods of the
numeric accumulators: convert each piece and append it to `acc`, returning at
the first piece that fails to convert. -/
def appendConverted {α : Type} (conv : String → Except NumError α) :
    List String → List α → List α × Option NumError
  | [], acc => (acc, none)
  | str_val :: rest, acc =>
    match conv str_val with
    | .error err => (acc, some err)
    | .ok v => appendConverted conv rest (acc ++ [v])

/-- The `args` of a `Set` call: `[]string{val}` for an empty delimiter,
`strings.Split(val, Del)` otherwise. -/
def splitArgs (Del val : String) : List String :=
  if Del = "" then [val] else strings.Split val Del

/-- Accumulator `MultiArgInt` of values.go. -/
structure MultiArgInt where
  Args : List Int
  Del : String
  deriving DecidableEq, Repr

/-- Accumulator `MultiArgInt64` of values.go. -/
structure MultiArgInt64 where
  Args : List Int
  Del : String
  deriving DecidableEq, Repr

/-- Accumulator `MultiArgString` of values.go. -/
structure MultiArgString where
  Args : List String
  Del : String
  deriving DecidableEq, Repr

/-- Accumulator `MultiArgFloat64` of values.go. -/
structure MultiArgFloat64 where
  Args : List Float64
  Del : String
  deriving DecidableEq, Repr

/-- Accumulator `MultiArgUint64` of values.go. -/
structure MultiArgUint64 where
  Args : List Nat
  Del : String
  deriving DecidableEq, Repr

/-- Accumulator `MultiArgUint` of values.go. -/
structure MultiArgUint where
  Args : List Nat
  Del : String
  deriving DecidableEq, Repr

def NewMultiArgInt (delimiter : String) : MultiArgInt := { Args := [], Del := delimiter }
def NewMultiArgInt64 (delimiter : String) : MultiArgInt64 := { Args := [], Del := delimiter }
def NewMultiArgString (delimiter : String) : MultiArgString := { Args := [], Del := delimiter }
def NewMultiArgFloat64 (delimiter : String) : MultiArgFloat64 := { Args := [], Del := delimiter }
def NewMultiArgUint64 (delimiter : String) : MultiArgUint64 := { Args := [], Del := delimiter }
def NewMultiArgUint (delimiter : String) : MultiArgUint := { Args := [], Del := delimiter }

def MultiArgInt.GetInts (ma : MultiArgInt) : List Int := ma.Args
def MultiArgInt64.GetInt64s (ma : MultiArgInt64) : List Int := ma.Args
def MultiArgString.GetStrings (mas : MultiArgString) : List String := mas.Args
def MultiArgFloat64.GetFloat64s (ma : MultiArgFloat64) : List Float64 := ma.Args
def MultiArgUint64.GetUint64s (ma : MultiArgUint64) : List Nat := ma.Args
def MultiArgUint.GetUints (ma : MultiArgUint) : List Nat := ma.Args

/-- The converter of `MultiArgInt.Set`: `int(strconv.ParseInt(s, 10, 64))`. -/
def convInt (env : Env) (s : String) : Except NumError Int :=
  (strconv.ParseInt s 10 64).map (int_of_int64 env.IntSize)

/-- The converter of `MultiArgInt64.Set`. -/
def convInt64 (s : String) : Except NumError Int := strconv.ParseInt s 10 64

/-- The converter of `MultiArgUint64.Set`. -/
def convUint64 (s : String) : Except NumError Nat := strconv.ParseUint s 10 64

/-- The converter of `MultiArgUint.Set`: `uint(strconv.ParseUint(s, 10, 64))`. -/
def convUint (env : Env) (s : String) : Except NumError Nat :=
  (strconv.ParseUint s 10 64).map (uint_of_uint64 env.IntSize)

def MultiArgInt.Set (env : Env) (ma : MultiArgInt) (val : String) :
    MultiArgInt × Option NumError :=
  let r := appendConverted (convInt env) (splitArgs ma.Del val) ma.Args
  ({ ma with Args := r.1 }, r.2)

def MultiArgInt64.Set (ma : MultiArgInt64) (val : String) : MultiArgInt64 × Option NumError :=
  let r := appendConverted convInt64 (splitArgs ma.Del val) ma.Args
  ({ ma with Args := r.1 }, r.2)

def MultiArgString.Set (mas : MultiArgString) (val : String) :
    MultiArgString × Option NumError :=
  ({ mas with Args := mas.Args ++ splitArgs mas.Del val }, none)

def MultiArgFloat64.Set (env : Env) (ma : MultiArgFloat64) (val : String) :
    MultiArgFloat64 × Option NumError :=
  let r := appendConverted env.ParseFloat (splitArgs ma.Del val) ma.Args
  ({ ma with Args := r.1 }, r.2)

def MultiArgUint64.Set (ma : MultiArgUint64) (val : String) : MultiArgUint64 × Option NumError :=
  let r := appendConverted convUint64 (splitArgs ma.Del val) ma.Args
  ({ ma with Args := r.1 }, r.2)

def MultiArgUint.Set (env : Env) (ma : MultiArgUint) (val : String) :
    MultiArgUint × Option NumError :=
  let r := appendConverted (convUint env) (splitArgs ma.Del val) ma.Args
  ({ ma with Args := r.1 }, r.2)

/-- Call `set` with each raw text in turn: the receiver after the last call and
the error result of every call. -/
def runSets {S : Type} (set : S → String → S × Option NumError) :
    S → List String → S × List (Option NumError)
  | s, [] => (s, [])
  | s, r :: rs => ((runSets set (set s r).1 rs).1, (set s r).2 :: (runSets set (set s r).1 rs).2)

/-- What a failing `Set` call leaves behind: `pieces` splits as
`pre ++ bad :: post` where every piece of `pre` converts (to `vs`), `bad` fails
with `e`, the call returns `e`, and the slice is `before ++ vs`. -/
def PartialAppend {α : Type} (conv : String → Except NumError α) (pieces : List String)
    (before after : List α) (err : Option NumError) : Prop :=
  ∃ pre bad post e vs, pieces = pre ++ bad :: post ∧ pre.map conv = vs.map Except.ok ∧
    conv bad = Except.error e ∧ err = some e ∧ after = before ++ vs

/-! ## Memory: caller variables and accumulator objects -/

/-- The address of a caller variable inside the region of its type. -/
abbrev Ptr := Nat

/-- The scalar types `FlagSep` binds. -/
inductive ScalarKind where
  | bool | int | int64 | uint | uint64 | float64 | string
  deriving DecidableEq, Repr

/-- The Lean type of a Go value of each scalar type. -/
@[reducible] def ScalarKind.type : ScalarKind → Type
  | .bool => Bool
  | .int => Int
  | .int64 => Int
  | .uint => Nat
  | .uint64 => Nat
  | .float64 => Float64
  | .string => String

/-- The element types of the slices `set_slice` binds. -/
inductive ElemKind where
  | int | int64 | uint | uint64 | float64 | string
  deriving DecidableEq, Repr

/-- The Lean type of a Go value of each element type. -/
@[reducible] def ElemKind.type : ElemKind → Type
  | .int => Int
  | .int64 => Int
  | .uint => Nat
  | .uint64 => Nat
  | .float64 => Float64
  | .string => String

/-- An accumulator object of one of the six types of values.go. -/
inductive Accum where
  | int (a : MultiArgInt)
  | int64 (a : MultiArgInt64)
  | uint (a : MultiArgUint)
  | uint64 (a : MultiArgUint64)
  | float64 (a : MultiArgFloat64)
  | string (a : MultiArgString)
  deriving DecidableEq, Repr

/-- The `Set` method of the accumulator behind a `flag.Value`. -/
def Accum.Set (env : Env) : Accum → String → Accum × Option NumError
  | .int a, val => (.int (a.Set env val).1, (a.Set env val).2)
  | .int64 a, val => (.int64 (a.Set val).1, (a.Set val).2)
  | .uint a, val => (.uint (a.Set env val).1, (a.Set env val).2)
  | .uint64 a, val => (.uint64 (a.Set val).1, (a.Set val).2)
  | .float64 a, val => (.float64 (a.Set env val).1, (a.Set env val).2)
  | .string a, val => (.string (a.Set val).1, (a.Set val).2)

/-- The memory the package works on, every slice by its elements. -/
structure Mem where
  /-- The caller variables of scalar type: `scalars k p` is `*p` for `p : *k`. -/
  scalars : (k : ScalarKind) → Ptr → k.type
  /-- The caller variables of slice type: `slices k p` is `*p` for `p : *[]k`. -/
  slices : (k : ElemKind) → Ptr → List k.type
  /-- The accumulators allocated so far; a pointer to one is its index. -/
  accs : List Accum

/-- Assignment `*p = v` for `p : *k`. -/
def Mem.setScalar (m : Mem) (k : ScalarKind) (p : Ptr) (v : k.type) : Mem :=
  { m with scalars := Function.update m.scalars k (Function.update (m.scalars k) p v) }

/-- Assignment `*p = v` for `p : *[]k`. -/
def Mem.setSlice (m : Mem) (k : ElemKind) (p : Ptr) (v : List k.type) : Mem :=
  { m with slices := Function.update m.slices k (Function.update (m.slices k) p v) }

/-! ## Package flag of the Go standard library -/

/-- Go `flag.ErrorHandling`. -/
inductive ErrorHandling where
  | ContinueOnError
  | ExitOnError
  | PanicOnError
  deriving DecidableEq, Repr

/-- The errors `flag.FlagSet.Parse` produces: `ErrHelp` and the five messages
of `failf`. `cause` is the error of the value's `Set`. -/
inductive ParseError where
  | ErrHelp
  | badFlagSyntax (arg : String)
  | notDefined (name : String)
  | needsArgument (name : String)
  | invalidValue (value name : String) (cause : ErrKind)
  | invalidBooleanValue (value name : String) (cause : ErrKind)
  | invalidBooleanFlag (name : String) (cause : ErrKind)
  deriving DecidableEq, Repr

/-- The implementations of `flag.Value` the package registers: the scalar
values of package flag (`boolValue`, `intValue`, ...), each a typed pointer to a
caller variable, and a pointer to an accumulator. -/
inductive Value where
  | scalar (k : ScalarKind) (p : Ptr)
  | multiArg (id : Nat)
  deriving DecidableEq, Repr

/-- The conversion of the `Set` method of each scalar value of package flag. -/
def parseScalar (env : Env) : (k : ScalarKind) → String → Except NumError k.type
  | .bool, s => strconv.ParseBool s
  | .int, s => (strconv.ParseInt s 0 env.IntSize).map (int_of_int64 env.IntSize)
  | .int64, s => strconv.ParseInt s 0 64
  | .uint, s => (strconv.ParseUint s 0 env.IntSize).map (uint_of_uint64 env.IntSize)
  | .uint64, s => strconv.ParseUint s 0 64
  | .float64, s => env.ParseFloat s
  | .string, s => .ok s

/-- The value the conversion of the `Set` method of each scalar value returns
together with an error of cause `e` (`ParseBool` returns `false`; a
`stringValue` has no conversion and no error). -/
def scalarOnError (env : Env) : (k : ScalarKind) → String → ErrKind → k.type
  | .bool, _, _ => false
  | .int, s, e => int_of_int64 env.IntSize (strconv.intOnError s env.IntSize e)
  | .int64, s, e => strconv.intOnError s 64 e
  | .uint, _, e => uint_of_uint64 env.IntSize (strconv.uintOnError env.IntSize e)
  | .uint64, _, e => strconv.uintOnError 64 e
  | .float64, s, e => strconv.floatOnError s e
  | .string, s, _ => s

/-- Method `Set` of a registered `flag.Value`: a scalar value converts the text
and stores the result of the conversion through its pointer, also when the
conversion fails (`v, err := strconv.ParseInt(...)`, `*i = intValue(v)`,
`return err`); an accumulator pointer calls the `Set` of the object it points
to (a dangling index, which no registration creates, fails). -/
def Value.Set (env : Env) (v : Value) (s : String) (m : Mem) : Mem × Option ErrKind :=
  match v with
  | .scalar k p =>
    match parseScalar env k s with
    | .error e => (m.setScalar k p (scalarOnError env k s e.Err), some e.Err)
    | .ok x => (m.setScalar k p x, none)
  | .multiArg id =>
    match m.accs[id]? with
    | none => (m, some .ErrSyntax)
    | some a => ({ m with accs := m.accs.set id (a.Set env s).1 }, ((a.Set env s).2).map (·.Err))

/-- Whether the value has `IsBoolFlag() == true`: only `boolValue`. -/
def Value.IsBoolFlag : Value → Bool
  | .scalar .bool _ => true
  | _ => false

/-- Go `flag.Flag` (without `DefValue`, which only `PrintDefaults` reads). -/
structure flag.Flag where
  Name : String
  Usage : String
  Value : Value
  deriving DecidableEq, Repr

/-- An `io.Writer`. -/
inductive Writer where
  | Stderr
  | Stdout
  | other (id : Nat)
  deriving DecidableEq, Repr

/-- Go `flag.FlagSet`; the map `formal` is a list of flags with distinct names,
the map `actual` the list of the names set. -/
structure flag.FlagSet where
  name : String
  parsed : Bool
  actual : List String
  formal : List flag.Flag
  args : List String
  errorHandling : ErrorHandling
  output : Option Writer
  deriving DecidableEq, Repr

/-- Go `flag.NewFlagSet`. -/
def flag.NewFlagSet (name : String) (errorHandling : ErrorHandling) : flag.FlagSet :=
  { name := name, parsed := false, actual := [], formal := [], args := [],
    errorHandling := errorHandling, output := none }

/-- The map lookup `f.formal[name]`. -/
def flag.FlagSet.lookup (f : flag.FlagSet) (name : String) : Option flag.Flag :=
  f.formal.find? (fun fl => fl.Name = name)

/-- The two checks of the name at the head of Go `flag.FlagSet.Var` (Go 1.17
and later): `strings.HasPrefix(name, "-")` and `strings.Contains(name, "=")`
are both false. -/
def flag.validName (name : String) : Bool :=
  !(decide (name.data.head? = some '-')) && !(name.data.contains '=')

/-- Go `flag.FlagSet.Var`: `none` is a panic. It panics on a name that begins
with `-`, on a name that contains `=` and on a name already in use ("flag
redefined"). -/
def flag.FlagSet.Var (f : flag.FlagSet) (value : Value) (name usage : String) :
    Option flag.FlagSet :=
  if flag.validName name = false then none
  else
    match f.lookup name with
    | some _ => none
    | none =>
      some { f with formal := f.formal ++ [{ Name := name, Usage := usage, Value := value }] }

/-- The scan `for i := 1; i < len(name); i++` of `parseOne` for the first `=`
after the first character: the name, and the value when there is one. -/
def splitNameValue (name : List Char) : List Char × Option (List Char) :=
  match name with
  | [] => ([], none)
  | c :: t =>
    if t.contains '=' then (c :: t.takeWhile (· ≠ '='), some ((t.dropWhile (· ≠ '=')).drop 1))
    else (c :: t, none)

/-- What `parseOne` makes of the first argument `s`, before it looks the flag
up: `none` when `s` is no flag (`f.args` is then left alone, but for `--`,
which is dropped); else a syntax error or the flag name and its `=value`. -/
inductive FlagArg where
  | notAFlag
  | terminator
  | bad
  | named (name : String) (value : Option String)
  deriving DecidableEq, Repr

/-- The first half of Go `flag.FlagSet.parseOne`, on the argument `s`. -/
def classifyArg (s : String) : FlagArg :=
  match s.data with
  | '-' :: '-' :: [] => .terminator
  | '-' :: '-' :: c :: t =>
    if c = '-' ∨ c = '=' then .bad
    else .named (String.mk (splitNameValue (c :: t)).1) ((splitNameValue (c :: t)).2.map String.mk)
  | '-' :: c :: t =>
    if c = '=' then .bad
    else .named (String.mk (splitNameValue (c :: t)).1) ((splitNameValue (c :: t)).2.map String.mk)
  | _ => .notAFlag

/-- Record `f.actual[name] = flag`. -/
def flag.FlagSet.markSet (f : flag.FlagSet) (name : String) : flag.FlagSet :=
  { f with actual := if name ∈ f.actual then f.actual else f.actual ++ [name] }

/-- The loop `for { seen, err := f.parseOne() ... }` of Go `flag.FlagSet.Parse`
with `parseOne` in place: the first argument is `f.args`. The result is the
flag set and memory when the loop ends and the error that ended it (`none` when
`parseOne` returned `false, nil`). -/
def flag.FlagSet.parseArgs (env : Env) :
    List String → flag.FlagSet → Mem → flag.FlagSet × Mem × Option ParseError
  | [], f, m => ({ f with args := [] }, m, none)
  | s :: rest, f, m =>
    match classifyArg s with
    | .notAFlag => ({ f with args := s :: rest }, m, none)
    | .terminator => ({ f with args := rest }, m, none)
    | .bad => ({ f with args := s :: rest }, m, some (.badFlagSyntax s))
    | .named name value =>
      match f.lookup name with
      | none =>
        if name = "help" ∨ name = "h" then ({ f with args := rest }, m, some .ErrHelp)
        else ({ f with args := rest }, m, some (.notDefined name))
      | some fl =>
        if fl.Value.IsBoolFlag then
          match value with
          | some v =>
            match (fl.Value.Set env v m).2 with
            | some e =>
              ({ f with args := rest }, (fl.Value.Set env v m).1,
                some (.invalidBooleanValue v name e))
            | none => parseArgs env rest (f.markSet name) (fl.Value.Set env v m).1
          | none =>
            match (fl.Value.Set env "true" m).2 with
            | some e =>
              ({ f with args := rest }, (fl.Value.Set env "true" m).1,
                some (.invalidBooleanFlag name e))
            | none => parseArgs env rest (f.markSet name) (fl.Value.Set env "true" m).1
        else
          match value with
          | some v =>
            match (fl.Value.Set env v m).2 with
            | some e =>
              ({ f with args := rest }, (fl.Value.Set env v m).1, some (.invalidValue v name e))
            | none => parseArgs env rest (f.markSet name) (fl.Value.Set env v m).1
          | none =>
            match rest with
            | [] => ({ f with args := [] }, m, some (.needsArgument name))
            | v :: rest2 =>
              match (fl.Value.Set env v m).2 with
              | some e =>
                ({ f with args := rest2 }, (fl.Value.Set env v m).1,
                  some (.invalidValue v name e))
              | none => parseArgs env rest2 (f.markSet name) (fl.Value.Set env v m).1

/-- How a call into package flag ends. -/
inductive flag.Outcome where
  | returned (err : Option ParseError)
  | exited (code : Nat)
  | panicked (err : ParseError)
  deriving DecidableEq, Repr

/-- Go `flag.FlagSet.Parse`. -/
def flag.FlagSet.Parse (env : Env) (f : flag.FlagSet) (arguments : List String) (m : Mem) :
    flag.FlagSet × Mem × flag.Outcome :=
  let r := flag.FlagSet.parseArgs env arguments { f with parsed := true, args := arguments } m
  match r.2.2 with
  | none => (r.1, r.2.1, .returned none)
  | some err =>
    match f.errorHandling with
    | .ContinueOnError => (r.1, r.2.1, .returned (some err))
    | .ExitOnError => (r.1, r.2.1, .exited (if err = .ErrHelp then 0 else 2))
    | .PanicOnError => (r.1, r.2.1, .panicked err)

/-! ## flagutil.go: the flag set -/

/-- The closure `set_func` of a `flag_spec`: it captures the accumulator
`arg` and the slice pointer `ptr`, both of element type `k`. -/
structure SetFunc where
  k : ElemKind
  arg : Nat
  ptr : Ptr
  deriving DecidableEq, Repr

/-- Calling the closure: `if vals := arg.GetXs(); len(vals) > 0 { *ptr = vals }`.
The destination receives the elements of the accumulator; that it shares the
array of the accumulator from then on is not kept here, `Go.SetFunc.call` keeps
it. -/
def SetFunc.call (sf : SetFunc) (m : Mem) : Mem :=
  match sf.k, m.accs[sf.arg]? with
  | .int, some (.int int_arg) =>
    if 0 < int_arg.GetInts.length then m.setSlice .int sf.ptr int_arg.GetInts else m
  | .int64, some (.int64 int64_arg) =>
    if 0 < int64_arg.GetInt64s.length then m.setSlice .int64 sf.ptr int64_arg.GetInt64s else m
  | .uint, some (.uint uint_arg) =>
    if 0 < uint_arg.GetUints.length then m.setSlice .uint sf.ptr uint_arg.GetUints else m
  | .uint64, some (.uint64 uint64_arg) =>
    if 0 < uint64_arg.GetUint64s.length then m.setSlice .uint64 sf.ptr uint64_arg.GetUint64s
    else m
  | .float64, some (.float64 float64_arg) =>
    if 0 < float64_arg.GetFloat64s.length then
      m.setSlice .float64 sf.ptr float64_arg.GetFloat64s
    else m
  | .string, some (.string string_arg) =>
    if 0 < string_arg.GetStrings.length then m.setSlice .string sf.ptr string_arg.GetStrings
    else m
  | _, _ => m

/-- Specs for each flag: `val_ptr` is the slice pointer with its element type,
`arg` the pointer to the accumulator. -/
structure flag_spec where
  val_ptr : ElemKind × Ptr
  arg : Nat
  set_func : Option SetFunc
  deriving DecidableEq, Repr

/-- The wrapper `FlagSet` of flagutil.go (without the `Usage` function, which
only prints). -/
structure FlagSet where
  special_flags : List flag_spec
  name : String
  error_handling : ErrorHandling
  flag_flagset : flag.FlagSet
  output : Option Writer
  deriving DecidableEq, Repr

def NewFlagSet (name : String) (error_handling : ErrorHandling) : FlagSet :=
  { special_flags := [], name := name, error_handling := error_handling,
    flag_flagset := flag.NewFlagSet name error_handling, output := some .Stderr }

/-- The loop `for _, f := range fs.special_flags` of `FlagSet.Parse`. -/
def runSetFuncs : List flag_spec → Mem → Mem
  | [], m => m
  | f :: rest, m =>
    match f.set_func with
    | some set_func => runSetFuncs rest (set_func.call m)
    | none => runSetFuncs rest m

/-- Method `FlagSet.Parse`. The third component is how the call ends: with the
returned error, or with the exit or panic of `flag.FlagSet.Parse`. -/
def FlagSet.Parse (env : Env) (fs : FlagSet) (args : List String) (m : Mem) :
    FlagSet × Mem × flag.Outcome :=
  let r := fs.flag_flagset.Parse env args m
  match r.2.2 with
  | .returned (some _) => ({ fs with flag_flagset := r.1 }, r.2.1, .returned none)
  | .returned none =>
    ({ fs with flag_flagset := r.1 }, runSetFuncs fs.special_flags r.2.1, .returned none)
  | .exited code => ({ fs with flag_flagset := r.1 }, r.2.1, .exited code)
  | .panicked err => ({ fs with flag_flagset := r.1 }, r.2.1, .panicked err)

def FlagSet.Args (fs : FlagSet) : List String := fs.flag_flagset.args

def FlagSet.Parsed (fs : FlagSet) : Bool := fs.flag_flagset.parsed

/-! ## flagutil.go: parse_tag -/

structure tag_data where
  flag_name : String
  delimiter : String
  usage_string : String
  deriving DecidableEq, Repr

/-- The local variables of `parse_tag` that live across rounds of its loop;
the map `fields` is a function, an absent key reading as `""`. -/
structure TagState where
  fields : String → String
  field_idx : Nat
  field_name : String
  expecting_name : Bool
  expecting_value : Bool

/-- How one round of the loop of `parse_tag` ends: it goes on to the next
round, executes `return nil`, or panics (slice bounds out of range). -/
inductive TagStep where
  | next (st : TagState)
  | retNil
  | panic

/-- The body of the loop `for p.Scan()` of `parse_tag`. -/
def parse_tag_step (st : TagState) (it : ScanItem) : TagStep :=
  if it.Err then .retNil
  else
    if st.field_idx = 0 then
      if it.Token.Typ ≠ .TokenTypeIdent ∧ it.Token.Typ ≠ .TokenTypeString then .retNil
      else
        .next { st with fields := Function.update st.fields "name" it.Token.Text,
                        field_idx := st.field_idx + 1 }
    else
      match it.Token.Typ with
      | .TokenTypeSymbol =>
        if it.Token.Text = "," then
          .next { st with field_idx := st.field_idx + 1, expecting_name := true }
        else if it.Token.Text = "=" then
          if st.field_name = "" then .retNil
          else .next { st with expecting_value := true }
        else .next st
      | .TokenTypeOther => .next st
      | token_type =>
        if st.expecting_name then
          .next { st with field_name := it.Token.Text, expecting_name := false }
        else if st.expecting_value then
          if st.field_name = "" then .retNil
          else if token_type = .TokenTypeString then
            -- `token_text = token_text[1:len(token_text) - 1]`
            if it.Token.Text.length < 2 then .panic
            else
              .next { st with
                fields := Function.update st.fields st.field_name
                  (String.mk ((it.Token.Text.data.drop 1).take (it.Token.Text.length - 2))),
                expecting_value := false, field_name := "" }
          else
            .next { st with fields := Function.update st.fields st.field_name it.Token.Text,
                            expecting_value := false, field_name := "" }
        else .next st

/-- The loop of `parse_tag` over the rounds of the scanner, and the
construction of `tag_info` after it; `.error ()` is a panic. -/
def parse_tag_loop : List ScanItem → TagState → Except Unit (Option tag_data)
  | [], st =>
    .ok (some { flag_name := st.fields "name", delimiter := st.fields "del",
                usage_string := st.fields "usage" })
  | it :: rest, st =>
    match parse_tag_step st it with
    | .next st2 => parse_tag_loop rest st2
    | .retNil => .ok none
    | .panic => .error ()

/-- The values of the local variables of `parse_tag` before its loop. -/
def TagState.init : TagState :=
  { fields := fun _ => "", field_idx := 0, field_name := "", expecting_name := true,
    expecting_value := false }

/-- Function `parse_tag`; `.error ()` is a panic. -/
def parse_tag (env : Env) (tag_str : String) : Except Unit (Option tag_data) :=
  if tag_str = "" then .ok none
  else parse_tag_loop (env.Scan tag_str) TagState.init

/-! ## flagutil.go: binding -/

/-- Go `reflect.Kind`, as far as the package looks at it. -/
inductive Kind where
  | Invalid | Bool | Int | Int64 | Uint | Uint64 | Float64 | String | Slice | Ptr
  | other (name : String)
  deriving DecidableEq, Repr

/-- The Go type of the variable a `store` points to. `other kind` is an
unnamed type of another kind (`int32`, a struct, ...); `named n t` is the
defined type `type n t`. -/
inductive Ty where
  | bool | int | int64 | uint | uint64 | float64 | string
  | other (kind : String)
  | slice (elem : Ty)
  | named (name : String) (underlying : Ty)
  deriving DecidableEq, Repr

/-- Go `reflect.Type.Kind`. -/
def Ty.Kind : Ty → Kind
  | .bool => .Bool
  | .int => .Int
  | .int64 => .Int64
  | .uint => .Uint
  | .uint64 => .Uint64
  | .float64 => .Float64
  | .string => .String
  | .other kind => .other kind
  | .slice _ => .Slice
  | .named _ underlying => underlying.Kind

/-- Go `reflect.Type.Elem` of a type of kind `Slice`. -/
def Ty.Elem : Ty → Option Ty
  | .slice elem => some elem
  | .named _ underlying => underlying.Elem
  | _ => none

/-- A field of a struct variable: its name, the value of key `flagutil` in its
tag (`type_field.Tag.Get("flagutil")`), its type and its address. -/
structure StructField where
  Name : String
  Tag : String
  Typ : Ty
  addr : Ptr
  deriving DecidableEq, Repr

/-- The argument `store interface{}`: the nil interface, a value that is no
pointer, a pointer (`none` is a nil pointer) to a variable that is no struct,
or a pointer to a struct of type `typeName` with the given fields. A pointer to
a struct is always given as `structPtr`; the type `other "struct"` is for a
struct that is itself a field. -/
inductive Store where
  | nil
  | value (t : Ty)
  | ptr (t : Ty) (p : Option Ptr)
  | structPtr (typeName : String) (fields : Option (List StructField))
  deriving DecidableEq, Repr

/-- The errors of `FlagSep`, `set_slice` and `FlagFromStruct`, one constructor
per `fmt.Errorf` of the source. -/
inductive BindError where
  | storeNil
  | storeNotPointer
  | unsupportedType (name : String)
  | notSliceOf (k : ElemKind)
  | unsupportedSliceType (kind : Kind) (name : String)
  | structStoreNotPointer
  | notStruct (kind : Kind)
  | field (field_name typeName : String) (err : BindError)
  deriving DecidableEq, Repr

/-- The panics a registration can end in: the three of `flag.FlagSet.Var`
("flag redefined", "flag begins with -", "flag contains ="), the dereference of
a nil pointer, and a slice expression out of bounds. -/
inductive PanicMsg where
  | flagRedefined (name : String)
  | flagBeginsWithDash (name : String)
  | flagContainsEq (name : String)
  | nilDereference
  | sliceBounds
  deriving DecidableEq, Repr

/-- How a registration call ends: it returns, with its error result, or it
panics; both with the flag set and memory it leaves. -/
inductive Bound where
  | ret (fs : FlagSet) (m : Mem) (err : Option BindError)
  | panic (fs : FlagSet) (m : Mem) (msg : PanicMsg)

/-- The message with which `flag.FlagSet.Var` panics when it does. A name in
use was defined by `Var` and so passed the two checks of the name; for it the
panic is the redefinition, and the order of the three checks does not show. -/
def flag.FlagSet.varPanic (f : flag.FlagSet) (name : String) : PanicMsg :=
  match f.lookup name with
  | some _ => .flagRedefined name
  | none => if name.data.head? = some '-' then .flagBeginsWithDash name else .flagContainsEq name

/-- The accumulator `NewMultiArgX(sep)` for element type `k`. -/
def newAccum (k : ElemKind) (sep : String) : Accum :=
  match k with
  | .int => .int (NewMultiArgInt sep)
  | .int64 => .int64 (NewMultiArgInt64 sep)
  | .uint => .uint (NewMultiArgUint sep)
  | .uint64 => .uint64 (NewMultiArgUint64 sep)
  | .float64 => .float64 (NewMultiArgFloat64 sep)
  | .string => .string (NewMultiArgString sep)

/-- The unnamed slice type `[]k`. -/
def ElemKind.sliceTy : ElemKind → Ty
  | .int => .slice .int
  | .int64 => .slice .int64
  | .uint => .slice .uint
  | .uint64 => .slice .uint64
  | .float64 => .slice .float64
  | .string => .slice .string

/-- One `case` of the `switch elem_kind` of `set_slice`, for element type `k`:
allocate the accumulator, register it with `flag.FlagSet.Var`, assert that the
pointer is a `*[]k` (`t` is the type pointed to), append the spec. -/
def FlagSet.set_slice_case (fs : FlagSet) (m : Mem) (k : ElemKind) (t : Ty) (p : Ptr)
    (name usage sep : String) : Bound :=
  let m1 : Mem := { m with accs := m.accs ++ [newAccum k sep] }
  match fs.flag_flagset.Var (.multiArg m.accs.length) name usage with
  | none => .panic fs m1 (fs.flag_flagset.varPanic name)
  | some f1 =>
    if t = k.sliceTy then
      .ret { fs with
              flag_flagset := f1,
              special_flags := fs.special_flags ++
                [{ val_ptr := (k, p), arg := m.accs.length,
                   set_func := some { k := k, arg := m.accs.length, ptr := p } }] }
        m1 none
    else .ret { fs with flag_flagset := f1 } m1 (some (.notSliceOf k))

/-- Method `FlagSet.set_slice`, for a non-nil pointer `p` to a variable of
type `t` of kind `Slice`. -/
def FlagSet.set_slice (fs : FlagSet) (m : Mem) (t : Ty) (p : Ptr) (name usage sep : String) :
    Bound :=
  match (t.Elem.map Ty.Kind).getD .Invalid with
  | .Int => fs.set_slice_case m .int t p name usage sep
  | .Int64 => fs.set_slice_case m .int64 t p name usage sep
  | .Uint => fs.set_slice_case m .uint t p name usage sep
  | .Uint64 => fs.set_slice_case m .uint64 t p name usage sep
  | .Float64 => fs.set_slice_case m .float64 t p name usage sep
  | .String => fs.set_slice_case m .string t p name usage sep
  | elem_kind => .ret fs m (some (.unsupportedSliceType elem_kind name))

/-- The calls `fs.flag_flagset.XVar(v, name, *v, usage)` of `FlagSep`:
`newXValue(*v, v)` stores `*v` through `v`, then `Var` registers the value. -/
def FlagSet.scalarVar (fs : FlagSet) (m : Mem) (k : ScalarKind) (p : Ptr)
    (name usage : String) : Bound :=
  let m1 := m.setScalar k p (m.scalars k p)
  match fs.flag_flagset.Var (.scalar k p) name usage with
  | none => .panic fs m1 (fs.flag_flagset.varPanic name)
  | some f1 => .ret { fs with flag_flagset := f1 } m1 none

/-- The supported scalar type a `Ty` is, if any: the `case`s of the type switch
of `FlagSep`. -/
def Ty.scalarKind : Ty → Option ScalarKind
  | .bool => some .bool
  | .int => some .int
  | .int64 => some .int64
  | .uint => some .uint
  | .uint64 => some .uint64
  | .float64 => some .float64
  | .string => some .string
  | _ => none

/-- Method `FlagSet.FlagSep`. -/
def FlagSet.FlagSep (fs : FlagSet) (m : Mem) (store : Store) (name usage del : String) : Bound :=
  match store with
  | .nil => .ret fs m (some .storeNil)
  | .value _ => .ret fs m (some .storeNotPointer)
  | .structPtr _ _ => .ret fs m (some (.unsupportedType name))
  | .ptr t none =>
    -- `ptr_value.Elem()` is the zero Value, of kind Invalid; the type switch
    -- evaluates `*v` for a pointer to a supported scalar type
    match t.scalarKind with
    | some _ => .panic fs m .nilDereference
    | none => .ret fs m (some (.unsupportedType name))
  | .ptr t (some p) =>
    if t.Kind = .Slice then fs.set_slice m t p name usage del
    else
      match t.scalarKind with
      | some k => fs.scalarVar m k p name usage
      | none => .ret fs m (some (.unsupportedType name))

/-- Method `FlagSet.Flag`. -/
def FlagSet.Flag (fs : FlagSet) (m : Mem) (store : Store) (name usage : String) : Bound :=
  fs.FlagSep m store name usage ""

def first_char_is_upper (env : Env) (s : String) : Bool :=
  match s.data with
  | [] => false
  | ch :: _ => env.IsUpper ch

/-- The loop `for i := 0; i < num_fields; i++` of `FlagFromStruct` over the
fields not yet visited. -/
def FlagSet.bindFields (env : Env) (typeName : String) :
    List StructField → FlagSet → Mem → Bound
  | [], fs, m => .ret fs m none
  | type_field :: rest, fs, m =>
    if first_char_is_upper env type_field.Name = false then bindFields env typeName rest fs m
    else
      match parse_tag env type_field.Tag with
      | .error _ => .panic fs m .sliceBounds
      | .ok none => bindFields env typeName rest fs m
      | .ok (some tag_data) =>
        if tag_data.flag_name = "" then bindFields env typeName rest fs m
        else
          match fs.FlagSep m (.ptr type_field.Typ (some type_field.addr)) tag_data.flag_name
              tag_data.usage_string tag_data.delimiter with
          | .ret fs1 m1 none => bindFields env typeName rest fs1 m1
          | .ret fs1 m1 (some err) =>
            .ret fs1 m1 (some (.field type_field.Name typeName err))
          | .panic fs1 m1 msg => .panic fs1 m1 msg

/-- The kind `reflect.ValueOf(store).Kind()` and, for a pointer, the kind of
`reflect.Indirect` of it. -/
def Store.indirectKind : Store → Kind
  | .nil => .Invalid
  | .value t => t.Kind
  | .ptr _ none => .Invalid
  | .ptr t (some _) => t.Kind
  | .structPtr _ none => .Invalid
  | .structPtr _ (some _) => .other "struct"

/-- Method `FlagSet.FlagFromStruct`. -/
def FlagSet.FlagFromStruct (env : Env) (fs : FlagSet) (m : Mem) (store : Store) : Bound :=
  match store with
  | .nil => .ret fs m (some .structStoreNotPointer)
  | .value _ => .ret fs m (some .structStoreNotPointer)
  | .ptr t p => .ret fs m (some (.notStruct (Store.ptr t p).indirectKind))
  | .structPtr _ none => .ret fs m (some (.notStruct .Invalid))
  | .structPtr typeName (some fields) => FlagSet.bindFields env typeName fields fs m

/-! ## Call sequences and example states -/

/-- A call `fs.FlagSep(store, name, usage, del)`. -/
structure Reg where
  store : Store
  name : String
  usage : String
  del : String
  deriving DecidableEq, Repr

/-- The calls of `regs` made one after the other on `fs`; `none` when one of
them panics. A call that returns an error is followed by the next one. -/
def registerAll : List Reg → FlagSet → Mem → Option (FlagSet × Mem)
  | [], fs, m => some (fs, m)
  | r :: rest, fs, m =>
    match fs.FlagSep m r.store r.name r.usage r.del with
    | .ret fs1 m1 _ => registerAll rest fs1 m1
    | .panic _ _ _ => none

/-- The flag settings `flag.FlagSet.Parse` finds in `args` as long as every
`Set` succeeds, for the flags `formal`: for each round of `parseOne` that
reaches a `Set`, the flag and the text it is set to. The list ends at the first
argument that is no flag, at `--`, and at an argument `parseOne` rejects. -/
def settingsOf (formal : List flag.Flag) : List String → List (flag.Flag × String)
  | [] => []
  | s :: rest =>
    match classifyArg s with
    | .named name value =>
      match formal.find? (fun fl => fl.Name = name) with
      | none => []
      | some fl =>
        if fl.Value.IsBoolFlag then (fl, value.getD "true") :: settingsOf formal rest
        else
          match value with
          | some v => (fl, v) :: settingsOf formal rest
          | none =>
            match rest with
            | [] => []
            | v :: rest2 => (fl, v) :: settingsOf formal rest2
    | _ => []

/-- The flag settings of `args` for the flags defined in `f`. -/
def flag.FlagSet.settings (f : flag.FlagSet) (args : List String) : List (flag.Flag × String) :=
  settingsOf f.formal args

/-- The `Set` calls of a list of settings, in order; `none` when one fails. -/
def applySettings (env : Env) : List (flag.Flag × String) → Mem → Option Mem
  | [], m => some m
  | x :: rest, m =>
    match (x.1.Value.Set env x.2 m).2 with
    | none => applySettings env rest (x.1.Value.Set env x.2 m).1
    | some _ => none

/-- The number of values an accumulator holds. -/
def Accum.len : Accum → Nat
  | .int a => a.Args.length
  | .int64 a => a.Args.length
  | .uint a => a.Args.length
  | .uint64 a => a.Args.length
  | .float64 a => a.Args.length
  | .string a => a.Args.length

/-- The element type of an accumulator. -/
def Accum.kind : Accum → ElemKind
  | .int _ => .int
  | .int64 _ => .int64
  | .uint _ => .uint
  | .uint64 _ => .uint64
  | .float64 _ => .float64
  | .string _ => .string

/-- The values of an accumulator, as its getter returns them, when its element
type is `k`. -/
def Accum.vals : (k : ElemKind) → Accum → Option (List k.type)
  | .int, .int a => some a.GetInts
  | .int64, .int64 a => some a.GetInt64s
  | .uint, .uint a => some a.GetUints
  | .uint64, .uint64 a => some a.GetUint64s
  | .float64, .float64 a => some a.GetFloat64s
  | .string, .string a => some a.GetStrings
  | _, _ => none

/-- The Go type of each supported scalar type. -/
def ScalarKind.ty : ScalarKind → Ty
  | .bool => .bool
  | .int => .int
  | .int64 => .int64
  | .uint => .uint
  | .uint64 => .uint64
  | .float64 => .float64
  | .string => .string

/-- A memory in which every variable holds the zero value of its type and no
accumulator is allocated. -/
def zeroMem : Mem :=
  { scalars := fun k _ =>
      match k with
      | .bool => false
      | .int => (0 : Int)
      | .int64 => (0 : Int)
      | .uint => (0 : Nat)
      | .uint64 => (0 : Nat)
      | .float64 => (⟨0⟩ : Float64)
      | .string => "",
    slices := fun k _ =>
      match k with
      | .int => []
      | .int64 => []
      | .uint => []
      | .uint64 => []
      | .float64 => []
      | .string => [],
    accs := [] }

/-- The registrations of `ExampleMultivalue`: `ips []string` at address 0 as
flag `ip`, `count int` at address 0 as flag `count`. -/
def multivalueRegs : List Reg :=
  [{ store := .ptr (.slice .string) (some 0), name := "ip", usage := "IP address (string)",
     del := "" },
   { store := .ptr .int (some 0), name := "count", usage := "Count (int)", del := "" }]

/-- The flag set and the memory of `ExampleMultivalue` after its two `Flag`
calls, on a memory of zero values. -/
def multivalueState : FlagSet × Mem :=
  (registerAll multivalueRegs (NewFlagSet "test" .ContinueOnError) zeroMem).getD
    (NewFlagSet "test" .ContinueOnError, zeroMem)

/-- The flag set of `ExampleMultivalue` after its two `Flag` calls. -/
def multivalueSet : FlagSet := multivalueState.1

/-- The memory of `ExampleMultivalue` after its two `Flag` calls. -/
def multivalueMem : Mem := multivalueState.2

/-! ## Statements about tags -/

/-- The state of the loop of `parse_tag` after the rounds `items`, when each of
them goes on to the next round. -/
def tagStateAfter : List ScanItem → TagState → Option TagState
  | [], st => some st
  | it :: rest, st =>
    match parse_tag_step st it with
    | .next st2 => tagStateAfter rest st2
    | _ => none

/-- The round in which the symbol `text` is scanned. -/
def symbolItem (text : String) : ScanItem :=
  { Err := false, Token := { Typ := .TokenTypeSymbol, Text := text } }

/-- An identifier: a non-empty run of identifier characters. -/
def isIdent (n : String) : Prop := n.data ≠ [] ∧ ∀ c ∈ n.data, isIdentChar c = true

/-- The check of `literalBody` on the characters left; `esc` tells whether
the character before them is a backslash. -/
def literalBodyFrom : Bool → List Char → Bool
  | esc, [] => !esc
  | esc, c :: t =>
    if c = quoteChar then esc && literalBodyFrom false t
    else literalBodyFrom (decide (c = backslashChar)) t

/-- Whether `raw`, the characters between the quotes of a string literal, lets
the literal end at its closing quote: every quote in it stands right after a
backslash, which escapes it, and `raw` does not end in a backslash, which would
escape the closing quote. -/
def literalBody (raw : List Char) : Bool := literalBodyFrom false raw

/-- The decoding of `unescapeQuotes` on the characters left; `esc` tells
whether the character before them is a backslash not yet written out. -/
def unescapeFrom : Bool → List Char → List Char
  | esc, [] => if esc then [backslashChar] else []
  | esc, c :: t =>
    if c = quoteChar then quoteChar :: unescapeFrom false t
    else if c = backslashChar then
      if esc then backslashChar :: unescapeFrom true t else unescapeFrom true t
    else if esc then backslashChar :: c :: unescapeFrom false t
    else c :: unescapeFrom false t

/-- The text `raw` with every escaped quote (backslash, quote) replaced by a
quote; every other character, a backslash before another character included,
stays. -/
def unescapeQuotes (raw : List Char) : List Char := unescapeFrom false raw

/-- Two string-slice flags `a` and `b` bound to the same variable, at
address 0. -/
def aliasSliceRegs : List Reg :=
  [{ store := .ptr (.slice .string) (some 0), name := "a", usage := "", del := "" },
   { store := .ptr (.slice .string) (some 0), name := "b", usage := "", del := "" }]

/-- The flag set and memory after the two registrations of `aliasSliceRegs`. -/
def aliasSliceState : FlagSet × Mem :=
  (registerAll aliasSliceRegs (NewFlagSet "test" .ContinueOnError) zeroMem).getD
    (NewFlagSet "test" .ContinueOnError, zeroMem)

/-- Two int flags `a` and `b` bound to the same variable, at address 0. -/
def aliasIntRegs : List Reg :=
  [{ store := .ptr .int (some 0), name := "a", usage := "", del := "" },
   { store := .ptr .int (some 0), name := "b", usage := "", del := "" }]

/-- The flag set and memory after the two registrations of `aliasIntRegs`. -/
def aliasIntState : FlagSet × Mem :=
  (registerAll aliasIntRegs (NewFlagSet "test" .ContinueOnError) zeroMem).getD
    (NewFlagSet "test" .ContinueOnError, zeroMem)

/-- The memory of `ExampleFlagSet` before its `Flag` calls: the strings `ip`
(empty) at address 0 and `default_ip` at address 1, the int `count` (zero) at
address 0. -/
def flagSetExampleMem : Mem := zeroMem.setScalar .string 1 "127.0.0.1"

/-- The `Flag` calls of `ExampleFlagSet` after the first one. -/
def flagSetExampleRegs : List Reg :=
  [{ store := .ptr .string (some 1), name := "default_ip",
     usage := "IP address with default value", del := "" },
   { store := .ptr .int (some 0), name := "count", usage := "Count (int)", del := "" }]

/-- The flag set and memory of `ExampleFlagSet` after its first `Flag` call,
which binds `ip`. -/
def flagSetExampleFirst : FlagSet × Mem :=
  match (NewFlagSet "test" .ContinueOnError).Flag flagSetExampleMem (.ptr .string (some 0)) "ip"
      "IP address (string)" with
  | .ret fs1 m1 _ => (fs1, m1)
  | .panic fs1 m1 _ => (fs1, m1)

/-- The flag set and memory of `ExampleFlagSet` after its three `Flag` calls. -/
def flagSetExampleState : FlagSet × Mem :=
  (registerAll flagSetExampleRegs flagSetExampleFirst.1 flagSetExampleFirst.2).getD
    flagSetExampleFirst

/-- A deferred-commit record as `set_slice` makes it, in a memory in which no
value has reached its accumulator yet: its closure captures the record's own
accumulator and slice pointer, and the accumulator exists, has the element type
of the pointer and is empty. -/
def SpecWF (m : Mem) (spec : flag_spec) : Prop :=
  spec.set_func = some { k := spec.val_ptr.1, arg := spec.arg, ptr := spec.val_ptr.2 } ∧
    ∃ a, m.accs[spec.arg]? = some a ∧ a.kind = spec.val_ptr.1 ∧ a.len = 0

/-! ## Statements about joined values -/

/-- Go `strings.Join(elems, sep)`. -/
def strings.Join : List String → String → String
  | [], _ => ""
  | v :: rest, sep =>
    match rest with
    | [] => v
    | _ :: _ => v ++ sep ++ strings.Join rest sep

/-- Go `strings.Contains(s, substr)`: `substr` starts at some position of `s`. -/
def strings.Contains (s substr : String) : Bool :=
  s.data.tails.any (fun t => substr.data.isPrefixOf t)

/-- The delimiter `D` occurs in the text `v` followed by `D` only at its end:
no occurrence of `D` starts inside `v`. -/
def OnlyAtEnd (D v : String) : Prop :=
  ∀ i, i < v.length → D.data.isPrefixOf (v.data.drop i ++ D.data) = false

/-- A struct with the one field `IP string` tagged `ip,name='x'`, at address 0. -/
def nameKeyFields : List StructField :=
  [{ Name := "IP", Tag := "ip,name='x'", Typ := .string, addr := 0 }]

/-- The mode of the tokenizer `scanLoop` after it has read the characters `a`
in mode `mode`. -/
def modeAfter : ScanMode → List Char → ScanMode
  | mode, [] => mode
  | .start, c :: t => modeAfter (startChar c).2 t
  | .ident acc, c :: t =>
    if isIdentChar c then modeAfter (.ident (c :: acc)) t else modeAfter (startChar c).2 t
  | .str acc, c :: t =>
    if c = backslashChar then modeAfter (.strEsc acc) t
    else if c = quoteChar then modeAfter .start t
    else modeAfter (.str (c :: acc)) t
  | .strEsc acc, c :: t =>
    if c = quoteChar then modeAfter (.str (quoteChar :: acc)) t
    else if c = backslashChar then modeAfter (.strEsc (backslashChar :: acc)) t
    else modeAfter (.str (c :: backslashChar :: acc)) t

/-- The position between the texts `a` and `b` of a tag lies between two
tokens: after `a` the tokenizer is between tokens, or at the end of an
identifier-like run that `b` does not continue; it is not inside a quoted
string. -/
def BetweenTokens (a b : List Char) : Prop :=
  modeAfter .start a = .start ∨
    ∃ acc, modeAfter .start a = .ident acc ∧ ∀ c, b.head? = some c → isIdentChar c = false

/-- The types the doc comment of `Flag` lists for the variable `store` points
to: bool, int, int64, uint, uint64, float64 and string, and the slice types
`[]int`, `[]int64`, `[]uint`, `[]uint64`, `[]float64` and `[]string`. -/
def Ty.supported : Ty → Bool
  | .slice elem =>
    match elem with
    | .int | .int64 | .uint | .uint64 | .float64 | .string => true
    | _ => false
  | t => t.scalarKind.isSome

/-- A `store` that is a non-nil pointer to a variable of a supported type. -/
def Store.supported : Store → Bool
  | .ptr t (some _) => t.supported
  | _ => false

/-- How a registration call ended: `none` for a panic, else its error result. -/
def Bound.result : Bound → Option (Option BindError)
  | .ret _ _ err => some err
  | .panic _ _ _ => none

/-- The property of the tokenizer that keeps `parse_tag` from slicing out of
bounds: the text of a string token holds its two quotes. -/
def Env.StringsQuoted (env : Env) : Prop :=
  ∀ s, ∀ it ∈ env.Scan s, it.Token.Typ = .TokenTypeString → 2 ≤ it.Token.Text.length

/-- The fields of a struct whose name starts with an upper-case letter and
whose tag parses to a triple with a non-empty flag name, in declaration order,
each with its triple. -/
def selectedFields (env : Env) (fields : List StructField) : List (StructField × tag_data) :=
  fields.filterMap fun type_field =>
    if first_char_is_upper env type_field.Name then
      match parse_tag env type_field.Tag with
      | .ok (some tag_data) => if tag_data.flag_name = "" then none else some (type_field, tag_data)
      | _ => none
    else none

/-- The calls `fs.FlagSep(&field, name, usage, delimiter)` for the fields of
`sel`, in order, up to the first one that returns an error or panics; an error
is wrapped with the name of the field and of the struct type. -/
def FlagSet.bindSelected (typeName : String) :
    List (StructField × tag_data) → FlagSet → Mem → Bound
  | [], fs, m => .ret fs m none
  | x :: rest, fs, m =>
    match fs.FlagSep m (.ptr x.1.Typ (some x.1.addr)) x.2.flag_name x.2.usage_string
        x.2.delimiter with
    | .ret fs1 m1 none => bindSelected typeName rest fs1 m1
    | .ret fs1 m1 (some err) => .ret fs1 m1 (some (.field x.1.Name typeName err))
    | .panic fs1 m1 msg => .panic fs1 m1 msg

/-- The calls of `FlagSep` for every field of `sel`, whatever the calls before
returned. -/
def selectedRegs (sel : List (StructField × tag_data)) : List Reg :=
  sel.map fun x =>
    { store := .ptr x.1.Typ (some x.1.addr), name := x.2.flag_name, usage := x.2.usage_string,
      del := x.2.delimiter }

/-- Whether `store` is a non-nil pointer to a struct. -/
def Store.isStructPtr : Store → Bool
  | .structPtr _ (some _) => true
  | _ => false

/-- The flag set a registration call leaves. -/
def Bound.flagSet : Bound → FlagSet
  | .ret fs _ _ => fs
  | .panic fs _ _ => fs

/-- The fields of a variable of type `MyFlagStruct` of flagutil_test.go: the
strings `IP`, `Default`, `Quote` and `Spaces` at addresses 0 to 3, the int
`Count` at address 0. -/
def myFlagStructFields : List StructField :=
  [{ Name := "IP", Tag := "ip, usage='The IP address'", Typ := .string, addr := 0 },
   { Name := "Count", Tag := "cnt,usage='The count'", Typ := .int, addr := 0 },
   { Name := "Default", Tag := "default,usage='Field to show defaults'", Typ := .string,
     addr := 1 },
   { Name := "Quote", Tag := "quote,usage='Field to show embedded (\\') chars'",
     Typ := .string, addr := 2 },
   { Name := "Spaces", Tag := "spacing , usage = 'Spec with spaces'", Typ := .string,
     addr := 3 }]

/-- The fields of a variable of a struct type `T` with the fields `A int32`
tagged `a` and `B int` tagged `b`. -/
def int32ThenIntFields : List StructField :=
  [{ Name := "A", Tag := "a", Typ := .other "int32", addr := 0 },
   { Name := "B", Tag := "b", Typ := .int, addr := 0 }]

/-! ## Output, and a platform with a 32-bit `int` -/

/-- Go `flag.FlagSet.SetOutput`. -/
def flag.FlagSet.SetOutput (f : flag.FlagSet) (output : Option Writer) : flag.FlagSet :=
  { f with output := output }

/-- Go `flag.FlagSet.Output`: `os.Stderr` when `f.output` is nil. -/
def flag.FlagSet.Output (f : flag.FlagSet) : Writer :=
  match f.output with
  | none => .Stderr
  | some w => w

/-- Method `FlagSet.Output`: `return fs.output`; `none` is the nil writer. -/
def FlagSet.Output (fs : FlagSet) : Option Writer := fs.output

/-- Method `FlagSet.SetOutput`. -/
def FlagSet.SetOutput (fs : FlagSet) (w : Option Writer) : FlagSet :=
  { fs with output := w, flag_flagset := fs.flag_flagset.SetOutput w }

/-- The environment `env64` on a platform whose `int` and `uint` have 32 bits. -/
def env32 : Env := { env64 with IntSize := 32 }

/-- The loop of Go `strings.Count(s, substr)` for a non-empty `substr`
(`i := Index(s, substr)`, `n++`, `s = s[i+len(substr):]`), over characters:
`skip` counts the characters of the occurrence just counted that are still to
be passed over, so that occurrences do not overlap. -/
def countLoop (substr : List Char) : Nat → List Char → Nat
  | _, [] => 0
  | skip + 1, _ :: t => countLoop substr skip t
  | 0, c :: t =>
    if substr.isPrefixOf (c :: t) then countLoop substr (substr.length - 1) t + 1
    else countLoop substr 0 t

/-- Go `strings.Count(s, substr)`: the number of non-overlapping instances of
`substr` in `s`, counted from the left; for an empty `substr` it is the number
of characters of `s` plus one. -/
def strings.Count (s substr : String) : Nat :=
  if substr.data = [] then s.data.length + 1
  else countLoop substr.data 0 s.data

/-- Whether `store` is a non-nil pointer to a variable of slice kind. -/
def Store.pointsToSlice : Store → Bool
  | .ptr t (some _) => decide (t.Kind = .Slice)
  | _ => false

/-- The number of calls of `regs`, made one after the other on `fs`, that
return nil for a store that points to a slice. -/
def sliceSuccesses : List Reg → FlagSet → Mem → Nat
  | [], _, _ => 0
  | r :: rest, fs, m =>
    match fs.FlagSep m r.store r.name r.usage r.del with
    | .ret fs1 m1 err =>
      (if err = none ∧ r.store.pointsToSlice = true then 1 else 0) + sliceSuccesses rest fs1 m1
    | .panic _ _ _ => 0

/-- A text with no underscore whose first character, after an optional sign, is
not `0`: no base prefix (`0x`, `0o`, `0b`, a leading `0`) and no digit
separator, the two things `strconv.ParseInt` and `strconv.ParseUint` read with
base 0 only. -/
def NoBasePrefix (s : String) : Prop :=
  '_' ∉ s.data ∧ s.data.head? ≠ some '0' ∧
    (match s.data with
     | '+' :: t => t
     | '-' :: t => t
     | l => l).head? ≠ some '0'

/-- The values of the accumulator `a` are the first values, in order, of the
accumulator `b`, which has the same type. -/
def Accum.IsPrefix : Accum → Accum → Prop
  | .int a, .int b => a.Args <+: b.Args
  | .int64 a, .int64 b => a.Args <+: b.Args
  | .uint a, .uint b => a.Args <+: b.Args
  | .uint64 a, .uint64 b => a.Args <+: b.Args
  | .float64 a, .float64 b => a.Args <+: b.Args
  | .string a, .string b => a.Args <+: b.Args
  | _, _ => False

/-- One flag `n` bound to a `[]int` at address 0. -/
def intSliceRegs : List Reg :=
  [{ store := .ptr (.slice .int) (some 0), name := "n", usage := "", del := "" }]

/-- The flag set and memory after the registration of `intSliceRegs`. -/
def intSliceState : FlagSet × Mem :=
  (registerAll intSliceRegs (NewFlagSet "test" .ContinueOnError) zeroMem).getD
    (NewFlagSet "test" .ContinueOnError, zeroMem)

/-- Why a round of the loop of `parse_tag` executes `return nil`, apart from the
rejection at the value position: the scanner reports an error, the first token
is neither an identifier nor a string, or an `=` is scanned while no key name is
pending. -/
def RejectCause (st : TagState) (it : ScanItem) : Prop :=
  it.Err = true ∨
    (st.field_idx = 0 ∧ it.Token.Typ ≠ .TokenTypeIdent ∧ it.Token.Typ ≠ .TokenTypeString) ∨
    (st.field_idx ≠ 0 ∧ it.Token.Typ = .TokenTypeSymbol ∧ it.Token.Text = "=" ∧
      st.field_name = "")

/-- The round takes the rejection at the value position: after the name token,
an identifier or string token arrives while a value is expected, no key name is
expected and the pending key name is empty. -/
def ValueWithoutKey (st : TagState) (it : ScanItem) : Prop :=
  it.Err = false ∧ st.field_idx ≠ 0 ∧
    (it.Token.Typ = .TokenTypeIdent ∨ it.Token.Typ = .TokenTypeString) ∧
    st.expecting_name = false ∧ st.expecting_value = true ∧ st.field_name = ""

/-- A struct `struct { A string "x,name='-y'" }`: the `name` key gives the
field the flag name `-y`. -/
def dashNameFields : List StructField :=
  [{ Name := "A", Tag := "x,name='-y'", Typ := .string, addr := 0 }]

/-- A struct `struct { A string "'a=b'" }`: the quoted first token gives the
field the flag name `'a=b'`, quotes included. -/
def equalsNameFields : List StructField :=
  [{ Name := "A", Tag := "'a=b'", Typ := .string, addr := 0 }]

/-! ## The memory as Go lays it out: slices that share arrays

The memory `Mem` keeps the content of every slice variable and of every
accumulator apart. In Go a slice value is a view of a backing array, the
assignment `*ptr = vals` of a `set_func` copies the view and not the elements,
and `append` writes into the backing array when the capacity allows it. The
definitions of this section are the code of values.go, of the parse loop and of
`FlagSet.Parse` once more, on a memory with backing arrays. -/

/-- A Go slice value: the index of its backing array among the arrays allocated
for its element type, the offset of its first element in that array, its length
and its capacity. -/
structure Go.Slice where
  arr : Nat
  off : Nat
  len : Nat
  cap : Nat
  deriving DecidableEq, Repr

/-- The nil slice: length and capacity 0. -/
def Go.Slice.nil : Go.Slice := { arr := 0, off := 0, len := 0, cap := 0 }

/-- The elements of a slice: `len` cells of its backing array from `off` on. -/
def Go.Slice.elems {α : Type} (arrays : List (List α)) (s : Go.Slice) : List α :=
  ((arrays.getD s.arr []).drop s.off).take s.len

/-- The assignments `cells[i] = v0`, `cells[i+1] = v1`, ... of the values `vs`. -/
def Go.writeAt {α : Type} : Nat → List α → List α → List α
  | _, [], cells => cells
  | i, v :: vs, cells => Go.writeAt (i + 1) vs (cells.set i v)

/-- Go `append(s, vs...)`. When the capacity of `s` suffices, the values are
written into its backing array behind its last element and the result shares
that array; otherwise a new array is allocated, of the capacity `grow` that the
runtime chooses from the old capacity and the length needed, and receives the
elements of `s` and the values, the rest being `zero`. -/
def Go.append {α : Type} (grow : Nat → Nat → Nat) (zero : α) (arrays : List (List α))
    (s : Go.Slice) (vs : List α) : List (List α) × Go.Slice :=
  if s.len + vs.length ≤ s.cap then
    (arrays.modify (Go.writeAt (s.off + s.len) vs) s.arr, { s with len := s.len + vs.length })
  else
    (arrays ++ [s.elems arrays ++ vs ++
        List.replicate (grow s.cap (s.len + vs.length) - (s.len + vs.length)) zero],
      { arr := arrays.length, off := 0, len := s.len + vs.length,
        cap := grow s.cap (s.len + vs.length) })

/-- The capacity `runtime.growslice` chooses for a slice of fewer than 256
elements: twice the old capacity, or the length needed when that is more. The
rounding up to a size class of the allocator is left out; for elements of 8
bytes the capacities 1, 2, 4 and 8 are size classes. -/
def Go.growslice (oldCap needed : Nat) : Nat :=
  if 2 * oldCap < needed then needed else 2 * oldCap

/-- The zero value of each element type. -/
def ElemKind.zero : (k : ElemKind) → k.type
  | .int => (0 : Int)
  | .int64 => (0 : Int)
  | .uint => (0 : Nat)
  | .uint64 => (0 : Nat)
  | .float64 => (⟨0⟩ : Float64)
  | .string => ""

/-- An accumulator object of values.go as Go stores it: its type by the
element type `k`, the slice `Args` and the delimiter `Del`. -/
structure Go.Accum where
  k : ElemKind
  Args : Go.Slice
  Del : String
  deriving DecidableEq, Repr

/-- The memory with backing arrays. -/
structure Go.Mem where
  /-- The caller variables of scalar type. -/
  scalars : (k : ScalarKind) → Ptr → k.type
  /-- The backing arrays allocated so far, for each element type. -/
  arrays : (k : ElemKind) → List (List k.type)
  /-- The caller variables of slice type: `slices k p` is `*p` for `p : *[]k`. -/
  slices : (k : ElemKind) → Ptr → Go.Slice
  /-- The accumulators allocated so far; a pointer to one is its index. -/
  accs : List Go.Accum

/-- Assignment `*p = v` for `p : *k`. -/
def Go.Mem.setScalar (h : Go.Mem) (k : ScalarKind) (p : Ptr) (v : k.type) : Go.Mem :=
  { h with scalars := Function.update h.scalars k (Function.update (h.scalars k) p v) }

/-- Assignment `*p = v` for `p : *[]k`: the slice value is copied, not the
elements. -/
def Go.Mem.setSlice (h : Go.Mem) (k : ElemKind) (p : Ptr) (v : Go.Slice) : Go.Mem :=
  { h with slices := Function.update h.slices k (Function.update (h.slices k) p v) }

/-- The elements of the slice variable `*p` for `p : *[]k`. -/
def Go.Mem.elems (h : Go.Mem) (k : ElemKind) (p : Ptr) : List k.type :=
  (h.slices k p).elems (h.arrays k)

/-- The converter of the `Set` method of the accumulator of each element type
(`MultiArgString.Set` converts nothing). -/
def convOf (env : Env) : (k : ElemKind) → String → Except NumError k.type
  | .int => convInt env
  | .int64 => convInt64
  | .uint => convUint env
  | .uint64 => convUint64
  | .float64 => env.ParseFloat
  | .string => fun s => .ok s

/-- The `for _, str_val := range args` loop of the `Set` methods of the numeric
accumulators, with `ma.Args = append(ma.Args, v)` as Go executes it. -/
def Go.appendConverted {α : Type} (grow : Nat → Nat → Nat) (zero : α)
    (conv : String → Except NumError α) :
    List String → List (List α) × Go.Slice → (List (List α) × Go.Slice) × Option NumError
  | [], st => (st, none)
  | str_val :: rest, st =>
    match conv str_val with
    | .error err => (st, some err)
    | .ok v => Go.appendConverted grow zero conv rest (Go.append grow zero st.1 st.2 [v])

/-- The `Set` method of the accumulator of element type `k` with delimiter
`Del` and slice `Args`, on the backing arrays of type `k`: the five numeric
types append piece by piece, `MultiArgString.Set` appends all pieces at once
(`mas.Args = append(mas.Args, args...)`). -/
def Go.accumSet (grow : Nat → Nat → Nat) (env : Env) (k : ElemKind) (Del : String)
    (arrays : List (List k.type)) (Args : Go.Slice) (val : String) :
    (List (List k.type) × Go.Slice) × Option NumError :=
  match k with
  | .string => (Go.append grow "" arrays Args (splitArgs Del val), none)
  | .int => Go.appendConverted grow (0 : Int) (convInt env) (splitArgs Del val) (arrays, Args)
  | .int64 => Go.appendConverted grow (0 : Int) convInt64 (splitArgs Del val) (arrays, Args)
  | .uint => Go.appendConverted grow (0 : Nat) (convUint env) (splitArgs Del val) (arrays, Args)
  | .uint64 => Go.appendConverted grow (0 : Nat) convUint64 (splitArgs Del val) (arrays, Args)
  | .float64 =>
    Go.appendConverted grow (⟨0⟩ : Float64) env.ParseFloat (splitArgs Del val) (arrays, Args)

/-- Method `Set` of a registered `flag.Value`, as `Value.Set`, on the memory
with backing arrays. -/
def Go.Value.Set (grow : Nat → Nat → Nat) (env : Env) (v : Value) (s : String) (h : Go.Mem) :
    Go.Mem × Option ErrKind :=
  match v with
  | .scalar k p =>
    match parseScalar env k s with
    | .error e => (h.setScalar k p (scalarOnError env k s e.Err), some e.Err)
    | .ok x => (h.setScalar k p x, none)
  | .multiArg id =>
    match h.accs[id]? with
    | none => (h, some .ErrSyntax)
    | some a =>
      ({ h with
          arrays := Function.update h.arrays a.k
            (Go.accumSet grow env a.k a.Del (h.arrays a.k) a.Args s).1.1,
          accs := h.accs.set id
            { a with Args := (Go.accumSet grow env a.k a.Del (h.arrays a.k) a.Args s).1.2 } },
        ((Go.accumSet grow env a.k a.Del (h.arrays a.k) a.Args s).2).map (·.Err))

/-- The loop of Go `flag.FlagSet.Parse`, as `flag.FlagSet.parseArgs`, on the
memory with backing arrays. -/
def Go.flag.FlagSet.parseArgs (grow : Nat → Nat → Nat) (env : Env) :
    List String → flag.FlagSet → Go.Mem → flag.FlagSet × Go.Mem × Option ParseError
  | [], f, m => ({ f with args := [] }, m, none)
  | s :: rest, f, m =>
    match classifyArg s with
    | .notAFlag => ({ f with args := s :: rest }, m, none)
    | .terminator => ({ f with args := rest }, m, none)
    | .bad => ({ f with args := s :: rest }, m, some (.badFlagSyntax s))
    | .named name value =>
      match f.lookup name with
      | none =>
        if name = "help" ∨ name = "h" then ({ f with args := rest }, m, some .ErrHelp)
        else ({ f with args := rest }, m, some (.notDefined name))
      | some fl =>
        if fl.Value.IsBoolFlag then
          match value with
          | some v =>
            match (Go.Value.Set grow env fl.Value v m).2 with
            | some e =>
              ({ f with args := rest }, (Go.Value.Set grow env fl.Value v m).1,
                some (.invalidBooleanValue v name e))
            | none =>
              Go.flag.FlagSet.parseArgs grow env rest (f.markSet name)
                (Go.Value.Set grow env fl.Value v m).1
          | none =>
            match (Go.Value.Set grow env fl.Value "true" m).2 with
            | some e =>
              ({ f with args := rest }, (Go.Value.Set grow env fl.Value "true" m).1,
                some (.invalidBooleanFlag name e))
            | none =>
              Go.flag.FlagSet.parseArgs grow env rest (f.markSet name)
                (Go.Value.Set grow env fl.Value "true" m).1
        else
          match value with
          | some v =>
            match (Go.Value.Set grow env fl.Value v m).2 with
            | some e =>
              ({ f with args := rest }, (Go.Value.Set grow env fl.Value v m).1,
                some (.invalidValue v name e))
            | none =>
              Go.flag.FlagSet.parseArgs grow env rest (f.markSet name)
                (Go.Value.Set grow env fl.Value v m).1
          | none =>
            match rest with
            | [] => ({ f with args := [] }, m, some (.needsArgument name))
            | v :: rest2 =>
              match (Go.Value.Set grow env fl.Value v m).2 with
              | some e =>
                ({ f with args := rest2 }, (Go.Value.Set grow env fl.Value v m).1,
                  some (.invalidValue v name e))
              | none =>
                Go.flag.FlagSet.parseArgs grow env rest2 (f.markSet name)
                  (Go.Value.Set grow env fl.Value v m).1

/-- Go `flag.FlagSet.Parse`, as `flag.FlagSet.Parse`, on the memory with
backing arrays. -/
def Go.flag.FlagSet.Parse (grow : Nat → Nat → Nat) (env : Env) (f : flag.FlagSet)
    (arguments : List String) (m : Go.Mem) : flag.FlagSet × Go.Mem × flag.Outcome :=
  let r := Go.flag.FlagSet.parseArgs grow env arguments
    { f with parsed := true, args := arguments } m
  match r.2.2 with
  | none => (r.1, r.2.1, .returned none)
  | some err =>
    match f.errorHandling with
    | .ContinueOnError => (r.1, r.2.1, .returned (some err))
    | .ExitOnError => (r.1, r.2.1, .exited (if err = .ErrHelp then 0 else 2))
    | .PanicOnError => (r.1, r.2.1, .panicked err)

/-- Calling the closure `set_func`:
`if vals := arg.GetXs(); len(vals) > 0 { *ptr = vals }`. `GetXs` returns the
slice `Args`, and the assignment makes the destination share its array. -/
def Go.SetFunc.call (sf : SetFunc) (h : Go.Mem) : Go.Mem :=
  match h.accs[sf.arg]? with
  | some a => if a.k = sf.k ∧ 0 < a.Args.len then h.setSlice sf.k sf.ptr a.Args else h
  | none => h

/-- The loop `for _, f := range fs.special_flags` of `FlagSet.Parse`. -/
def Go.runSetFuncs : List flag_spec → Go.Mem → Go.Mem
  | [], h => h
  | f :: rest, h =>
    match f.set_func with
    | some set_func => Go.runSetFuncs rest (Go.SetFunc.call set_func h)
    | none => Go.runSetFuncs rest h

/-- Method `FlagSet.Parse`, as `FlagSet.Parse`, on the memory with backing
arrays. -/
def Go.FlagSet.Parse (grow : Nat → Nat → Nat) (env : Env) (fs : FlagSet) (args : List String)
    (h : Go.Mem) : FlagSet × Go.Mem × flag.Outcome :=
  let r := Go.flag.FlagSet.Parse grow env fs.flag_flagset args h
  match r.2.2 with
  | .returned (some _) => ({ fs with flag_flagset := r.1 }, r.2.1, .returned none)
  | .returned none =>
    ({ fs with flag_flagset := r.1 }, Go.runSetFuncs fs.special_flags r.2.1, .returned none)
  | .exited code => ({ fs with flag_flagset := r.1 }, r.2.1, .exited code)
  | .panicked err => ({ fs with flag_flagset := r.1 }, r.2.1, .panicked err)

/-- A statement `*p = append(*p, vs...)` of the caller, for `p : *[]k`. -/
def Go.Mem.callerAppend (grow : Nat → Nat → Nat) (h : Go.Mem) (k : ElemKind) (p : Ptr)
    (vs : List k.type) : Go.Mem :=
  { h with
    arrays := Function.update h.arrays k (Go.append grow k.zero (h.arrays k) (h.slices k p) vs).1,
    slices := Function.update h.slices k
      (Function.update (h.slices k) p (Go.append grow k.zero (h.arrays k) (h.slices k p) vs).2) }

/-- The accumulator a `Go.Accum` is in the memory `Mem`, by its elements. -/
def Go.Accum.view (h : Go.Mem) (a : Go.Accum) : Flagutil.Accum :=
  match a.k with
  | .int => .int { Args := a.Args.elems (h.arrays .int), Del := a.Del }
  | .int64 => .int64 { Args := a.Args.elems (h.arrays .int64), Del := a.Del }
  | .uint => .uint { Args := a.Args.elems (h.arrays .uint), Del := a.Del }
  | .uint64 => .uint64 { Args := a.Args.elems (h.arrays .uint64), Del := a.Del }
  | .float64 => .float64 { Args := a.Args.elems (h.arrays .float64), Del := a.Del }
  | .string => .string { Args := a.Args.elems (h.arrays .string), Del := a.Del }

/-- The memory `Mem` that a memory with backing arrays is when only the
elements of the slices are looked at. -/
def Go.Mem.view (h : Go.Mem) : Flagutil.Mem :=
  { scalars := h.scalars, slices := fun k p => h.elems k p,
    accs := h.accs.map (Go.Accum.view h) }

/-- The memory after the registration of `intSliceRegs` on a new flag set: no
array is allocated, every slice variable is nil, and the one accumulator, made
by `NewMultiArgInt("")`, has the nil slice for `Args`. -/
def intSliceHeap : Go.Mem :=
  { scalars := zeroMem.scalars, arrays := fun _ => [], slices := fun _ _ => Go.Slice.nil,
    accs := [{ k := .int, Args := Go.Slice.nil, Del := "" }] }

/-- The slice `v` is clear of the appends to the slice `s`, `n` arrays being
allocated: when `v` is not empty, its backing array is allocated, and if `s`
shares that array and has capacity to spare, `v` ends within the length of
`s`. -/
def Go.Slice.Clear (v s : Go.Slice) (n : Nat) : Prop :=
  0 < v.len → v.arr < n ∧ (s.arr = v.arr → s.len < s.cap → v.off + v.len ≤ s.off + s.len)

/-- The slice variable `*p`, for `p : *[]k`, is clear of the appends to every
accumulator of element type `k`. It is so while no accumulator shares an array
with it (before the first commit to it), and after a commit to it (it then
ends where the accumulator ends) until the caller extends it in place. -/
def Go.Mem.Apart (h : Go.Mem) (k : ElemKind) (p : Ptr) : Prop :=
  ∀ a ∈ h.accs, a.k = k → (h.slices k p).Clear a.Args (h.arrays k).length

/-- The flag set and memory after `Parse` of `-n 1 -n 2 -n 3` on the flag set
of `intSliceRegs`: the three values are committed, and the destination shares
the array of the accumulator, of length 3 and capacity 4. -/
def intSliceCommitted : FlagSet × Go.Mem × flag.Outcome :=
  Go.FlagSet.Parse Go.growslice env64 intSliceState.1 ["-n", "1", "-n", "2", "-n", "3"]
    intSliceHeap

/-- The memory after the caller's `n = append(n, 99)` on the committed
destination: the value 99 goes into the spare cell of the shared array. -/
def intSliceExtended : Go.Mem := intSliceCommitted.2.1.callerAppend Go.growslice .int 0 [99]

/-- The slice `s` lies in an allocated array: its length is within its
capacity, and when the capacity is not 0 its backing array is allocated and
holds the cells of the capacity. -/
def Go.Slice.Fits {α : Type} (arrays : List (List α)) (s : Go.Slice) : Prop :=
  s.len ≤ s.cap ∧
    (0 < s.cap → ∃ cells, arrays[s.arr]? = some cells ∧ s.off + s.cap ≤ cells.length)

/-- Every accumulator owns the array of its `Args`: the slice lies in an
allocated array, and no two accumulators of one element type with a capacity
share an array. It is so after `NewMultiArgX` (the slice is nil) and stays so
under `Set`, whose `append` is the only assignment to `Args`. -/
def Go.Mem.Owned (h : Go.Mem) : Prop :=
  (∀ a ∈ h.accs, a.Args.Fits (h.arrays a.k)) ∧
    ∀ (i j : Nat) (a b : Go.Accum), h.accs[i]? = some a → h.accs[j]? = some b → i ≠ j →
      a.k = b.k → 0 < a.Args.cap → 0 < b.Args.cap → a.Args.arr ≠ b.Args.arr

/-- What a sequence of appends to a slice that lies in an allocated array
leaves: the slice has its elements of before in front, lies in an allocated
array, and has its array and capacity of before or an array allocated since;
the slices that lay in an allocated array still do. -/
def Go.Extends {α : Type} (st st2 : List (List α) × Go.Slice) : Prop :=
  st.2.elems st.1 <+: st2.2.elems st2.1 ∧ st2.2.Fits st2.1 ∧
    ((st2.2.arr = st.2.arr ∧ st2.2.cap = st.2.cap) ∨ st.1.length ≤ st2.2.arr) ∧
    st.1.length ≤ st2.1.length ∧ ∀ t : Go.Slice, t.Fits st.1 → t.Fits st2.1

/-- The flag set and memory after the failed `Parse` of `-n 1 -n x` on the flag
set of `intSliceRegs`. -/
def intSliceFailed : FlagSet × Go.Mem × flag.Outcome :=
  Go.FlagSet.Parse Go.growslice env64 intSliceState.1 ["-n", "1", "-n", "x"] intSliceHeap

/-! ## Theorems -/

/-! ### Accumulators -/

theorem appendConverted_ok {α : Type} (conv : String → Except NumError α) :
    ∀ (l : List String) (acc : List α),
      (appendConverted conv l acc).2 = none →
      (appendConverted conv l acc).1.map Except.ok = acc.map Except.ok ++ l.map conv := by
  intro l
  induction l with
  | nil => intro acc _; simp [appendConverted]
  | cons s rest ih =>
    intro acc h
    unfold appendConverted at h ⊢
    cases hc : conv s with
    | error e => rw [hc] at h; simp at h
    | ok v =>
      rw [hc] at h
      simp only at h ⊢
      rw [ih _ h]
      simp [hc]

theorem appendConverted_err {α : Type} (conv : String → Except NumError α) :
    ∀ (l : List String) (acc : List α),
      (∃ p ∈ l, ∃ e, conv p = Except.error e) →
      ∃ pre bad post e vs, l = pre ++ bad :: post ∧
        pre.map conv = vs.map Except.ok ∧
        conv bad = Except.error e ∧
        appendConverted conv l acc = (acc ++ vs, some e) := by
  intro l
  induction l with
  | nil => intro acc h; simp at h
  | cons s rest ih =>
    intro acc h
    cases hc : conv s with
    | error e =>
      exact ⟨[], s, rest, e, [], by simp, by simp, hc, by simp [appendConverted, hc]⟩
    | ok v =>
      have h2 : ∃ p ∈ rest, ∃ e, conv p = Except.error e := by
        obtain ⟨p, hp, e, he⟩ := h
        rcases List.mem_cons.mp hp with rfl | hp
        · rw [hc] at he; cases he
        · exact ⟨p, hp, e, he⟩
      obtain ⟨pre, bad, post, e, vs, hl, hpre, hbad, happ⟩ := ih (acc ++ [v]) h2
      refine ⟨s :: pre, bad, post, e, v :: vs, by simp [hl], ?_, hbad, ?_⟩
      · simp [hc, hpre]
      · simp [appendConverted, hc, happ]

theorem runSets_concat {S α : Type} (set : S → String → S × Option NumError)
    (get : S → List α) (del : S → String) (conv : String → Except NumError α)
    (hset : ∀ s r, (set s r).2 = none →
      (get (set s r).1).map Except.ok = (get s).map Except.ok ++ (splitArgs (del s) r).map conv)
    (hdel : ∀ s r, del (set s r).1 = del s) :
    ∀ (rs : List String) (s : S), (∀ e ∈ (runSets set s rs).2, e = none) →
      (get (runSets set s rs).1).map Except.ok =
        (get s).map Except.ok ++ ((rs.map (splitArgs (del s))).flatten).map conv := by
  intro rs
  induction rs with
  | nil => intro s _; simp [runSets]
  | cons r rs ih =>
    intro s h
    simp only [runSets, List.mem_cons, forall_eq_or_imp] at h
    simp only [runSets]
    rw [ih _ h.2, hset s r h.1, hdel]
    simp

theorem splitArgs_eq (D r : String) :
    splitArgs D r = if D = "" then [r] else strings.Split r D := rfl

/-- C1: for each of the six accumulator types created by its constructor with
delimiter `D` (empty or not), and raw texts `rs` on which every `Set` call
returns no error, the getter returns the conversions, in call order, of the
pieces of each raw text, the pieces of `r` being `strings.Split(r, D)` for a
non-empty `D` and `r` alone for the empty `D`. -/
theorem multiArg_get_is_concat_of_converted_pieces (env : Env)
    (D : String) (rs : List String) :
    ((∀ e ∈ (runSets (MultiArgInt.Set env) (NewMultiArgInt D) rs).2, e = none) →
      (runSets (MultiArgInt.Set env) (NewMultiArgInt D) rs).1.GetInts.map Except.ok =
        ((rs.map (fun r => if D = "" then [r] else strings.Split r D)).flatten).map
          (fun p => (strconv.ParseInt p 10 64).map (int_of_int64 env.IntSize))) ∧
    ((∀ e ∈ (runSets MultiArgInt64.Set (NewMultiArgInt64 D) rs).2, e = none) →
      (runSets MultiArgInt64.Set (NewMultiArgInt64 D) rs).1.GetInt64s.map Except.ok =
        ((rs.map (fun r => if D = "" then [r] else strings.Split r D)).flatten).map
          (fun p => strconv.ParseInt p 10 64)) ∧
    ((∀ e ∈ (runSets (MultiArgUint.Set env) (NewMultiArgUint D) rs).2, e = none) →
      (runSets (MultiArgUint.Set env) (NewMultiArgUint D) rs).1.GetUints.map Except.ok =
        ((rs.map (fun r => if D = "" then [r] else strings.Split r D)).flatten).map
          (fun p => (strconv.ParseUint p 10 64).map (uint_of_uint64 env.IntSize))) ∧
    ((∀ e ∈ (runSets MultiArgUint64.Set (NewMultiArgUint64 D) rs).2, e = none) →
      (runSets MultiArgUint64.Set (NewMultiArgUint64 D) rs).1.GetUint64s.map Except.ok =
        ((rs.map (fun r => if D = "" then [r] else strings.Split r D)).flatten).map
          (fun p => strconv.ParseUint p 10 64)) ∧
    ((∀ e ∈ (runSets (MultiArgFloat64.Set env) (NewMultiArgFloat64 D) rs).2, e = none) →
      (runSets (MultiArgFloat64.Set env) (NewMultiArgFloat64 D) rs).1.GetFloat64s.map
          Except.ok =
        ((rs.map (fun r => if D = "" then [r] else strings.Split r D)).flatten).map
          env.ParseFloat) ∧
    ((∀ e ∈ (runSets MultiArgString.Set (NewMultiArgString D) rs).2, e = none) →
      (runSets MultiArgString.Set (NewMultiArgString D) rs).1.GetStrings =
        (rs.map (fun r => if D = "" then [r] else strings.Split r D)).flatten) := by
  refine ⟨?_, ?_, ?_, ?_, ?_, ?_⟩
  · intro h
    have := runSets_concat (MultiArgInt.Set env) MultiArgInt.GetInts MultiArgInt.Del (convInt env)
      (fun s r hr => appendConverted_ok (convInt env) _ _ hr) (fun _ _ => rfl) rs
      (NewMultiArgInt D) h
    simpa [NewMultiArgInt, MultiArgInt.GetInts, splitArgs_eq, convInt] using this
  · intro h
    have := runSets_concat MultiArgInt64.Set MultiArgInt64.GetInt64s MultiArgInt64.Del convInt64
      (fun s r hr => appendConverted_ok convInt64 _ _ hr) (fun _ _ => rfl) rs
      (NewMultiArgInt64 D) h
    simpa [NewMultiArgInt64, MultiArgInt64.GetInt64s, splitArgs_eq, convInt64] using this
  · intro h
    have := runSets_concat (MultiArgUint.Set env) MultiArgUint.GetUints MultiArgUint.Del
      (convUint env) (fun s r hr => appendConverted_ok (convUint env) _ _ hr) (fun _ _ => rfl) rs
      (NewMultiArgUint D) h
    simpa [NewMultiArgUint, MultiArgUint.GetUints, splitArgs_eq, convUint] using this
  · intro h
    have := runSets_concat MultiArgUint64.Set MultiArgUint64.GetUint64s MultiArgUint64.Del
      convUint64 (fun s r hr => appendConverted_ok convUint64 _ _ hr) (fun _ _ => rfl) rs
      (NewMultiArgUint64 D) h
    simpa [NewMultiArgUint64, MultiArgUint64.GetUint64s, splitArgs_eq, convUint64] using this
  · intro h
    have := runSets_concat (MultiArgFloat64.Set env) MultiArgFloat64.GetFloat64s
      MultiArgFloat64.Del env.ParseFloat (fun s r hr => appendConverted_ok env.ParseFloat _ _ hr)
      (fun _ _ => rfl) rs (NewMultiArgFloat64 D) h
    simpa [NewMultiArgFloat64, MultiArgFloat64.GetFloat64s, splitArgs_eq] using this
  · intro h
    have := runSets_concat MultiArgString.Set MultiArgString.GetStrings MultiArgString.Del
      Except.ok (fun s r _ => by simp [MultiArgString.Set, MultiArgString.GetStrings])
      (fun _ _ => rfl) rs (NewMultiArgString D) h
    have h2 := List.map_injective_iff.mpr
      (fun (a b : String) (hab : (Except.ok a : Except NumError String) = Except.ok b) =>
        by cases hab; rfl) this
    simpa [NewMultiArgString, MultiArgString.GetStrings, splitArgs_eq] using h2

/-- Witness of C1: `MultiArgInt` with delimiter `","`, `Set("1")` then
`Set("2,3")`: both calls succeed and the getter gives `[1, 2, 3]`. -/
theorem multiArg_get_is_concat_of_converted_pieces_witness :
    (runSets (MultiArgInt.Set env64) (NewMultiArgInt ",") ["1", "2,3"]).1.GetInts.map
        Except.ok =
        (((["1", "2,3"] : List String).map
          (fun r => if "," = "" then [r] else strings.Split r ",")).flatten).map
          (fun p => (strconv.ParseInt p 10 64).map (int_of_int64 env64.IntSize)) ∧
      (runSets (MultiArgInt.Set env64) (NewMultiArgInt ",") ["1", "2,3"]).1.GetInts =
        [1, 2, 3] :=
  ⟨(multiArg_get_is_concat_of_converted_pieces env64 "," ["1", "2,3"]).1 (by decide),
    by decide⟩

theorem appendConverted_leading {α : Type} (conv : String → Except NumError α)
    (l : List String) (acc : List α) (h : ∃ p ∈ l, ∃ e, conv p = Except.error e) :
    PartialAppend conv l acc (appendConverted conv l acc).1 (appendConverted conv l acc).2 := by
  obtain ⟨pre, bad, post, e, vs, hl, hpre, hbad, happ⟩ := appendConverted_err conv l acc h
  exact ⟨pre, bad, post, e, vs, hl, hpre, hbad, by rw [happ], by rw [happ]⟩

/-- C2, as the code has it: for every numeric accumulator and every raw text of
which at least one split piece fails to convert, `Set` returns the error of the
first failing piece, and `Args` is its value before the call followed by the
conversions of the pieces that precede that piece; the failing piece and the
pieces after it are not appended, and `Del` is unchanged. -/
theorem multiArg_set_error_appends_leading_pieces (env : Env) (val : String) :
    (∀ ma : MultiArgInt,
      (∃ p ∈ splitArgs ma.Del val, ∃ e, convInt env p = Except.error e) →
        PartialAppend (convInt env) (splitArgs ma.Del val) ma.Args (ma.Set env val).1.Args
          (ma.Set env val).2 ∧ (ma.Set env val).1.Del = ma.Del) ∧
    (∀ ma : MultiArgInt64,
      (∃ p ∈ splitArgs ma.Del val, ∃ e, convInt64 p = Except.error e) →
        PartialAppend convInt64 (splitArgs ma.Del val) ma.Args (ma.Set val).1.Args
          (ma.Set val).2 ∧ (ma.Set val).1.Del = ma.Del) ∧
    (∀ ma : MultiArgUint,
      (∃ p ∈ splitArgs ma.Del val, ∃ e, convUint env p = Except.error e) →
        PartialAppend (convUint env) (splitArgs ma.Del val) ma.Args (ma.Set env val).1.Args
          (ma.Set env val).2 ∧ (ma.Set env val).1.Del = ma.Del) ∧
    (∀ ma : MultiArgUint64,
      (∃ p ∈ splitArgs ma.Del val, ∃ e, convUint64 p = Except.error e) →
        PartialAppend convUint64 (splitArgs ma.Del val) ma.Args (ma.Set val).1.Args
          (ma.Set val).2 ∧ (ma.Set val).1.Del = ma.Del) ∧
    (∀ ma : MultiArgFloat64,
      (∃ p ∈ splitArgs ma.Del val, ∃ e, env.ParseFloat p = Except.error e) →
        PartialAppend env.ParseFloat (splitArgs ma.Del val) ma.Args
          (ma.Set env val).1.Args (ma.Set env val).2 ∧
          (ma.Set env val).1.Del = ma.Del) :=
  ⟨fun ma h => ⟨appendConverted_leading (convInt env) _ ma.Args h, rfl⟩,
   fun ma h => ⟨appendConverted_leading convInt64 _ ma.Args h, rfl⟩,
   fun ma h => ⟨appendConverted_leading (convUint env) _ ma.Args h, rfl⟩,
   fun ma h => ⟨appendConverted_leading convUint64 _ ma.Args h, rfl⟩,
   fun ma h => ⟨appendConverted_leading env.ParseFloat _ ma.Args h, rfl⟩⟩

/-- Witness of the amended C2 at `MultiArgInt`, delimiter `","`, `Set("1,x")`. -/
theorem multiArg_set_error_appends_leading_pieces_witness :
    (∃ p ∈ splitArgs (NewMultiArgInt ",").Del "1,x", ∃ e,
        convInt env64 p = Except.error e) ∧
      PartialAppend (convInt env64) (splitArgs (NewMultiArgInt ",").Del "1,x")
        (NewMultiArgInt ",").Args ((NewMultiArgInt ",").Set env64 "1,x").1.Args
        ((NewMultiArgInt ",").Set env64 "1,x").2 ∧
      ((NewMultiArgInt ",").Set env64 "1,x").1.Del = (NewMultiArgInt ",").Del :=
  ⟨⟨"x", by decide, _, rfl⟩,
   (multiArg_set_error_appends_leading_pieces env64 "1,x").1 (NewMultiArgInt ",")
      ⟨"x", by decide, _, rfl⟩⟩

/-- C2 fails as stated: `MultiArgInt` with delimiter `","` and `Set("1,x")`: the
piece `x` does not convert and `Set` returns an error, yet `Args` went from
`[]` to `[1]`. -/
theorem multiArgInt_set_not_all_or_nothing :
    (∃ p ∈ splitArgs (NewMultiArgInt ",").Del "1,x", ∃ e,
        convInt env64 p = Except.error e) ∧
      ((NewMultiArgInt ",").Set env64 "1,x").2 ≠ none ∧
      (NewMultiArgInt ",").Args = [] ∧
      ((NewMultiArgInt ",").Set env64 "1,x").1.Args = [1] ∧
      ((NewMultiArgInt ",").Set env64 "1,x").1.Args ≠ (NewMultiArgInt ",").Args :=
  ⟨⟨"x", by decide, _, rfl⟩, by decide, rfl, by decide, by decide⟩

/-! ### Package flag: the parse loop -/

theorem markSet_formal (f : flag.FlagSet) (name : String) :
    (f.markSet name).formal = f.formal := rfl

theorem lookup_mem {f : flag.FlagSet} {name : String} {fl : flag.Flag}
    (h : f.lookup name = some fl) : fl ∈ f.formal ∧ fl.Name = name := by
  unfold flag.FlagSet.lookup at h
  exact ⟨List.mem_of_find?_eq_some h, by simpa using List.find?_some h⟩

theorem parseArgs_formal (env : Env) (args : List String) (f : flag.FlagSet) (m : Mem) :
    (flag.FlagSet.parseArgs env args f m).1.formal = f.formal := by
  induction args, f, m using flag.FlagSet.parseArgs.induct env <;>
    simp_all [flag.FlagSet.parseArgs, markSet_formal]

/-- A property of the memory that every `Set` of a registered value keeps is
kept by the parse loop, however the loop ends. -/
theorem parseArgs_mem_invariant (env : Env) (P : Mem → Prop) (F : List flag.Flag)
    (hP : ∀ fl ∈ F, ∀ s m, P m → P (fl.Value.Set env s m).1)
    (args : List String) (f : flag.FlagSet) (m : Mem) (hF : f.formal = F) (h : P m) :
    P (flag.FlagSet.parseArgs env args f m).2.1 := by
  induction args, f, m using flag.FlagSet.parseArgs.induct env <;>
    simp_all [flag.FlagSet.parseArgs, markSet_formal]
  all_goals
    first
    | exact hP _ (hF ▸ (lookup_mem ‹_›).1) _ _ h
    | exact ‹_ → _› (hP _ (hF ▸ (lookup_mem ‹_›).1) _ _ h)

theorem Value_Set_slices (env : Env) (v : Value) (s : String) (m : Mem) :
    (v.Set env s m).1.slices = m.slices := by
  cases v with
  | scalar k p =>
    simp only [Value.Set]
    cases parseScalar env k s <;> simp [Mem.setScalar]
  | multiArg id =>
    simp only [Value.Set]
    cases m.accs[id]? <;> simp

theorem flag_Parse_mem (env : Env) (f : flag.FlagSet) (args : List String) (m : Mem) :
    (f.Parse env args m).2.1 =
      (flag.FlagSet.parseArgs env args { f with parsed := true, args := args } m).2.1 := by
  unfold flag.FlagSet.Parse
  dsimp only
  split
  · rfl
  · split <;> rfl

theorem flag_Parse_slices (env : Env) (f : flag.FlagSet) (args : List String) (m : Mem) :
    (f.Parse env args m).2.1.slices = m.slices := by
  rw [flag_Parse_mem]
  exact parseArgs_mem_invariant env (fun m2 => m2.slices = m.slices) f.formal
    (fun fl _ s m2 h2 => by show (fl.Value.Set env s m2).1.slices = m.slices
                            rw [Value_Set_slices]; exact h2) args
    { f with parsed := true, args := args } m rfl rfl

/-! ### Appends to an accumulator and the slices that share its array -/

theorem go_writeAt_length {α : Type} : ∀ (vs : List α) (i : Nat) (cells : List α),
    (Go.writeAt i vs cells).length = cells.length := by
  intro vs
  induction vs with
  | nil => intro i cells; rfl
  | cons v vs ih => intro i cells; simp [Go.writeAt, ih]

theorem go_writeAt_take {α : Type} : ∀ (vs : List α) (i : Nat) (cells : List α) (j : Nat),
    j ≤ i → (Go.writeAt i vs cells).take j = cells.take j := by
  intro vs
  induction vs with
  | nil => intro i cells j _; rfl
  | cons v vs ih =>
    intro i cells j hj
    simp only [Go.writeAt]
    rw [ih (i + 1) _ j (by omega)]
    apply List.ext_getElem?
    intro n
    simp only [List.getElem?_take]
    split
    · rw [List.getElem?_set_ne (by omega)]
    · rfl

theorem go_elems_eq_drop_take {α : Type} (arrays : List (List α)) (v : Go.Slice) :
    v.elems arrays = ((arrays.getD v.arr []).take (v.off + v.len)).drop v.off := by
  simp [Go.Slice.elems, List.drop_take]

/-- The condition under which an `append` to the slice `s` leaves the elements
of the slice `v` alone, `n` arrays being allocated. -/
theorem go_append_keeps {α : Type} (grow : Nat → Nat → Nat) (zero : α) (arrays : List (List α))
    (s v : Go.Slice) (vs : List α) (h : v.Clear s arrays.length) :
    v.elems (Go.append grow zero arrays s vs).1 = v.elems arrays ∧
      v.Clear (Go.append grow zero arrays s vs).2 (Go.append grow zero arrays s vs).1.length := by
  unfold Go.append
  split
  · rename_i hcap
    dsimp only
    constructor
    · by_cases hv : 0 < v.len
      · obtain ⟨hal, hend⟩ := h hv
        rw [go_elems_eq_drop_take, go_elems_eq_drop_take]
        congr 1
        simp only [List.getD_eq_getElem?_getD, List.getElem?_modify]
        cases hg : arrays[v.arr]? with
        | none => simp
        | some cells =>
          simp only [Option.map_eq_map, Option.map_some', Option.getD_some]
          split
          · rename_i harr
            cases vs with
            | nil => rfl
            | cons x xs =>
              have hlt : s.len < s.cap := by simp at hcap; omega
              exact go_writeAt_take _ _ _ _ (hend harr hlt)
          · rfl
      · have h0 : v.len = 0 := by omega
        simp [Go.Slice.elems, h0]
    · intro hv
      obtain ⟨hal, hend⟩ := h hv
      refine ⟨by simpa using hal, ?_⟩
      intro harr hlt
      have := hend harr (by simp at hlt; omega)
      simp; omega
  · dsimp only
    constructor
    · by_cases hv : 0 < v.len
      · obtain ⟨hal, _⟩ := h hv
        simp only [Go.Slice.elems, List.getD_eq_getElem?_getD]
        rw [List.getElem?_append_left hal]
      · have h0 : v.len = 0 := by omega
        simp [Go.Slice.elems, h0]
    · intro hv
      obtain ⟨hal, _⟩ := h hv
      refine ⟨by simp; omega, ?_⟩
      intro harr
      simp at harr
      omega

theorem go_appendConverted_keeps {α : Type} (grow : Nat → Nat → Nat) (zero : α)
    (conv : String → Except NumError α) (v : Go.Slice) :
    ∀ (pieces : List String) (st : List (List α) × Go.Slice), v.Clear st.2 st.1.length →
      v.elems (Go.appendConverted grow zero conv pieces st).1.1 = v.elems st.1 ∧
        v.Clear (Go.appendConverted grow zero conv pieces st).1.2
          (Go.appendConverted grow zero conv pieces st).1.1.length := by
  intro pieces
  induction pieces with
  | nil => intro st h; exact ⟨rfl, h⟩
  | cons s rest ih =>
    intro st h
    simp only [Go.appendConverted]
    cases conv s with
    | error e => exact ⟨rfl, h⟩
    | ok x =>
      dsimp only
      obtain ⟨h1, h2⟩ := go_append_keeps grow zero st.1 st.2 v [x] h
      obtain ⟨h3, h4⟩ := ih _ h2
      exact ⟨by rw [h3, h1], h4⟩

theorem go_accumSet_keeps (grow : Nat → Nat → Nat) (env : Env) (k : ElemKind) (Del : String)
    (arrays : List (List k.type)) (Args v : Go.Slice) (val : String)
    (h : v.Clear Args arrays.length) :
    v.elems (Go.accumSet grow env k Del arrays Args val).1.1 = v.elems arrays ∧
      v.Clear (Go.accumSet grow env k Del arrays Args val).1.2
        (Go.accumSet grow env k Del arrays Args val).1.1.length := by
  cases k
  case string => exact go_append_keeps grow _ arrays Args v _ h
  all_goals exact go_appendConverted_keeps grow _ _ v _ (arrays, Args) h

theorem go_append_length {α : Type} (grow : Nat → Nat → Nat) (zero : α) (arrays : List (List α))
    (s : Go.Slice) (vs : List α) :
    arrays.length ≤ (Go.append grow zero arrays s vs).1.length := by
  unfold Go.append
  split <;> simp

theorem go_appendConverted_length {α : Type} (grow : Nat → Nat → Nat) (zero : α)
    (conv : String → Except NumError α) :
    ∀ (pieces : List String) (st : List (List α) × Go.Slice),
      st.1.length ≤ (Go.appendConverted grow zero conv pieces st).1.1.length := by
  intro pieces
  induction pieces with
  | nil => intro st; exact le_refl _
  | cons s rest ih =>
    intro st
    simp only [Go.appendConverted]
    cases conv s with
    | error e => exact le_refl _
    | ok x => exact le_trans (go_append_length grow zero st.1 st.2 [x]) (ih _)

theorem go_accumSet_length (grow : Nat → Nat → Nat) (env : Env) (k : ElemKind) (Del : String)
    (arrays : List (List k.type)) (Args : Go.Slice) (val : String) :
    arrays.length ≤ (Go.accumSet grow env k Del arrays Args val).1.1.length := by
  cases k
  case string => exact go_append_length grow _ arrays Args _
  all_goals exact go_appendConverted_length grow _ _ _ (arrays, Args)

theorem go_Clear_mono (v s : Go.Slice) (n n2 : Nat) (hn : n ≤ n2) (h : v.Clear s n) :
    v.Clear s n2 := by
  intro hv
  obtain ⟨h1, h2⟩ := h hv
  exact ⟨by omega, h2⟩

/-- What the parse loop keeps of a slice variable that is clear of the
accumulators: its slice value, its elements, and its being clear. -/
theorem Go_Value_Set_keeps (grow : Nat → Nat → Nat) (env : Env) (val : Value) (s : String)
    (h0 h : Go.Mem) (k : ElemKind) (p : Ptr)
    (hinv : h.slices = h0.slices ∧ h.elems k p = h0.elems k p ∧ h.Apart k p) :
    (Go.Value.Set grow env val s h).1.slices = h0.slices ∧
      (Go.Value.Set grow env val s h).1.elems k p = h0.elems k p ∧
      (Go.Value.Set grow env val s h).1.Apart k p := by
  obtain ⟨hs, he, ha⟩ := hinv
  cases val with
  | scalar k2 p2 =>
    simp only [Go.Value.Set]
    cases parseScalar env k2 s <;> exact ⟨hs, he, ha⟩
  | multiArg id =>
    simp only [Go.Value.Set]
    cases hacc : h.accs[id]? with
    | none => exact ⟨hs, he, ha⟩
    | some a =>
      dsimp only
      refine ⟨hs, ?_, ?_⟩
      · by_cases hk : a.k = k
        · subst hk
          have hc := ha a (List.getElem?_mem hacc) rfl
          have := (go_accumSet_keeps grow env a.k a.Del (h.arrays a.k) a.Args (h.slices a.k p) s hc).1
          rw [← he]
          simpa [Go.Mem.elems] using this
        · rw [← he]
          simp [Go.Mem.elems, Function.update_noteq (Ne.symm hk)]
      · intro b hb hbk
        by_cases hk : a.k = k
        · subst hk
          have hc := ha a (List.getElem?_mem hacc) rfl
          have hkeep := go_accumSet_keeps grow env a.k a.Del (h.arrays a.k) a.Args
            (h.slices a.k p) s hc
          have hlen : (h.arrays a.k).length ≤
              (Go.accumSet grow env a.k a.Del (h.arrays a.k) a.Args s).1.1.length :=
            go_accumSet_length grow env a.k a.Del (h.arrays a.k) a.Args s
          rcases List.mem_or_eq_of_mem_set hb with hb | hb
          · have := go_Clear_mono _ _ _ _ hlen (ha b hb hbk)
            simpa using this
          · subst hb
            simpa using hkeep.2
        · rcases List.mem_or_eq_of_mem_set hb with hb | hb
          · have := ha b hb hbk
            simpa [Function.update_noteq (Ne.symm hk)] using this
          · subst hb
            exact absurd hbk hk

/-- A property of the memory with backing arrays that every `Set` of a
registered value keeps is kept by the parse loop, however the loop ends. -/
theorem go_parseArgs_mem_invariant (grow : Nat → Nat → Nat) (env : Env) (P : Go.Mem → Prop)
    (F : List flag.Flag)
    (hP : ∀ fl ∈ F, ∀ s m, P m → P (Go.Value.Set grow env fl.Value s m).1)
    (args : List String) (f : flag.FlagSet) (m : Go.Mem) (hF : f.formal = F) (h : P m) :
    P (Go.flag.FlagSet.parseArgs grow env args f m).2.1 := by
  induction args, f, m using Go.flag.FlagSet.parseArgs.induct grow env <;>
    simp_all [Go.flag.FlagSet.parseArgs, markSet_formal]
  all_goals
    first
    | exact hP _ (hF ▸ (lookup_mem ‹_›).1) _ _ h
    | exact ‹_ → _› (hP _ (hF ▸ (lookup_mem ‹_›).1) _ _ h)

theorem go_flag_Parse_mem (grow : Nat → Nat → Nat) (env : Env) (f : flag.FlagSet)
    (args : List String) (m : Go.Mem) :
    (Go.flag.FlagSet.Parse grow env f args m).2.1 =
      (Go.flag.FlagSet.parseArgs grow env args { f with parsed := true, args := args } m).2.1 := by
  unfold Go.flag.FlagSet.Parse
  dsimp only
  split
  · rfl
  · split <;> rfl

theorem go_flag_Parse_keeps (grow : Nat → Nat → Nat) (env : Env) (f : flag.FlagSet)
    (args : List String) (h : Go.Mem) (k : ElemKind) (p : Ptr) (hap : h.Apart k p) :
    (Go.flag.FlagSet.Parse grow env f args h).2.1.slices = h.slices ∧
      (Go.flag.FlagSet.Parse grow env f args h).2.1.elems k p = h.elems k p ∧
      (Go.flag.FlagSet.Parse grow env f args h).2.1.Apart k p := by
  rw [go_flag_Parse_mem]
  exact go_parseArgs_mem_invariant grow env
    (fun h2 => h2.slices = h.slices ∧ h2.elems k p = h.elems k p ∧ h2.Apart k p) f.formal
    (fun fl _ s m2 h2 => Go_Value_Set_keeps grow env fl.Value s h m2 k p h2) args
    { f with parsed := true, args := args } h rfl ⟨rfl, rfl, hap⟩

theorem go_flag_Parse_slices (grow : Nat → Nat → Nat) (env : Env) (f : flag.FlagSet)
    (args : List String) (h : Go.Mem) :
    (Go.flag.FlagSet.Parse grow env f args h).2.1.slices = h.slices := by
  rw [go_flag_Parse_mem]
  exact go_parseArgs_mem_invariant grow env (fun h2 => h2.slices = h.slices) f.formal
    (fun fl _ s m2 h2 => by
      show (Go.Value.Set grow env fl.Value s m2).1.slices = h.slices
      rw [← h2]
      cases hv : fl.Value with
      | scalar k2 p2 =>
        simp only [Go.Value.Set]
        cases parseScalar env k2 s <;> rfl
      | multiArg id =>
        simp only [Go.Value.Set]
        cases m2.accs[id]? <;> rfl) args
    { f with parsed := true, args := args } h rfl rfl

/-- C3, amended: for every flag set, every memory and every argument list on
which `flag.FlagSet.Parse` reports an error (it returns one, exits or panics),
`FlagSet.Parse` runs no deferred commit: the memory it leaves is the one
`flag.FlagSet.Parse` left, and every slice variable holds the slice value
(array, offset, length, capacity) it held before the call. The elements of a
slice variable are those it held before the call when the variable is clear of
the accumulators of its element type: it is empty, or it shares its backing
array with no accumulator that has capacity to spare, or it ends within the
length of each such accumulator (as it does after a commit, until the caller
appends to it in place). The capacity `grow` that `append` allocates is any. -/
theorem Parse_error_keeps_slices (grow : Nat → Nat → Nat) (env : Env) (fs : FlagSet)
    (args : List String) (h : Go.Mem)
    (herr : (Go.flag.FlagSet.Parse grow env fs.flag_flagset args h).2.2 ≠ .returned none) :
    (Go.FlagSet.Parse grow env fs args h).2.1 =
        (Go.flag.FlagSet.Parse grow env fs.flag_flagset args h).2.1 ∧
      (Go.FlagSet.Parse grow env fs args h).2.1.slices = h.slices ∧
      ∀ (k : ElemKind) (p : Ptr), h.Apart k p →
        (Go.FlagSet.Parse grow env fs args h).2.1.elems k p = h.elems k p := by
  have h1 : (Go.FlagSet.Parse grow env fs args h).2.1 =
      (Go.flag.FlagSet.Parse grow env fs.flag_flagset args h).2.1 := by
    unfold Go.FlagSet.Parse
    dsimp only
    split
    · rfl
    · rename_i hh; exact absurd hh herr
    · rfl
    · rfl
  refine ⟨h1, by rw [h1]; exact go_flag_Parse_slices grow env _ args h, ?_⟩
  intro k p hap
  rw [h1]
  exact (go_flag_Parse_keeps grow env _ args h k p hap).2.1

/-- Witness of C3: after the commit of `-n 1 -n 2 -n 3` the destination shares
the array of the accumulator and ends where the accumulator ends; `Parse` of
`-n 5 -n x` fails after the 5 has been written into the shared array, and the
destination still holds 1, 2, 3. -/
theorem Parse_error_keeps_slices_witness :
    intSliceCommitted.2.1.slices .int 0 = { arr := 2, off := 0, len := 3, cap := 4 } ∧
      intSliceCommitted.2.1.accs =
        [{ k := .int, Args := { arr := 2, off := 0, len := 3, cap := 4 }, Del := "" }] ∧
      (Go.flag.FlagSet.Parse Go.growslice env64 intSliceCommitted.1.flag_flagset
          ["-n", "5", "-n", "x"] intSliceCommitted.2.1).2.2 =
        .returned (some (.invalidValue "x" "n" .ErrSyntax)) ∧
      (Go.FlagSet.Parse Go.growslice env64 intSliceCommitted.1 ["-n", "5", "-n", "x"]
          intSliceCommitted.2.1).2.1.arrays .int = [[1], [1, 2], [1, 2, 3, 5]] ∧
      (Go.FlagSet.Parse Go.growslice env64 intSliceCommitted.1 ["-n", "5", "-n", "x"]
          intSliceCommitted.2.1).2.1.elems .int 0 = [1, 2, 3] :=
  ⟨by decide, by decide, by decide, by decide,
    ((Parse_error_keeps_slices Go.growslice env64 intSliceCommitted.1 ["-n", "5", "-n", "x"]
      intSliceCommitted.2.1 (by decide)).2.2 .int 0
      (by unfold Go.Mem.Apart Go.Slice.Clear; decide)).trans (by decide)⟩

/-- C3 fails as stated: the flag set of `intSliceRegs`, whose memory after
registration is `intSliceHeap`, commits 1, 2, 3 on `-n 1 -n 2 -n 3`; the caller
appends 99 to the destination, which then holds 1, 2, 3, 99; `Parse` of
`-n 5 -n x` fails, and the destination holds 1, 2, 3, 5 after it: the `append`
of `MultiArgInt.Set` has written the 5 over the 99 in the shared array. -/
theorem Parse_error_rewrites_shared_slice :
    (registerAll intSliceRegs (NewFlagSet "test" .ContinueOnError) zeroMem).isSome = true ∧
      intSliceHeap.view.accs = intSliceState.2.accs ∧
      (∀ k p, intSliceHeap.view.slices k p = intSliceState.2.slices k p) ∧
      intSliceCommitted.2.2 = .returned none ∧
      intSliceCommitted.2.1.elems .int 0 = [1, 2, 3] ∧
      intSliceExtended.elems .int 0 = [1, 2, 3, 99] ∧
      (Go.flag.FlagSet.Parse Go.growslice env64 intSliceCommitted.1.flag_flagset
          ["-n", "5", "-n", "x"] intSliceExtended).2.2 =
        .returned (some (.invalidValue "x" "n" .ErrSyntax)) ∧
      (Go.FlagSet.Parse Go.growslice env64 intSliceCommitted.1 ["-n", "5", "-n", "x"]
          intSliceExtended).2.1.elems .int 0 = [1, 2, 3, 5] :=
  ⟨by decide, by decide, by intro k p; cases k <;> rfl, by decide, by decide, by decide,
    by decide, by decide⟩

/-- C4 fails on the code: `FlagSet.Parse` returns nil when `flag.FlagSet.Parse`
returns an error. A fresh flag set under `ContinueOnError` on `-help`: the flag
package returns `ErrHelp`, `FlagSet.Parse` returns nil; the flag set of
`ExampleMultivalue` on `-count x` and on the unknown `-nope`: the flag package
returns an error, `FlagSet.Parse` returns nil. -/
theorem Parse_returns_nil_on_error :
    ((NewFlagSet "test" .ContinueOnError).flag_flagset.Parse env64 ["-help"] zeroMem).2.2 =
        .returned (some .ErrHelp) ∧
      ((NewFlagSet "test" .ContinueOnError).Parse env64 ["-help"] zeroMem).2.2 =
        .returned none ∧
      (multivalueSet.flag_flagset.Parse env64 ["-count", "x"] multivalueMem).2.2 =
        .returned (some (.invalidValue "x" "count" .ErrSyntax)) ∧
      (multivalueSet.Parse env64 ["-count", "x"] multivalueMem).2.2 = .returned none ∧
      (multivalueSet.flag_flagset.Parse env64 ["-nope"] multivalueMem).2.2 =
        .returned (some (.notDefined "nope")) ∧
      (multivalueSet.Parse env64 ["-nope"] multivalueMem).2.2 = .returned none :=
  ⟨by decide, by decide, by decide, by decide, by decide, by decide⟩

/-! ### parse_tag -/

theorem parse_tag_loop_append (pre : List ScanItem) :
    ∀ (st st2 : TagState) (post : List ScanItem), tagStateAfter pre st = some st2 →
      parse_tag_loop (pre ++ post) st = parse_tag_loop post st2 := by
  induction pre with
  | nil => intro st st2 post h; simp [tagStateAfter] at h; simp [h]
  | cons it rest ih =>
    intro st st2 post h
    simp only [tagStateAfter] at h
    simp only [List.cons_append, parse_tag_loop]
    cases hs : parse_tag_step st it with
    | next st3 => rw [hs] at h; simpa using ih st3 st2 post h
    | retNil => rw [hs] at h; cases h
    | panic => rw [hs] at h; cases h

theorem bindFields_skip (env : Env) (typeName : String) (fld : StructField)
    (hfld : parse_tag env fld.Tag = .ok none) (fields2 : List StructField) :
    ∀ (fields1 : List StructField) (fs : FlagSet) (m : Mem),
      FlagSet.bindFields env typeName (fields1 ++ fld :: fields2) fs m =
        FlagSet.bindFields env typeName (fields1 ++ fields2) fs m := by
  intro fields1
  induction fields1 with
  | nil =>
    intro fs m
    simp only [List.nil_append, FlagSet.bindFields, hfld]
    split <;> rfl
  | cons g rest ih =>
    intro fs m
    simp only [List.cons_append, FlagSet.bindFields]
    split
    · exact ih fs m
    · split
      · rfl
      · exact ih fs m
      · split
        · exact ih fs m
        · split
          · exact ih _ _
          · rfl
          · rfl

/-- C10: for every tag whose scan has an `=` symbol in a round the loop of
`parse_tag` reaches after the name token (`field_idx` is not 0) while no key
name is pending (`field_name` is empty), `parse_tag` returns nil, without a
panic; and `FlagFromStruct` skips a field with such a tag: on a struct with the
field it does what it does on the struct without the field, and on a struct
with that field alone it returns nil and changes nothing. -/
theorem parse_tag_equals_without_key (env : Env) (tag : String) (pre post : List ScanItem)
    (st : TagState) (hscan : env.Scan tag = pre ++ symbolItem "=" :: post)
    (hpre : tagStateAfter pre TagState.init = some st) (hidx : st.field_idx ≠ 0)
    (hkey : st.field_name = "") :
    parse_tag env tag = .ok none ∧
      ∀ (typeName : String) (fld : StructField) (fields1 fields2 : List StructField)
        (fs : FlagSet) (m : Mem), fld.Tag = tag →
        fs.FlagFromStruct env m (.structPtr typeName (some (fields1 ++ fld :: fields2))) =
            fs.FlagFromStruct env m (.structPtr typeName (some (fields1 ++ fields2))) ∧
          fs.FlagFromStruct env m (.structPtr typeName (some [fld])) = .ret fs m none := by
  have h1 : parse_tag env tag = .ok none := by
    unfold parse_tag
    split
    · rfl
    · rw [hscan, parse_tag_loop_append pre _ st _ hpre]
      simp [parse_tag_loop, parse_tag_step, symbolItem, hidx, hkey]
  refine ⟨h1, ?_⟩
  intro typeName fld fields1 fields2 fs m htag
  have h2 : parse_tag env fld.Tag = .ok none := by rw [htag]; exact h1
  refine ⟨bindFields_skip env typeName fld h2 fields2 fields1 fs m, ?_⟩
  have := bindFields_skip env typeName fld h2 [] [] fs m
  simpa [FlagSet.FlagFromStruct, FlagSet.bindFields] using this

/-- Witness of C10: the tag `ip=x`, whose `=` follows the name token. -/
theorem parse_tag_equals_without_key_witness :
    parse_tag env64 "ip=x" = .ok none ∧
      ∀ (typeName : String) (fld : StructField) (fields1 fields2 : List StructField)
        (fs : FlagSet) (m : Mem), fld.Tag = "ip=x" →
        fs.FlagFromStruct env64 m (.structPtr typeName (some (fields1 ++ fld :: fields2))) =
            fs.FlagFromStruct env64 m (.structPtr typeName (some (fields1 ++ fields2))) ∧
          fs.FlagFromStruct env64 m (.structPtr typeName (some [fld])) = .ret fs m none :=
  parse_tag_equals_without_key env64 "ip=x"
    [{ Err := false, Token := { Typ := .TokenTypeIdent, Text := "ip" } }]
    [{ Err := false, Token := { Typ := .TokenTypeIdent, Text := "x" } }]
    { fields := Function.update TagState.init.fields "name" "ip", field_idx := 1,
      field_name := "", expecting_name := true, expecting_value := false }
    (by decide) (by rfl) (by decide) rfl

/-! ### The tokenizer and parse_tag on written tags -/

theorem isIdentChar_not_space {c : Char} (h : isIdentChar c = true) : isSpaceChar c = false := by
  simp only [isIdentChar, isSpaceChar, decide_eq_true_eq, decide_eq_false_iff_not] at h ⊢
  omega

theorem isIdentChar_ne_quote {c : Char} (h : isIdentChar c = true) : c ≠ quoteChar := by
  intro hc
  subst hc
  revert h
  decide

theorem startChar_ident {c : Char} (h : isIdentChar c = true) :
    startChar c = ([], .ident [c]) := by
  simp [startChar, isIdentChar_not_space h, isIdentChar_ne_quote h, h]

theorem scan_ident_run : ∀ (cs acc rest : List Char), (∀ c ∈ cs, isIdentChar c = true) →
    scanLoop (.ident acc) (cs ++ rest) = scanLoop (.ident (cs.reverse ++ acc)) rest := by
  intro cs
  induction cs with
  | nil => intro acc rest _; rfl
  | cons c cs ih =>
    intro acc rest h
    have hc := h c (List.mem_cons_self _ _)
    simp only [List.cons_append, scanLoop, hc, if_true, List.append_eq]
    rw [ih (c :: acc) rest (fun d hd => h d (List.mem_cons_of_mem _ hd))]
    simp

theorem scan_literal_from : ∀ (raw : List Char) (esc : Bool) (acc rest : List Char),
    literalBodyFrom esc raw = true →
    scanLoop (if esc then .strEsc acc else .str acc) (raw ++ quoteChar :: rest) =
      stringItem ((unescapeFrom esc raw).reverse ++ acc) :: scanLoop .start rest := by
  intro raw
  induction raw with
  | nil =>
    intro esc acc rest h
    cases esc with
    | true => simp [literalBodyFrom] at h
    | false => simp [scanLoop, unescapeFrom, show quoteChar ≠ backslashChar by decide]
  | cons c t ih =>
    intro esc acc rest h
    by_cases hq : c = quoteChar
    · subst hq
      cases esc with
      | false => simp [literalBodyFrom] at h
      | true =>
        simp only [literalBodyFrom, if_true, Bool.true_and] at h
        have := ih false (quoteChar :: acc) rest h
        simp only [Bool.false_eq_true, if_false] at this
        simp only [if_true, List.cons_append, scanLoop, unescapeFrom, this, List.append_eq,
          List.reverse_cons, List.append_assoc, List.singleton_append, List.nil_append]
    · by_cases hb : c = backslashChar
      · subst hb
        simp only [literalBodyFrom, hq, if_false, decide_True] at h
        cases esc with
        | false =>
          have := ih true acc rest h
          simp only [if_true] at this
          simp only [Bool.false_eq_true, if_false, List.cons_append, scanLoop, if_true,
            unescapeFrom, hq, this, List.append_eq]
        | true =>
          have := ih true (backslashChar :: acc) rest h
          simp only [if_true] at this
          simp only [if_true, List.cons_append, scanLoop, hq, if_false, unescapeFrom, this,
            List.append_eq, List.reverse_cons, List.append_assoc, List.singleton_append, List.nil_append]
      · simp only [literalBodyFrom, hq, if_false, hb, decide_False] at h
        cases esc with
        | false =>
          have := ih false (c :: acc) rest h
          simp only [Bool.false_eq_true, if_false] at this
          simp only [Bool.false_eq_true, if_false, List.cons_append, scanLoop, hb, hq,
            unescapeFrom, this, List.append_eq, List.reverse_cons, List.append_assoc,
            List.singleton_append, List.nil_append]
        | true =>
          have := ih false (c :: backslashChar :: acc) rest h
          simp only [Bool.false_eq_true, if_false] at this
          simp only [if_true, List.cons_append, scanLoop, hb, hq, if_false, unescapeFrom, this,
            List.append_eq, List.reverse_cons, List.append_assoc, List.singleton_append,
            List.nil_append]

theorem scan_literal (raw acc rest : List Char) (h : literalBody raw = true) :
    scanLoop (.str acc) (raw ++ quoteChar :: rest) =
      stringItem ((unescapeQuotes raw).reverse ++ acc) :: scanLoop .start rest := by
  have := scan_literal_from raw false acc rest h
  simpa using this

theorem scan_ident_then {d : Char} (hd : isIdentChar d = false) (cs acc rest : List Char)
    (h : ∀ c ∈ cs, isIdentChar c = true) :
    scanLoop (.ident acc) (cs ++ d :: rest) =
      identItem (cs.reverse ++ acc) :: ((startChar d).1 ++ scanLoop (startChar d).2 rest) := by
  rw [scan_ident_run cs acc _ h]
  simp [scanLoop, hd]

theorem scan_ident_end (cs acc : List Char) (h : ∀ c ∈ cs, isIdentChar c = true) :
    scanLoop (.ident acc) cs = [identItem (cs.reverse ++ acc)] := by
  have := scan_ident_run cs acc [] h
  simp only [List.append_nil] at this
  rw [this]; rfl

theorem literalBody_plain : ∀ (l : List Char),
    (∀ c ∈ l, c ≠ quoteChar ∧ c ≠ backslashChar) →
    literalBody l = true ∧ unescapeQuotes l = l := by
  intro l
  induction l with
  | nil => intro _; exact ⟨rfl, rfl⟩
  | cons c t ih =>
    intro h
    have hc := h c (List.mem_cons_self _ _)
    have ht := ih (fun d hd => h d (List.mem_cons_of_mem _ hd))
    simp only [literalBody, unescapeQuotes] at ht ⊢
    simp [literalBodyFrom, unescapeFrom, hc.1, hc.2, ht.1, ht.2]

theorem scan_name (n : String) (hn : isIdent n) (d : Char) (hd : isIdentChar d = false)
    (rest : List Char) :
    scanLoop .start (n.data ++ d :: rest) =
      identItem n.data.reverse :: ((startChar d).1 ++ scanLoop (startChar d).2 rest) := by
  obtain ⟨hne, hall⟩ := hn
  match hdat : n.data, hne, hall with
  | c :: cs, _, hall =>
    have hc := hall c (List.mem_cons_self _ _)
    simp only [List.cons_append, scanLoop, startChar_ident hc, List.nil_append, List.append_eq]
    rw [scan_ident_then hd cs [c] rest (fun x hx => hall x (List.mem_cons_of_mem _ hx))]
    simp

theorem scan_name_end (n : String) (hn : isIdent n) :
    scanLoop .start n.data = [identItem n.data.reverse] := by
  obtain ⟨hne, hall⟩ := hn
  match hdat : n.data, hne, hall with
  | c :: cs, _, hall =>
    have hc := hall c (List.mem_cons_self _ _)
    simp only [scanLoop, startChar_ident hc, List.nil_append]
    rw [scan_ident_end cs [c] (fun x hx => hall x (List.mem_cons_of_mem _ hx))]
    simp

theorem startChar_comma : startChar ',' = ([symbolItem ","], .start) := by decide
theorem startChar_eq : startChar '=' = ([symbolItem "="], .start) := by decide
theorem startChar_space : startChar ' ' = ([], .start) := by decide
theorem startChar_quote : startChar quoteChar = ([], .str []) := by decide

theorem scan_pair (key : String) (hkey : isIdent key) (raw rest : List Char)
    (h : literalBody raw = true) :
    scanLoop .start (key.data ++ '=' :: quoteChar :: (raw ++ quoteChar :: rest)) =
      identItem key.data.reverse :: symbolItem "=" ::
        stringItem (unescapeQuotes raw).reverse :: scanLoop .start rest := by
  have := scan_literal raw [] rest h
  simp only [List.append_nil] at this
  rw [scan_name key hkey '=' (by decide)]
  simp only [startChar_eq, scanLoop, startChar_quote, this, List.nil_append, List.cons_append]

theorem isIdent_del : isIdent "del" := ⟨by decide, by decide⟩
theorem isIdent_usage : isIdent "usage" := ⟨by decide, by decide⟩

theorem parse_tag_nonempty (env : Env) (tag : String) (h : tag.data ≠ []) :
    parse_tag env tag = parse_tag_loop (env.Scan tag) TagState.init := by
  have : tag ≠ "" := by intro h2; subst h2; exact h rfl
  simp [parse_tag, this]

theorem loop_pair (st : TagState) (key : String) (v : List Char) (rest : List ScanItem)
    (hidx : st.field_idx ≠ 0) (hname : st.expecting_name = true) (hkey : key ≠ "") :
    parse_tag_loop (identItem key.data.reverse :: symbolItem "=" :: stringItem v :: rest) st =
      parse_tag_loop rest
        { st with fields := Function.update st.fields key (String.mk v.reverse),
                  expecting_name := false, expecting_value := false, field_name := "" } := by
  simp [parse_tag_loop, parse_tag_step, identItem, symbolItem, stringItem, String.length, hidx,
    hname, hkey, show ¬ (v.length + 1 + 1 < 2) by omega]


theorem loop_comma (st : TagState) (rest : List ScanItem) (hidx : st.field_idx ≠ 0) :
    parse_tag_loop (symbolItem "," :: rest) st =
      parse_tag_loop rest { st with field_idx := st.field_idx + 1, expecting_name := true } := by
  simp [parse_tag_loop, parse_tag_step, symbolItem, hidx]

theorem loop_name (n : String) (rest : List ScanItem) :
    parse_tag_loop (identItem n.data.reverse :: rest) TagState.init =
      parse_tag_loop rest
        { TagState.init with fields := Function.update TagState.init.fields "name" n,
                             field_idx := 1 } := by
  simp [parse_tag_loop, parse_tag_step, identItem, TagState.init]

theorem scan_comma_space (rest : List Char) :
    scanLoop .start (',' :: ' ' :: rest) = symbolItem "," :: scanLoop .start rest := by
  simp [scanLoop, startChar_comma, startChar_space]

theorem scan_name_comma (n : String) (hn : isIdent n) (rest : List Char) :
    scanLoop .start (n.data ++ ',' :: rest) =
      identItem n.data.reverse :: symbolItem "," :: scanLoop .start rest := by
  rw [scan_name n hn ',' (by decide), startChar_comma]; rfl

theorem scan_space (rest : List Char) : scanLoop .start (' ' :: rest) = scanLoop .start rest := by
  simp [scanLoop, startChar_space]

theorem scan_nil : scanLoop .start [] = [] := rfl

/-- C8, amended: for every identifier `n` and all texts `D` and `U` that
contain no quote and no backslash, `parse_tag` returns the triple of `n`, `D`
and `U` on the tag `n,del='D', usage='U'`, and the empty string for the
delimiter or the usage when that pair is absent from the tag. -/
theorem parse_tag_name_del_usage (n D U : String) (hn : isIdent n)
    (hD : ∀ c ∈ D.data, c ≠ quoteChar ∧ c ≠ backslashChar)
    (hU : ∀ c ∈ U.data, c ≠ quoteChar ∧ c ≠ backslashChar) :
    parse_tag env64 (n ++ ",del='" ++ D ++ "', usage='" ++ U ++ "'") =
        .ok (some { flag_name := n, delimiter := D, usage_string := U }) ∧
      parse_tag env64 (n ++ ",del='" ++ D ++ "'") =
        .ok (some { flag_name := n, delimiter := D, usage_string := "" }) ∧
      parse_tag env64 (n ++ ", usage='" ++ U ++ "'") =
        .ok (some { flag_name := n, delimiter := "", usage_string := U }) ∧
      parse_tag env64 n = .ok (some { flag_name := n, delimiter := "", usage_string := "" }) := by
  have hDl := literalBody_plain D.data hD
  have hUl := literalBody_plain U.data hU
  have hne : n.data ≠ [] := hn.1
  refine ⟨?_, ?_, ?_, ?_⟩
  · rw [parse_tag_nonempty _ _ (by simp [hne])]
    have hd : (n ++ ",del='" ++ D ++ "', usage='" ++ U ++ "'").data =
        n.data ++ ',' :: ("del".data ++ '=' :: quoteChar :: (D.data ++ quoteChar :: ',' :: ' ' ::
          ("usage".data ++ '=' :: quoteChar :: (U.data ++ quoteChar :: [])))) := by
      simp only [String.data_append]
      show n.data ++ [',', 'd', 'e', 'l', '=', quoteChar] ++ D.data ++
        [quoteChar, ',', ' ', 'u', 's', 'a', 'g', 'e', '=', quoteChar] ++ U.data ++ [quoteChar] = _
      simp
    show parse_tag_loop (scanLoop .start _) _ = _
    rw [hd, scan_name_comma n hn, scan_pair "del" isIdent_del _ _ hDl.1, scan_comma_space,
      scan_pair "usage" isIdent_usage _ _ hUl.1, scan_nil,
      loop_name, loop_comma _ _ (by simp), loop_pair _ _ _ _ (by simp) rfl (by decide),
      loop_comma _ _ (by simp), loop_pair _ _ _ _ (by simp) rfl (by decide)]
    simp [parse_tag_loop, hDl.2, hUl.2, Function.update, TagState.init]
  · rw [parse_tag_nonempty _ _ (by simp [hne])]
    have hd : (n ++ ",del='" ++ D ++ "'").data =
        n.data ++ ',' :: ("del".data ++ '=' :: quoteChar :: (D.data ++ quoteChar :: [])) := by
      simp only [String.data_append]
      show n.data ++ [',', 'd', 'e', 'l', '=', quoteChar] ++ D.data ++ [quoteChar] = _
      simp
    show parse_tag_loop (scanLoop .start _) _ = _
    rw [hd, scan_name_comma n hn, scan_pair "del" isIdent_del _ _ hDl.1, scan_nil,
      loop_name, loop_comma _ _ (by simp), loop_pair _ _ _ _ (by simp) rfl (by decide)]
    simp [parse_tag_loop, hDl.2, Function.update, TagState.init]
  · rw [parse_tag_nonempty _ _ (by simp [hne])]
    have hd : (n ++ ", usage='" ++ U ++ "'").data =
        n.data ++ ',' :: ' ' :: ("usage".data ++ '=' :: quoteChar :: (U.data ++ quoteChar :: [])) := by
      simp only [String.data_append]
      show n.data ++ [',', ' ', 'u', 's', 'a', 'g', 'e', '=', quoteChar] ++ U.data ++
        [quoteChar] = _
      simp
    show parse_tag_loop (scanLoop .start _) _ = _
    rw [hd, scan_name_comma n hn, scan_space, scan_pair "usage" isIdent_usage _ _ hUl.1,
      scan_nil, loop_name, loop_comma _ _ (by simp), loop_pair _ _ _ _ (by simp) rfl (by decide)]
    simp [parse_tag_loop, hUl.2, Function.update, TagState.init]
  · rw [parse_tag_nonempty _ _ hne]
    show parse_tag_loop (scanLoop .start _) _ = _
    rw [scan_name_end n hn, loop_name]
    simp [parse_tag_loop, Function.update, TagState.init]

/-- Witness of the amended C8: the tag `ip,del=',', usage='The IP address'`. -/
theorem parse_tag_name_del_usage_witness :
    parse_tag env64 "ip,del=',', usage='The IP address'" =
      .ok (some { flag_name := "ip", delimiter := ",", usage_string := "The IP address" }) :=
  (parse_tag_name_del_usage "ip" "," "The IP address" ⟨by decide, by decide⟩ (by decide)
    (by decide)).1

/-- C8 fails as stated: the delimiter text made of one backslash contains no
quote character, yet on the tag written with it the backslash escapes the
closing quote and `parse_tag` returns nil, not the triple. -/
theorem parse_tag_backslash_delimiter :
    (∀ c ∈ ("\\" : String).data, c ≠ quoteChar) ∧ isIdent "n" ∧
      (∀ c ∈ ("U" : String).data, c ≠ quoteChar) ∧
      parse_tag env64 ("n" ++ ",del='" ++ "\\" ++ "', usage='" ++ "U" ++ "'") = .ok none ∧
      parse_tag env64 ("n" ++ ",del='" ++ "\\" ++ "', usage='" ++ "U" ++ "'") ≠
        .ok (some { flag_name := "n", delimiter := "\\", usage_string := "U" }) :=
  ⟨by decide, ⟨by decide, by decide⟩, by decide, by rfl, by
    have h : parse_tag env64 ("n" ++ ",del='" ++ "\\" ++ "', usage='" ++ "U" ++ "'") =
      .ok none := by rfl
    rw [h]; intro h2; cases h2⟩

theorem scan_before_literal (r : List Char) : ∀ (a : List Char) (mode : ScanMode),
    (modeAfter mode a = .start ∨ ∃ acc, modeAfter mode a = .ident acc) →
    scanLoop mode (a ++ quoteChar :: r) = scanLoop mode a ++ scanLoop (.str []) r := by
  intro a
  induction a with
  | nil =>
    intro mode h
    cases mode with
    | start => simp [scanLoop, startChar_quote]
    | ident acc =>
      simp [scanLoop, startChar_quote, show isIdentChar quoteChar = false by decide]
    | str acc => rcases h with h | ⟨_, h⟩ <;> simp [modeAfter] at h
    | strEsc acc => rcases h with h | ⟨_, h⟩ <;> simp [modeAfter] at h
  | cons c t ih =>
    intro mode h
    cases mode with
    | start =>
      simp only [modeAfter] at h
      simp only [List.cons_append, scanLoop, List.append_eq, ih _ h, List.append_assoc]
    | ident acc =>
      simp only [modeAfter] at h
      simp only [List.cons_append, scanLoop, List.append_eq]
      split
      · rename_i hc; rw [if_pos hc] at h; exact ih _ h
      · rename_i hc; rw [if_neg hc] at h; rw [ih _ h]; simp
    | str acc =>
      simp only [modeAfter] at h
      simp only [List.cons_append, scanLoop, List.append_eq]
      split
      · rename_i hc; rw [if_pos hc] at h; exact ih _ h
      · rename_i hc
        rw [if_neg hc] at h
        split
        · rename_i hq; rw [if_pos hq] at h; rw [ih _ h]; simp
        · rename_i hq; rw [if_neg hq] at h; exact ih _ h
    | strEsc acc =>
      simp only [modeAfter] at h
      simp only [List.cons_append, scanLoop, List.append_eq]
      split
      · rename_i hc; rw [if_pos hc] at h; exact ih _ h
      · rename_i hc
        rw [if_neg hc] at h
        split
        · rename_i hq; rw [if_pos hq] at h; exact ih _ h
        · rename_i hq; rw [if_neg hq] at h; exact ih _ h

theorem tagStateAfter_snoc (it : ScanItem) : ∀ (pre : List ScanItem) (st0 st st2 : TagState),
    tagStateAfter pre st0 = some st → parse_tag_step st it = .next st2 →
    tagStateAfter (pre ++ [it]) st0 = some st2 := by
  intro pre
  induction pre with
  | nil =>
    intro st0 st st2 h hs
    simp only [tagStateAfter, Option.some.injEq] at h
    subst h
    simp [tagStateAfter, hs]
  | cons x rest ih =>
    intro st0 st st2 h hs
    simp only [tagStateAfter] at h
    simp only [List.cons_append, tagStateAfter]
    cases hx : parse_tag_step st0 x with
    | next st1 => rw [hx] at h; exact ih st1 st st2 h hs
    | retNil => rw [hx] at h; cases h
    | panic => rw [hx] at h; cases h

/-- C9: for every tag and every string literal in it that is a value token
(the tag is the text `a`, the literal with the text `raw` between its quotes,
and the text `rest`; the literal starts at a token boundary, and after the
tokens of `a` the loop of `parse_tag` expects a value for the pending key
`field_name`), the token of the literal is the text `raw` with every escaped
quote replaced by a quote, between its two quotes, and the value the round of
that token stores in the map for the pending key is that text without the two
quotes; the values of the other keys stay. -/
theorem parse_tag_unescapes (a raw rest : List Char) (st : TagState)
    (hraw : literalBody raw = true)
    (hpos : BetweenTokens a (quoteChar :: (raw ++ quoteChar :: rest)))
    (hst : tagStateAfter (scanLoop .start a) TagState.init = some st)
    (hidx : st.field_idx ≠ 0) (hname : st.expecting_name = false)
    (hval : st.expecting_value = true) (hkey : st.field_name ≠ "") :
    env64.Scan (String.mk (a ++ quoteChar :: (raw ++ quoteChar :: rest))) =
        scanLoop .start a ++
          { Err := false,
            Token := { Typ := .TokenTypeString,
                       Text := String.mk (quoteChar :: (unescapeQuotes raw ++ [quoteChar])) } } ::
          scanLoop .start rest ∧
      ∃ st2, tagStateAfter (scanLoop .start a ++
          [{ Err := false,
             Token := { Typ := .TokenTypeString,
                        Text := String.mk (quoteChar :: (unescapeQuotes raw ++ [quoteChar])) } }])
          TagState.init = some st2 ∧
        st2.fields st.field_name = String.mk (unescapeQuotes raw) ∧
        (∀ key, key ≠ st.field_name → st2.fields key = st.fields key) ∧
        st2.expecting_value = false ∧ st2.field_name = "" := by
  constructor
  · show scanLoop .start (a ++ quoteChar :: (raw ++ quoteChar :: rest)) = _
    have hmode : modeAfter .start a = .start ∨ ∃ acc, modeAfter .start a = .ident acc := by
      rcases hpos with h | ⟨acc, h, _⟩
      · exact Or.inl h
      · exact Or.inr ⟨acc, h⟩
    rw [scan_before_literal _ a .start hmode, scan_literal raw [] rest hraw]
    simp [stringItem]
  · refine ⟨{ st with
        fields := Function.update st.fields st.field_name (String.mk (unescapeQuotes raw)),
        expecting_value := false, field_name := "" }, ?_, ?_, ?_, rfl, rfl⟩
    · apply tagStateAfter_snoc _ _ _ st _ hst
      simp [parse_tag_step, hidx, hname, hval, hkey, String.length,
        show ¬ ((unescapeQuotes raw).length + 1 + 1 < 2) by omega]
    · simp
    · intro key hk
      simp [Function.update, hk]

/-- Witness of C9: the tag of field `Quote` of the tests, whose literal is the
value of the key `usage`; the usage string `parse_tag` returns is
`Field to show embedded (') chars`. -/
theorem parse_tag_unescapes_witness :
    (env64.Scan (String.mk ("quote,usage=".data ++ quoteChar ::
        ("Field to show embedded (\\') chars".data ++ quoteChar :: []))) =
      scanLoop .start "quote,usage=".data ++
        { Err := false,
          Token := { Typ := .TokenTypeString,
                     Text := String.mk (quoteChar ::
                       (unescapeQuotes "Field to show embedded (\\') chars".data ++
                         [quoteChar])) } } :: scanLoop .start [] ∧
      ∃ st2, tagStateAfter (scanLoop .start "quote,usage=".data ++
          [{ Err := false,
             Token := { Typ := .TokenTypeString,
                        Text := String.mk (quoteChar ::
                          (unescapeQuotes "Field to show embedded (\\') chars".data ++
                            [quoteChar])) } }]) TagState.init = some st2 ∧
        st2.fields ((tagStateAfter (scanLoop .start "quote,usage=".data)
            TagState.init).getD TagState.init).field_name =
          String.mk (unescapeQuotes "Field to show embedded (\\') chars".data) ∧
        (∀ key, key ≠ ((tagStateAfter (scanLoop .start "quote,usage=".data)
            TagState.init).getD TagState.init).field_name →
          st2.fields key = ((tagStateAfter (scanLoop .start "quote,usage=".data)
            TagState.init).getD TagState.init).fields key) ∧
        st2.expecting_value = false ∧ st2.field_name = "") ∧
    ((tagStateAfter (scanLoop .start "quote,usage=".data) TagState.init).getD
      TagState.init).field_name = "usage" ∧
    String.mk (unescapeQuotes "Field to show embedded (\\') chars".data) =
      "Field to show embedded (') chars" ∧
    parse_tag env64 "quote,usage='Field to show embedded (\\') chars'" =
      .ok (some { flag_name := "quote", delimiter := "",
                  usage_string := "Field to show embedded (') chars" }) :=
  ⟨parse_tag_unescapes "quote,usage=".data "Field to show embedded (\\') chars".data []
      ((tagStateAfter (scanLoop .start "quote,usage=".data) TagState.init).getD TagState.init)
      (by decide) (Or.inl (by decide)) (by rfl) (by decide) (by decide) (by decide) (by decide),
    by decide, by decide, by rfl⟩


/-! ### Successful parses as a list of settings -/

theorem find_eq_lookup (f : flag.FlagSet) (name : String) :
    f.formal.find? (fun fl => fl.Name = name) = f.lookup name := rfl

theorem parseArgs_success (env : Env) (args : List String) (f : flag.FlagSet) (m : Mem)
    (h : (flag.FlagSet.parseArgs env args f m).2.2 = none) :
    applySettings env (settingsOf f.formal args) m =
      some (flag.FlagSet.parseArgs env args f m).2.1 := by
  induction args, f, m using flag.FlagSet.parseArgs.induct env <;>
    simp_all [flag.FlagSet.parseArgs, settingsOf, applySettings, find_eq_lookup,
      markSet_formal]

theorem flag_Parse_success (env : Env) (f : flag.FlagSet) (args : List String) (m : Mem)
    (h : (f.Parse env args m).2.2 = .returned none) :
    applySettings env (f.settings args) m = some (f.Parse env args m).2.1 := by
  rw [flag_Parse_mem]
  apply parseArgs_success env args { f with parsed := true, args := args } m
  revert h
  unfold flag.FlagSet.Parse
  dsimp only
  split
  · intro _; assumption
  · split <;> intro h <;> simp at h

theorem Parse_success_mem (env : Env) (fs : FlagSet) (args : List String) (m : Mem)
    (h : (fs.flag_flagset.Parse env args m).2.2 = .returned none) :
    (fs.Parse env args m).2.1 =
      runSetFuncs fs.special_flags (fs.flag_flagset.Parse env args m).2.1 := by
  unfold FlagSet.Parse
  dsimp only
  rw [h]

/-! ### What a `Set` and a commit change -/

theorem setScalar_same (m : Mem) (k : ScalarKind) (p : Ptr) (v : k.type) :
    (m.setScalar k p v).scalars k p = v := by
  simp [Mem.setScalar]

theorem setScalar_other (m : Mem) (k k2 : ScalarKind) (p p2 : Ptr) (v : k2.type)
    (h : ¬ (k2 = k ∧ p2 = p)) : (m.setScalar k2 p2 v).scalars k p = m.scalars k p := by
  unfold Mem.setScalar
  by_cases hk : k = k2
  · subst hk
    have hp : p ≠ p2 := fun hp => h ⟨rfl, hp.symm⟩
    simp [Function.update_noteq hp]
  · simp [Function.update_noteq hk]

theorem setSlice_same (m : Mem) (k : ElemKind) (p : Ptr) (v : List k.type) :
    (m.setSlice k p v).slices k p = v := by
  simp [Mem.setSlice]

theorem setSlice_other (m : Mem) (k k2 : ElemKind) (p p2 : Ptr) (v : List k2.type)
    (h : ¬ (k2 = k ∧ p2 = p)) : (m.setSlice k2 p2 v).slices k p = m.slices k p := by
  unfold Mem.setSlice
  by_cases hk : k = k2
  · subst hk
    have hp : p ≠ p2 := fun hp => h ⟨rfl, hp.symm⟩
    simp [Function.update_noteq hp]
  · simp [Function.update_noteq hk]

theorem Value_Set_accs_other (env : Env) (v : Value) (s : String) (m : Mem) (id : Nat)
    (h : v ≠ .multiArg id) : (v.Set env s m).1.accs[id]? = m.accs[id]? := by
  cases v with
  | scalar k p =>
    simp only [Value.Set]
    cases parseScalar env k s <;> simp [Mem.setScalar]
  | multiArg id2 =>
    have hne : id2 ≠ id := fun e => h (by rw [e])
    simp only [Value.Set]
    cases h2 : m.accs[id2]? with
    | none => simp
    | some a => simp [List.getElem?_set_ne hne]

theorem Value_Set_scalars_other (env : Env) (v : Value) (s : String) (m : Mem)
    (k : ScalarKind) (p : Ptr) (h : v ≠ .scalar k p) :
    (v.Set env s m).1.scalars k p = m.scalars k p := by
  cases v with
  | scalar k2 p2 =>
    simp only [Value.Set]
    cases parseScalar env k2 s with
    | error e =>
      exact setScalar_other m k k2 p p2 _ (fun hh => h (by rw [hh.1, hh.2]))
    | ok x =>
      exact setScalar_other m k k2 p p2 x (fun hh => h (by rw [hh.1, hh.2]))
  | multiArg id2 =>
    simp only [Value.Set]
    cases m.accs[id2]? <;> rfl

theorem Value_Set_scalar_ok (env : Env) (k : ScalarKind) (p : Ptr) (t : String) (m : Mem)
    (v : k.type) (h : parseScalar env k t = .ok v) :
    ((Value.scalar k p).Set env t m).1.scalars k p = v := by
  simp [Value.Set, h, setScalar_same]

theorem applySettings_slices (env : Env) : ∀ (l : List (flag.Flag × String)) (m m2 : Mem),
    applySettings env l m = some m2 → m2.slices = m.slices := by
  intro l
  induction l with
  | nil => intro m m2 h; simp [applySettings] at h; rw [← h]
  | cons x rest ih =>
    intro m m2 h
    simp only [applySettings] at h
    split at h
    · rw [ih _ _ h, Value_Set_slices]
    · cases h

theorem applySettings_accs (env : Env) (id : Nat) : ∀ (l : List (flag.Flag × String))
    (m m2 : Mem), (∀ x ∈ l, x.1.Value ≠ .multiArg id) →
    applySettings env l m = some m2 → m2.accs[id]? = m.accs[id]? := by
  intro l
  induction l with
  | nil => intro m m2 _ h; simp [applySettings] at h; rw [← h]
  | cons x rest ih =>
    intro m m2 hx h
    simp only [applySettings] at h
    split at h
    · rw [ih _ _ (fun y hy => hx y (List.mem_cons_of_mem _ hy)) h,
        Value_Set_accs_other env _ _ _ _ (hx x (List.mem_cons_self _ _))]
    · cases h

theorem applySettings_scalar (env : Env) (k : ScalarKind) (p : Ptr) :
    ∀ (l : List (flag.Flag × String)) (m m2 : Mem), applySettings env l m = some m2 →
      (l.filter (fun x => x.1.Value = .scalar k p) = [] → m2.scalars k p = m.scalars k p) ∧
      (∀ fl t v, l.filter (fun x => x.1.Value = .scalar k p) = [(fl, t)] →
        parseScalar env k t = .ok v → m2.scalars k p = v) := by
  intro l
  induction l with
  | nil =>
    intro m m2 h
    simp [applySettings] at h
    subst h
    simp
  | cons x rest ih =>
    intro m m2 h
    simp only [applySettings] at h
    split at h
    · have ih2 := ih _ _ h
      by_cases hx : x.1.Value = .scalar k p
      · simp only [List.filter_cons, hx, decide_True, if_true]
        refine ⟨fun h0 => (by cases h0), ?_⟩
        intro fl t v hf hv
        simp only [List.cons.injEq] at hf
        obtain ⟨hxe, hrest⟩ := hf
        rw [ih2.1 hrest, hx]
        have : x.2 = t := by rw [hxe]
        rw [this]
        exact Value_Set_scalar_ok env k p t m v hv
      · simp only [List.filter_cons, hx, decide_False]
        rw [← Value_Set_scalars_other env x.1.Value x.2 m k p hx]
        exact ih2
    · cases h

theorem SetFunc_call_accs (sf : SetFunc) (m : Mem) :
    (sf.call m).accs = m.accs ∧ (sf.call m).scalars = m.scalars := by
  unfold SetFunc.call
  split <;> (try split) <;> simp [Mem.setSlice]

theorem SetFunc_call_frame (sf : SetFunc) (m : Mem) (k : ElemKind) (p : Ptr)
    (h : ¬ (sf.k = k ∧ sf.ptr = p)) : (sf.call m).slices k p = m.slices k p := by
  unfold SetFunc.call
  split <;> (try split) <;> first | rfl | (apply setSlice_other; simp_all)

theorem SetFunc_call_empty (sf : SetFunc) (m : Mem)
    (h : ∀ a, m.accs[sf.arg]? = some a → a.len = 0) : sf.call m = m := by
  unfold SetFunc.call
  split <;> first
    | rfl
    | (rename_i heq; have := h _ heq
       simp_all [Accum.len, MultiArgInt.GetInts, MultiArgInt64.GetInt64s, MultiArgUint.GetUints,
         MultiArgUint64.GetUint64s, MultiArgFloat64.GetFloat64s, MultiArgString.GetStrings])

theorem runSetFuncs_accs : ∀ (specs : List flag_spec) (m : Mem),
    (runSetFuncs specs m).accs = m.accs ∧ (runSetFuncs specs m).scalars = m.scalars := by
  intro specs
  induction specs with
  | nil => intro m; exact ⟨rfl, rfl⟩
  | cons f rest ih =>
    intro m
    simp only [runSetFuncs]
    split
    · rename_i sf _
      rw [(ih _).1, (ih _).2, (SetFunc_call_accs sf m).1, (SetFunc_call_accs sf m).2]
      exact ⟨rfl, rfl⟩
    · exact ih m

theorem runSetFuncs_keep (k : ElemKind) (p : Ptr) : ∀ (specs : List flag_spec) (m : Mem),
    (∀ spec ∈ specs, ∀ sf, spec.set_func = some sf → sf.k = k ∧ sf.ptr = p →
      ∀ a, m.accs[sf.arg]? = some a → a.len = 0) →
    (runSetFuncs specs m).slices k p = m.slices k p := by
  intro specs
  induction specs with
  | nil => intro m _; rfl
  | cons f rest ih =>
    intro m h
    simp only [runSetFuncs]
    split
    · rename_i sf hsf
      have hrest : ∀ spec ∈ rest, ∀ sf2, spec.set_func = some sf2 → sf2.k = k ∧ sf2.ptr = p →
          ∀ a, (sf.call m).accs[sf2.arg]? = some a → a.len = 0 := by
        intro spec hs sf2 h2 h3 a ha
        rw [(SetFunc_call_accs sf m).1] at ha
        exact h spec (List.mem_cons_of_mem _ hs) sf2 h2 h3 a ha
      rw [ih _ hrest]
      by_cases hkp : sf.k = k ∧ sf.ptr = p
      · rw [SetFunc_call_empty sf m (h f (List.mem_cons_self _ _) sf hsf hkp)]
      · exact SetFunc_call_frame sf m k p hkp
    · exact ih m (fun spec hs => h spec (List.mem_cons_of_mem _ hs))

/-! ### Registration -/

theorem SpecWF_of_accs {m m2 : Mem} {spec : flag_spec} (h : SpecWF m spec)
    (hacc : ∀ (id : Nat) (a : Accum), m.accs[id]? = some a → m2.accs[id]? = some a) : SpecWF m2 spec := by
  obtain ⟨h1, a, h2, h3, h4⟩ := h
  exact ⟨h1, a, hacc _ _ h2, h3, h4⟩

theorem newAccum_kind (k : ElemKind) (sep : String) :
    (newAccum k sep).kind = k ∧ (newAccum k sep).len = 0 := by
  cases k <;> exact ⟨rfl, rfl⟩

theorem set_slice_case_inv (fs : FlagSet) (m : Mem) (k : ElemKind) (t : Ty) (p : Ptr)
    (name usage sep : String) (fs1 : FlagSet) (m1 : Mem) (err : Option BindError)
    (hinv : ∀ spec ∈ fs.special_flags, SpecWF m spec)
    (h : fs.set_slice_case m k t p name usage sep = .ret fs1 m1 err) :
    (∀ spec ∈ fs1.special_flags, SpecWF m1 spec) ∧ m1.slices = m.slices ∧
      m1.scalars = m.scalars := by
  unfold FlagSet.set_slice_case at h
  dsimp only at h
  have happ : ∀ (id : Nat) (a : Accum), m.accs[id]? = some a →
      (m.accs ++ [newAccum k sep])[id]? = some a := by
    intro id a ha
    have hlt : id < m.accs.length := by
      by_contra hge
      rw [List.getElem?_eq_none (by omega)] at ha
      cases ha
    rw [List.getElem?_append_left hlt]; exact ha
  split at h
  · cases h
  · split at h
    · cases h
      refine ⟨?_, rfl, rfl⟩
      intro spec hs
      simp only [List.mem_append, List.mem_singleton] at hs
      rcases hs with hs | hs
      · exact SpecWF_of_accs (hinv spec hs) happ
      · subst hs
        exact ⟨rfl, newAccum k sep, by simp, (newAccum_kind k sep).1, (newAccum_kind k sep).2⟩
    · cases h
      exact ⟨fun spec hs => SpecWF_of_accs (hinv spec hs) happ, rfl, rfl⟩

theorem setScalar_self (m : Mem) (k : ScalarKind) (p : Ptr) :
    m.setScalar k p (m.scalars k p) = m := by
  simp [Mem.setScalar]

theorem FlagSep_inv (fs : FlagSet) (m : Mem) (store : Store) (name usage del : String)
    (fs1 : FlagSet) (m1 : Mem) (err : Option BindError)
    (hinv : ∀ spec ∈ fs.special_flags, SpecWF m spec)
    (h : fs.FlagSep m store name usage del = .ret fs1 m1 err) :
    (∀ spec ∈ fs1.special_flags, SpecWF m1 spec) ∧ m1.slices = m.slices ∧
      m1.scalars = m.scalars := by
  unfold FlagSet.FlagSep at h
  split at h
  · cases h; exact ⟨hinv, rfl, rfl⟩
  · cases h; exact ⟨hinv, rfl, rfl⟩
  · cases h; exact ⟨hinv, rfl, rfl⟩
  · split at h
    · cases h
    · cases h; exact ⟨hinv, rfl, rfl⟩
  · split at h
    · unfold FlagSet.set_slice at h
      split at h
      all_goals first
        | exact set_slice_case_inv _ _ _ _ _ _ _ _ _ _ _ hinv h
        | (cases h; exact ⟨hinv, rfl, rfl⟩)
    · split at h
      · unfold FlagSet.scalarVar at h
        rw [setScalar_self] at h
        dsimp only at h
        split at h
        · cases h
        · cases h; exact ⟨hinv, rfl, rfl⟩
      · cases h; exact ⟨hinv, rfl, rfl⟩

theorem registerAll_inv : ∀ (regs : List Reg) (fs : FlagSet) (m : Mem) (fs1 : FlagSet) (m1 : Mem),
    (∀ spec ∈ fs.special_flags, SpecWF m spec) → registerAll regs fs m = some (fs1, m1) →
    (∀ spec ∈ fs1.special_flags, SpecWF m1 spec) ∧ m1.slices = m.slices ∧
      m1.scalars = m.scalars := by
  intro regs
  induction regs with
  | nil =>
    intro fs m fs1 m1 hinv h
    simp only [registerAll, Option.some.injEq, Prod.mk.injEq] at h
    obtain ⟨rfl, rfl⟩ := h
    exact ⟨hinv, rfl, rfl⟩
  | cons r rest ih =>
    intro fs m fs1 m1 hinv h
    simp only [registerAll] at h
    split at h
    · rename_i fs2 m2 err heq
      have h2 := FlagSep_inv fs m _ _ _ _ fs2 m2 err hinv heq
      have h3 := ih fs2 m2 fs1 m1 h2.1 h
      exact ⟨h3.1, by rw [h3.2.1, h2.2.1], by rw [h3.2.2, h2.2.2]⟩
    · cases h

/-- C5, amended: for every flag set built from `NewFlagSet` by `Flag`/`FlagSep`
calls and not parsed yet, (1) the registrations change no slice variable;
(2) the commit of a record changes no slice variable other than its own
destination; (3) for every content the caller gives the variables before
`Parse` and every argument list that `flag.FlagSet.Parse` parses without error,
a slice destination holds after this first `Parse` the value it held before,
when no setting found in the arguments is of a flag whose accumulator belongs
to a record bound to that destination. -/
theorem slice_destination_kept_when_flag_absent (env : Env) (name : String)
    (eh : ErrorHandling) (regs : List Reg) (m0 : Mem) (fs : FlagSet) (m : Mem)
    (hreg : registerAll regs (NewFlagSet name eh) m0 = some (fs, m)) :
    m.slices = m0.slices ∧
      (∀ (sf : SetFunc) (mm : Mem) (k : ElemKind) (p : Ptr), ¬ (sf.k = k ∧ sf.ptr = p) →
        (sf.call mm).slices k p = mm.slices k p) ∧
      ∀ (sc : (k : ScalarKind) → Ptr → k.type) (sl : (k : ElemKind) → Ptr → List k.type)
        (args : List String) (k : ElemKind) (p : Ptr),
        (fs.flag_flagset.Parse env args { m with scalars := sc, slices := sl }).2.2 =
            .returned none →
        (∀ spec ∈ fs.special_flags, spec.val_ptr = (k, p) →
          ∀ x ∈ fs.flag_flagset.settings args, x.1.Value ≠ .multiArg spec.arg) →
        (fs.Parse env args { m with scalars := sc, slices := sl }).2.1.slices k p = sl k p := by
  have hinv := registerAll_inv regs (NewFlagSet name eh) m0 fs m
    (by intro spec hs; simp [NewFlagSet] at hs) hreg
  refine ⟨hinv.2.1, fun sf mm k p h => SetFunc_call_frame sf mm k p h, ?_⟩
  intro sc sl args k p hok habs
  have hfold := flag_Parse_success env fs.flag_flagset args _ hok
  rw [Parse_success_mem env fs args _ hok, runSetFuncs_keep k p, applySettings_slices env _ _ _ hfold]
  intro spec hs sf hsf hkp a ha
  obtain ⟨hshape, a0, ha0, _, hlen⟩ := hinv.1 spec hs
  rw [hshape] at hsf
  cases hsf
  have hval : spec.val_ptr = (k, p) := Prod.ext hkp.1 hkp.2
  have hacc := applySettings_accs env spec.arg _ _ _ (habs spec hs hval) hfold
  rw [hacc] at ha
  have : a = a0 := by
    have h3 : some a = some a0 := by rw [← ha]; exact ha0
    cases h3; rfl
  rw [this]; exact hlen

/-- Witness of C5: the flag set of `ExampleMultivalue`, `ips` pre-set to one
address, arguments `-count 5`: `ips` keeps its pre-set value. -/
theorem slice_destination_kept_when_flag_absent_witness :
    (multivalueSet.Parse env64 ["-count", "5"]
      { multivalueMem with scalars := multivalueMem.scalars,
                           slices := (multivalueMem.setSlice .string 0 ["10.0.0.1"]).slices }).2.1.slices
        .string 0 = ["10.0.0.1"] :=
  (slice_destination_kept_when_flag_absent env64 "test" .ContinueOnError multivalueRegs zeroMem
    multivalueSet multivalueMem (by rfl)).2.2 multivalueMem.scalars
    (multivalueMem.setSlice .string 0 ["10.0.0.1"]).slices ["-count", "5"] .string 0
    (by decide) (by decide)

/-- C5 fails as stated: with the flag `n` bound to a `[]int`, `Parse` of `-n 1`
commits 1; the caller then assigns `[]int{9}` to the destination; the next
`Parse`, of no arguments, succeeds, the flag `n` does not occur in it, and the
destination holds 1 after it and not 9: the accumulator still holds the 1 and
the commit copies it again. -/
theorem slice_destination_overwritten_by_earlier_value :
    (intSliceState.1.Parse env64 ["-n", "1"] intSliceState.2).2.1.slices .int 0 = [1] ∧
      (((intSliceState.1.Parse env64 ["-n", "1"] intSliceState.2).2.1.setSlice .int 0
          [9]).slices .int 0 = [9]) ∧
      ((intSliceState.1.Parse env64 ["-n", "1"] intSliceState.2).1.flag_flagset.Parse env64 []
          ((intSliceState.1.Parse env64 ["-n", "1"] intSliceState.2).2.1.setSlice .int 0
            [9])).2.2 = .returned none ∧
      (intSliceState.1.Parse env64 ["-n", "1"] intSliceState.2).1.flag_flagset.settings [] =
        [] ∧
      ((intSliceState.1.Parse env64 ["-n", "1"] intSliceState.2).1.Parse env64 []
          ((intSliceState.1.Parse env64 ["-n", "1"] intSliceState.2).2.1.setSlice .int 0
            [9])).2.1.slices .int 0 = [1] :=
  ⟨by decide, by decide, by decide, by decide, by decide⟩

/-! ### Accumulators only grow -/

theorem splitLoop_ne_nil (sep : List Char) : ∀ (s : List Char) (skip : Nat) (cur : List Char),
    0 < (splitLoop sep skip cur s).length := by
  intro s
  induction s with
  | nil => intro skip cur; simp [splitLoop]
  | cons c t ih =>
    intro skip cur
    cases skip with
    | succ n => simp only [splitLoop]; exact ih n cur
    | zero =>
      simp only [splitLoop]
      split
      · simp
      · exact ih 0 _

theorem splitArgs_length_pos (Del val : String) : 0 < (splitArgs Del val).length := by
  unfold splitArgs
  split
  · simp
  · rename_i h
    have hd : Del.data ≠ [] := by
      intro h2
      apply h
      cases Del
      simp_all
    simp only [strings.Split, hd, if_false]
    exact splitLoop_ne_nil _ _ _ _

theorem appendConverted_length {α : Type} (conv : String → Except NumError α) :
    ∀ (l : List String) (acc : List α),
      acc.length ≤ (appendConverted conv l acc).1.length ∧
      ((appendConverted conv l acc).2 = none →
        (appendConverted conv l acc).1.length = acc.length + l.length) := by
  intro l
  induction l with
  | nil => intro acc; simp [appendConverted]
  | cons s rest ih =>
    intro acc
    cases hc : conv s with
    | error e => simp [appendConverted, hc]
    | ok v =>
      have := ih (acc ++ [v])
      simp only [appendConverted, hc, List.length_append, List.length_singleton,
        List.length_cons, List.length_nil] at this ⊢
      exact ⟨by omega, fun h => by have := this.2 h; omega⟩

theorem Accum_Set_grows (env : Env) (a : Accum) (s : String) :
    (a.Set env s).1.kind = a.kind ∧ a.len ≤ (a.Set env s).1.len ∧
      ((a.Set env s).2 = none → 0 < (a.Set env s).1.len) := by
  have hp := splitArgs_length_pos
  cases a with
  | int a =>
    have h := appendConverted_length (convInt env) (splitArgs a.Del s) a.Args
    refine ⟨rfl, h.1, fun h2 => ?_⟩
    have h3 := h.2 h2
    have := hp a.Del s
    show 0 < (appendConverted (convInt env) (splitArgs a.Del s) a.Args).1.length
    omega
  | int64 a =>
    have h := appendConverted_length convInt64 (splitArgs a.Del s) a.Args
    refine ⟨rfl, h.1, fun h2 => ?_⟩
    have h3 := h.2 h2
    have := hp a.Del s
    show 0 < (appendConverted convInt64 (splitArgs a.Del s) a.Args).1.length
    omega
  | uint a =>
    have h := appendConverted_length (convUint env) (splitArgs a.Del s) a.Args
    refine ⟨rfl, h.1, fun h2 => ?_⟩
    have h3 := h.2 h2
    have := hp a.Del s
    show 0 < (appendConverted (convUint env) (splitArgs a.Del s) a.Args).1.length
    omega
  | uint64 a =>
    have h := appendConverted_length convUint64 (splitArgs a.Del s) a.Args
    refine ⟨rfl, h.1, fun h2 => ?_⟩
    have h3 := h.2 h2
    have := hp a.Del s
    show 0 < (appendConverted convUint64 (splitArgs a.Del s) a.Args).1.length
    omega
  | float64 a =>
    have h := appendConverted_length env.ParseFloat (splitArgs a.Del s) a.Args
    refine ⟨rfl, h.1, fun h2 => ?_⟩
    have h3 := h.2 h2
    have := hp a.Del s
    show 0 < (appendConverted env.ParseFloat (splitArgs a.Del s) a.Args).1.length
    omega
  | string a =>
    have := hp a.Del s
    refine ⟨rfl, ?_, fun _ => ?_⟩
    · show a.Args.length ≤ (a.Args ++ splitArgs a.Del s).length
      simp
    · show 0 < (a.Args ++ splitArgs a.Del s).length
      simp only [List.length_append]; omega

theorem Value_Set_accs_grow (env : Env) (v : Value) (s : String) (m : Mem) (id : Nat)
    (a : Accum) (ha : m.accs[id]? = some a) :
    ∃ a2, (v.Set env s m).1.accs[id]? = some a2 ∧ a2.kind = a.kind ∧ a.len ≤ a2.len ∧
      (v = .multiArg id → (v.Set env s m).2 = none → 0 < a2.len) := by
  by_cases hv : v = .multiArg id
  · subst hv
    have hlt : id < m.accs.length := by
      by_contra hge
      rw [List.getElem?_eq_none (by omega)] at ha
      cases ha
    have hg := Accum_Set_grows env a s
    refine ⟨(a.Set env s).1, ?_, hg.1, hg.2.1, ?_⟩
    · simp [Value.Set, ha, List.getElem?_set_self, hlt]
    · intro _ h2
      apply hg.2.2
      simp only [Value.Set, ha] at h2
      cases h3 : (a.Set env s).2 with
      | none => rfl
      | some e => rw [h3] at h2; simp at h2
  · exact ⟨a, by rw [Value_Set_accs_other env v s m id hv]; exact ha, rfl, le_refl _,
      fun h => absurd h hv⟩

theorem applySettings_accum_pos (env : Env) (id : Nat) :
    ∀ (l : List (flag.Flag × String)) (m m2 : Mem) (a : Accum),
      applySettings env l m = some m2 → m.accs[id]? = some a →
      ∃ a2, m2.accs[id]? = some a2 ∧ a2.kind = a.kind ∧ a.len ≤ a2.len ∧
        ((∃ x ∈ l, x.1.Value = .multiArg id) → 0 < a2.len) := by
  intro l
  induction l with
  | nil =>
    intro m m2 a h ha
    simp only [applySettings, Option.some.injEq] at h
    subst h
    exact ⟨a, ha, rfl, le_refl _, fun ⟨x, hx, _⟩ => by cases hx⟩
  | cons x rest ih =>
    intro m m2 a h ha
    simp only [applySettings] at h
    split at h
    · rename_i hok
      obtain ⟨a1, ha1, hk1, hl1, hp1⟩ := Value_Set_accs_grow env x.1.Value x.2 m id a ha
      obtain ⟨a2, ha2, hk2, hl2, hp2⟩ := ih _ m2 a1 h ha1
      refine ⟨a2, ha2, by rw [hk2, hk1], le_trans hl1 hl2, ?_⟩
      rintro ⟨y, hy, hyv⟩
      rcases List.mem_cons.mp hy with rfl | hy
      · have := hp1 hyv hok
        omega
      · exact hp2 ⟨y, hy, hyv⟩
    · cases h

theorem runSetFuncs_append : ∀ (l1 l2 : List flag_spec) (m : Mem),
    runSetFuncs (l1 ++ l2) m = runSetFuncs l2 (runSetFuncs l1 m) := by
  intro l1
  induction l1 with
  | nil => intro l2 m; rfl
  | cons f rest ih =>
    intro l2 m
    simp only [List.cons_append, runSetFuncs]
    split <;> exact ih _ _

theorem SetFunc_call_write (sf : SetFunc) (m : Mem) (a : Accum)
    (ha : m.accs[sf.arg]? = some a) (hk : a.kind = sf.k) (hlen : 0 < a.len) :
    a.vals sf.k = some ((sf.call m).slices sf.k sf.ptr) := by
  obtain ⟨k, arg, ptr⟩ := sf
  simp only at ha hk ⊢
  cases a <;> cases hk <;>
    simp_all [SetFunc.call, Accum.vals, Accum.len, Accum.kind, setSlice_same, MultiArgInt.GetInts,
      MultiArgInt64.GetInt64s, MultiArgUint.GetUints, MultiArgUint64.GetUint64s,
      MultiArgFloat64.GetFloat64s, MultiArgString.GetStrings]

/-- C6, amended: for every flag set built from `NewFlagSet` by `Flag`/`FlagSep`
calls and every argument list that `flag.FlagSet.Parse` parses without error,
if a setting found in the arguments is of the flag whose accumulator belongs to
the record `spec`, and no flag whose record is registered after `spec` and
bound to the same destination is set, then after `Parse` the destination of
`spec` holds exactly the values of that accumulator, which is not empty:
whatever the destination held before is overwritten. -/
theorem sequence_destination_holds_accumulated (env : Env) (name : String)
    (eh : ErrorHandling) (regs : List Reg) (m0 : Mem) (fs : FlagSet) (m : Mem)
    (hreg : registerAll regs (NewFlagSet name eh) m0 = some (fs, m))
    (sc : (k : ScalarKind) → Ptr → k.type) (sl : (k : ElemKind) → Ptr → List k.type)
    (args : List String) (pre post : List flag_spec) (spec : flag_spec)
    (hspec : fs.special_flags = pre ++ spec :: post)
    (hok : (fs.flag_flagset.Parse env args { m with scalars := sc, slices := sl }).2.2 =
      .returned none)
    (hocc : ∃ x ∈ fs.flag_flagset.settings args, x.1.Value = .multiArg spec.arg)
    (hlater : ∀ spec2 ∈ post, spec2.val_ptr = spec.val_ptr →
      ∀ x ∈ fs.flag_flagset.settings args, x.1.Value ≠ .multiArg spec2.arg) :
    ∃ a, (fs.Parse env args { m with scalars := sc, slices := sl }).2.1.accs[spec.arg]? =
          some a ∧ 0 < a.len ∧
        a.vals spec.val_ptr.1 =
          some ((fs.Parse env args { m with scalars := sc, slices := sl }).2.1.slices
            spec.val_ptr.1 spec.val_ptr.2) := by
  have hinv := (registerAll_inv regs (NewFlagSet name eh) m0 fs m
    (by intro spec hs; simp [NewFlagSet] at hs) hreg).1
  have hmem : spec ∈ fs.special_flags := by rw [hspec]; simp
  obtain ⟨hshape, a0, ha0, hk0, _⟩ := hinv spec hmem
  have hfold := flag_Parse_success env fs.flag_flagset args _ hok
  obtain ⟨a1, ha1, hk1, _, hpos⟩ := applySettings_accum_pos env spec.arg _ _ _ a0 hfold ha0
  have hpos1 := hpos hocc
  rw [Parse_success_mem env fs args _ hok, hspec, runSetFuncs_append]
  simp only [runSetFuncs, hshape]
  generalize hm1 : (fs.flag_flagset.Parse env args { m with scalars := sc, slices := sl }).2.1
    = mem1 at ha1 hfold ⊢
  have hacc2 : (runSetFuncs pre mem1).accs = mem1.accs := (runSetFuncs_accs pre mem1).1
  have ha2 : (runSetFuncs pre mem1).accs[spec.arg]? = some a1 := by rw [hacc2]; exact ha1
  have hw := SetFunc_call_write { k := spec.val_ptr.1, arg := spec.arg, ptr := spec.val_ptr.2 }
    (runSetFuncs pre mem1) a1 ha2 (by rw [hk1, hk0]) hpos1
  refine ⟨a1, ?_, hpos1, ?_⟩
  · rw [(runSetFuncs_accs post _).1, (SetFunc_call_accs _ _).1, hacc2]; exact ha1
  · rw [runSetFuncs_keep spec.val_ptr.1 spec.val_ptr.2 post]
    · exact hw
    · intro spec2 hs2 sf2 hsf2 hkp a ha
      have hm2 : spec2 ∈ fs.special_flags := by rw [hspec]; simp [hs2]
      obtain ⟨hshape2, b0, hb0, _, hlen2⟩ := hinv spec2 hm2
      rw [hshape2] at hsf2
      cases hsf2
      have hval : spec2.val_ptr = spec.val_ptr := Prod.ext hkp.1 hkp.2
      have hacc := applySettings_accs env spec2.arg _ _ _ (hlater spec2 hs2 hval) hfold
      rw [(SetFunc_call_accs _ _).1, hacc2, hacc] at ha
      have h3 : some a = some b0 := by rw [← ha]; exact hb0
      cases h3
      exact hlen2

/-- Witness of the amended C6: `ExampleMultivalue`, destination `[]string{}`,
arguments `-ip 127.0.0.2 -ip 127.0.0.1`. -/
theorem sequence_destination_holds_accumulated_witness :
    (∃ a, (multivalueSet.Parse env64 ["-ip", "127.0.0.2", "-ip", "127.0.0.1"]
          { multivalueMem with scalars := multivalueMem.scalars,
                               slices := multivalueMem.slices }).2.1.accs[0]? = some a ∧
        0 < a.len ∧
        a.vals .string =
          some ((multivalueSet.Parse env64 ["-ip", "127.0.0.2", "-ip", "127.0.0.1"]
            { multivalueMem with scalars := multivalueMem.scalars,
                                 slices := multivalueMem.slices }).2.1.slices .string 0)) ∧
      (multivalueSet.Parse env64 ["-ip", "127.0.0.2", "-ip", "127.0.0.1"]
        { multivalueMem with scalars := multivalueMem.scalars,
                             slices := multivalueMem.slices }).2.1.slices .string 0 =
        ["127.0.0.2", "127.0.0.1"] :=
  ⟨sequence_destination_holds_accumulated env64 "test" .ContinueOnError multivalueRegs zeroMem
    multivalueSet multivalueMem (by rfl) multivalueMem.scalars multivalueMem.slices
    ["-ip", "127.0.0.2", "-ip", "127.0.0.1"] []
    [] { val_ptr := (.string, 0), arg := 0, set_func := some { k := .string, arg := 0, ptr := 0 } }
    (by decide) (by decide) (by decide) (by decide), by decide⟩

/-- C6 fails as stated: flags `a` and `b` bound to the same `[]string` and
arguments `-a 1 -b 2`: flag `a` occurred and accumulated `[1]`, the parse
succeeds, and the destination holds `[2]`, the values of `b`, whose record is
committed later. -/
theorem sequence_destination_shared_overwritten :
    (registerAll aliasSliceRegs (NewFlagSet "test" .ContinueOnError) zeroMem).isSome = true ∧
      (aliasSliceState.1.flag_flagset.Parse env64 ["-a", "1", "-b", "2"] aliasSliceState.2).2.2 =
        .returned none ∧
      (∃ x ∈ aliasSliceState.1.flag_flagset.settings ["-a", "1", "-b", "2"],
        x.1.Name = "a" ∧ x.1.Value = .multiArg 0) ∧
      (aliasSliceState.1.special_flags.map (fun spec => (spec.val_ptr, spec.arg))) =
        [((.string, 0), 0), ((.string, 0), 1)] ∧
      (aliasSliceState.1.Parse env64 ["-a", "1", "-b", "2"] aliasSliceState.2).2.1.accs[0]? =
        some (.string { Args := ["1"], Del := "" }) ∧
      (aliasSliceState.1.Parse env64 ["-a", "1", "-b", "2"] aliasSliceState.2).2.1.slices
        .string 0 = ["2"] :=
  ⟨by decide, by decide, by decide, by decide, by decide, by decide⟩

/-! ### Scalar flags -/

theorem Var_lookup (f f1 : flag.FlagSet) (v : Value) (name usage : String)
    (h : f.Var v name usage = some f1) :
    (∀ n fl, f.lookup n = some fl → f1.lookup n = some fl) ∧
      f1.lookup name = some { Name := name, Usage := usage, Value := v } := by
  unfold flag.FlagSet.Var at h
  split at h
  · cases h
  · split at h
    · cases h
    · rename_i hnone
      cases h
      constructor
      · intro n fl hfl
        simp only [flag.FlagSet.lookup] at hfl ⊢
        rw [List.find?_append, hfl]; rfl
      · simp only [flag.FlagSet.lookup] at hnone ⊢
        rw [List.find?_append, hnone]
        simp

theorem set_slice_case_frame (fs : FlagSet) (m : Mem) (k : ElemKind) (t : Ty) (p : Ptr)
    (name usage sep : String) (fs1 : FlagSet) (m1 : Mem) (err : Option BindError)
    (h : fs.set_slice_case m k t p name usage sep = .ret fs1 m1 err) :
    m1.scalars = m.scalars ∧
      ∀ n fl, fs.flag_flagset.lookup n = some fl → fs1.flag_flagset.lookup n = some fl := by
  unfold FlagSet.set_slice_case at h
  dsimp only at h
  split at h
  · cases h
  · rename_i f1 hvar
    have hl := (Var_lookup _ _ _ _ _ hvar).1
    split at h <;> (cases h; exact ⟨rfl, hl⟩)

theorem FlagSep_frame (fs : FlagSet) (m : Mem) (store : Store) (name usage del : String)
    (fs1 : FlagSet) (m1 : Mem) (err : Option BindError)
    (h : fs.FlagSep m store name usage del = .ret fs1 m1 err) :
    m1.scalars = m.scalars ∧
      ∀ n fl, fs.flag_flagset.lookup n = some fl → fs1.flag_flagset.lookup n = some fl := by
  unfold FlagSet.FlagSep at h
  split at h
  · cases h; exact ⟨rfl, fun _ _ h => h⟩
  · cases h; exact ⟨rfl, fun _ _ h => h⟩
  · cases h; exact ⟨rfl, fun _ _ h => h⟩
  · split at h
    · cases h
    · cases h; exact ⟨rfl, fun _ _ h => h⟩
  · split at h
    · unfold FlagSet.set_slice at h
      split at h
      all_goals first
        | exact set_slice_case_frame _ _ _ _ _ _ _ _ _ _ _ h
        | (cases h; exact ⟨rfl, fun _ _ h => h⟩)
    · split at h
      · unfold FlagSet.scalarVar at h
        rw [setScalar_self] at h
        dsimp only at h
        split at h
        · cases h
        · rename_i f1 hvar
          cases h
          exact ⟨rfl, (Var_lookup _ _ _ _ _ hvar).1⟩
      · cases h; exact ⟨rfl, fun _ _ h => h⟩

theorem registerAll_frame : ∀ (regs : List Reg) (fs : FlagSet) (m : Mem) (fs1 : FlagSet)
    (m1 : Mem), registerAll regs fs m = some (fs1, m1) →
    m1.scalars = m.scalars ∧
      ∀ n fl, fs.flag_flagset.lookup n = some fl → fs1.flag_flagset.lookup n = some fl := by
  intro regs
  induction regs with
  | nil =>
    intro fs m fs1 m1 h
    simp only [registerAll, Option.some.injEq, Prod.mk.injEq] at h
    obtain ⟨rfl, rfl⟩ := h
    exact ⟨rfl, fun _ _ h => h⟩
  | cons r rest ih =>
    intro fs m fs1 m1 h
    simp only [registerAll] at h
    split at h
    · rename_i fs2 m2 err heq
      have h2 := FlagSep_frame fs m _ _ _ _ fs2 m2 err heq
      have h3 := ih fs2 m2 fs1 m1 h
      exact ⟨by rw [h3.1, h2.1], fun n fl hfl => h3.2 n fl (h2.2 n fl hfl)⟩
    · cases h

theorem ScalarKind_ty (k : ScalarKind) : k.ty.scalarKind = some k ∧ k.ty.Kind ≠ .Slice := by
  cases k <;> exact ⟨rfl, by decide⟩

theorem Flag_scalar (fs : FlagSet) (m : Mem) (k : ScalarKind) (p : Ptr) (name usage : String)
    (fs1 : FlagSet) (m1 : Mem)
    (h : fs.Flag m (.ptr k.ty (some p)) name usage = .ret fs1 m1 none) :
    m1.scalars = m.scalars ∧
      fs1.flag_flagset.lookup name = some { Name := name, Usage := usage, Value := .scalar k p } := by
  unfold FlagSet.Flag FlagSet.FlagSep at h
  simp only [(ScalarKind_ty k).2, if_false, (ScalarKind_ty k).1] at h
  unfold FlagSet.scalarVar at h
  rw [setScalar_self] at h
  dsimp only at h
  split at h
  · cases h
  · rename_i f1 hvar
    cases h
    exact ⟨rfl, (Var_lookup _ _ _ _ _ hvar).2⟩

/-- C7, amended: for every supported scalar type `k`, after `Flag` has bound a
destination of that type to `name` (and further registrations were made), and
`flag.FlagSet.Parse` parses an argument list without error: the flag is defined
with the scalar value bound to the destination; if the settings found in the
arguments for flags bound to the destination are exactly one, of flag `name`
to a text `t` that converts to `v`, the destination holds `v`; if there is no
such setting, the destination holds the value it held when `Flag` was called. -/
theorem scalar_destination_after_parse (env : Env) (k : ScalarKind) (fs : FlagSet) (m : Mem)
    (p : Ptr) (name usage : String) (fs1 : FlagSet) (m1 : Mem)
    (hflag : fs.Flag m (.ptr k.ty (some p)) name usage = .ret fs1 m1 none)
    (regs : List Reg) (fs2 : FlagSet) (m2 : Mem)
    (hregs : registerAll regs fs1 m1 = some (fs2, m2)) (args : List String)
    (hok : (fs2.flag_flagset.Parse env args m2).2.2 = .returned none) :
    fs2.flag_flagset.lookup name =
        some { Name := name, Usage := usage, Value := .scalar k p } ∧
      (∀ (t : String) (v : k.type), parseScalar env k t = .ok v →
        (fs2.flag_flagset.settings args).filter (fun x => x.1.Value = .scalar k p) =
          [({ Name := name, Usage := usage, Value := .scalar k p }, t)] →
        (fs2.Parse env args m2).2.1.scalars k p = v) ∧
      ((fs2.flag_flagset.settings args).filter (fun x => x.1.Value = .scalar k p) = [] →
        (fs2.Parse env args m2).2.1.scalars k p = m.scalars k p) := by
  have h1 := Flag_scalar fs m k p name usage fs1 m1 hflag
  have h2 := registerAll_frame regs fs1 m1 fs2 m2 hregs
  have hfold := flag_Parse_success env fs2.flag_flagset args m2 hok
  have hs := applySettings_scalar env k p _ _ _ hfold
  rw [Parse_success_mem env fs2 args m2 hok, (runSetFuncs_accs _ _).2]
  refine ⟨h2.2 _ _ h1.2, ?_, ?_⟩
  · intro t v hv hf
    exact hs.2 _ t v hf hv
  · intro hf
    rw [hs.1 hf, h2.1, h1.1]

/-- Witness of the amended C7: `ExampleFlagSet`, arguments
`-ip 127.0.0.2 -count 2`: `ip` is `127.0.0.2`, `count` is 2 and `default_ip`
stays `127.0.0.1`. -/
theorem scalar_destination_after_parse_witness :
    (flagSetExampleState.1.Parse env64 ["-ip", "127.0.0.2", "-count", "2"]
        flagSetExampleState.2).2.1.scalars .string 0 = "127.0.0.2" ∧
      (flagSetExampleState.1.Parse env64 ["-ip", "127.0.0.2", "-count", "2"]
        flagSetExampleState.2).2.1.scalars .int 0 = (2 : Int) ∧
      (flagSetExampleState.1.Parse env64 ["-ip", "127.0.0.2", "-count", "2"]
        flagSetExampleState.2).2.1.scalars .string 1 = "127.0.0.1" :=
  ⟨(scalar_destination_after_parse env64 .string (NewFlagSet "test" .ContinueOnError)
      flagSetExampleMem 0 "ip" "IP address (string)" flagSetExampleFirst.1
      flagSetExampleFirst.2 (by rfl) flagSetExampleRegs flagSetExampleState.1
      flagSetExampleState.2 (by rfl) ["-ip", "127.0.0.2", "-count", "2"] (by decide)).2.1
      "127.0.0.2" "127.0.0.2" (by rfl) (by decide), by decide, by decide⟩

/-- C7 fails as stated: int flags `a` and `b` bound to the same variable and
arguments `-a 1 -b 2`: flag `a` is set once, to the valid text `1`, the parse
succeeds, and the destination holds 2. -/
theorem scalar_destination_shared_overwritten :
    (registerAll aliasIntRegs (NewFlagSet "test" .ContinueOnError) zeroMem).isSome = true ∧
      (aliasIntState.1.flag_flagset.Parse env64 ["-a", "1", "-b", "2"] aliasIntState.2).2.2 =
        .returned none ∧
      (aliasIntState.1.flag_flagset.settings ["-a", "1", "-b", "2"]).filter
          (fun x => x.1.Name = "a") =
        [({ Name := "a", Usage := "", Value := .scalar .int 0 }, "1")] ∧
      parseScalar env64 .int "1" = .ok (1 : Int) ∧
      (aliasIntState.1.Parse env64 ["-a", "1", "-b", "2"] aliasIntState.2).2.1.scalars .int 0 =
        (2 : Int) :=
  ⟨by decide, by decide, by decide, by rfl, by decide⟩
/-! ### Splitting joined values -/

theorem isPrefixOf_append_right (sep : List Char) : ∀ (x y : List Char),
    sep.isPrefixOf x = true → sep.isPrefixOf (x ++ y) = true := by
  intro x y h
  rw [List.isPrefixOf_iff_prefix] at h ⊢
  exact h.trans (List.prefix_append x y)

theorem isPrefixOf_append_long (sep : List Char) (x y : List Char)
    (hlen : sep.length ≤ x.length) : sep.isPrefixOf (x ++ y) = sep.isPrefixOf x := by
  cases h : sep.isPrefixOf x with
  | true => exact isPrefixOf_append_right sep x y h
  | false =>
    cases h2 : sep.isPrefixOf (x ++ y) with
    | false => rfl
    | true =>
      rw [List.isPrefixOf_iff_prefix] at h2
      have h3 : sep <+: x := List.prefix_of_prefix_length_le h2 (List.prefix_append x y) hlen
      rw [← List.isPrefixOf_iff_prefix] at h3
      rw [h3] at h
      cases h

theorem splitLoop_skip (sep : List Char) : ∀ (xs cur rest : List Char),
    splitLoop sep xs.length cur (xs ++ rest) = splitLoop sep 0 cur rest := by
  intro xs
  induction xs with
  | nil => intro cur rest; rfl
  | cons x xs ih =>
    intro cur rest
    simp only [List.length_cons, List.cons_append, splitLoop, List.append_eq]
    exact ih cur rest

theorem splitLoop_value (sep : List Char) (hsep : sep ≠ []) : ∀ (v cur rest : List Char),
    (∀ i, i < v.length → sep.isPrefixOf (v.drop i ++ sep) = false) →
    splitLoop sep 0 cur (v ++ (sep ++ rest)) =
      String.mk (cur.reverse ++ v) :: splitLoop sep 0 [] rest := by
  intro v
  induction v with
  | nil =>
    intro cur rest _
    match sep, hsep with
    | d :: ds, _ =>
      have hp : (d :: ds).isPrefixOf (d :: (ds ++ rest)) = true := by
        rw [List.isPrefixOf_iff_prefix]
        exact List.prefix_append (d :: ds) rest
      simp only [List.nil_append, List.cons_append, splitLoop, hp, if_true, List.append_nil,
        List.length_cons, Nat.add_sub_cancel, List.append_eq]
      rw [splitLoop_skip]
  | cons c v ih =>
    intro cur rest h
    have h0 := h 0 (by simp)
    simp only [List.drop_zero] at h0
    have hp : sep.isPrefixOf (c :: (v ++ (sep ++ rest))) = false := by
      have := isPrefixOf_append_long sep ((c :: v) ++ sep) rest (by simp; omega)
      simp only [List.cons_append, List.append_assoc] at this
      rw [this]
      simpa using h0
    simp only [List.cons_append, splitLoop, hp, List.append_eq]
    rw [ih (c :: cur) rest (fun i hi => by simpa using h (i + 1) (by simpa using hi))]
    simp

theorem splitLoop_last (sep : List Char) : ∀ (v cur : List Char),
    (∀ i, i < v.length → sep.isPrefixOf (v.drop i ++ sep) = false) →
    splitLoop sep 0 cur v = [String.mk (cur.reverse ++ v)] := by
  intro v
  induction v with
  | nil => intro cur _; simp [splitLoop]
  | cons c v ih =>
    intro cur h
    have h0 := h 0 (by simp)
    simp only [List.drop_zero] at h0
    have hp : sep.isPrefixOf (c :: v) = false := by
      cases h2 : sep.isPrefixOf (c :: v) with
      | false => rfl
      | true =>
        have := isPrefixOf_append_right sep (c :: v) sep h2
        rw [this] at h0
        cases h0
    simp only [splitLoop, hp]
    rw [ih (c :: cur) (fun i hi => by simpa using h (i + 1) (by simpa using hi))]
    simp

theorem Join_cons (v w : String) (rest : List String) (sep : String) :
    strings.Join (v :: w :: rest) sep = v ++ sep ++ strings.Join (w :: rest) sep := rfl

theorem splitLoop_Join (D : String) (hD : D.data ≠ []) : ∀ (vals : List String),
    vals ≠ [] → (∀ v ∈ vals, OnlyAtEnd D v) →
    splitLoop D.data 0 [] (strings.Join vals D).data = vals := by
  intro vals
  induction vals with
  | nil => intro h; exact absurd rfl h
  | cons v rest ih =>
    intro _ h
    have hv := h v (List.mem_cons_self _ _)
    cases rest with
    | nil =>
      show splitLoop D.data 0 [] v.data = [v]
      rw [splitLoop_last D.data v.data [] hv]
      simp
    | cons w rest =>
      rw [Join_cons]
      simp only [String.data_append, List.append_assoc]
      rw [splitLoop_value D.data hD v.data [] _ hv,
        ih (by simp) (fun x hx => h x (List.mem_cons_of_mem _ hx))]
      simp

/-- C20, amended: for every non-empty delimiter `D` and every non-empty list of
values such that `D` occurs in each value followed by `D` only at the end (so no
value contains `D`, and no occurrence of `D` starts inside a value and runs into
the delimiter after it), one `Set` call on a `MultiArgString` with delimiter `D`
whose text is the values joined by `D` returns nil and appends exactly those
values, in order. -/
theorem MultiArgString_Set_joined (D : String) (vals : List String) (mas : MultiArgString)
    (hD : D ≠ "") (hvals : vals ≠ []) (hdel : mas.Del = D)
    (h : ∀ v ∈ vals, OnlyAtEnd D v) :
    (mas.Set (strings.Join vals D)).1.Args = mas.Args ++ vals ∧
      (mas.Set (strings.Join vals D)).2 = none := by
  have hd : D.data ≠ [] := by
    intro h2
    apply hD
    cases D
    simp_all
  refine ⟨?_, rfl⟩
  simp only [MultiArgString.Set, splitArgs, hdel, hD, if_false, strings.Split, hd]
  rw [splitLoop_Join D hd vals hvals h]

/-- Witness of the amended C20: delimiter `,` and the values `127.0.0.2`,
`127.0.0.3`. -/
theorem MultiArgString_Set_joined_witness :
    ((NewMultiArgString ",").Set (strings.Join ["127.0.0.2", "127.0.0.3"] ",")).1.Args =
        (NewMultiArgString ",").Args ++ ["127.0.0.2", "127.0.0.3"] ∧
      ((NewMultiArgString ",").Set (strings.Join ["127.0.0.2", "127.0.0.3"] ",")).2 = none :=
  MultiArgString_Set_joined "," ["127.0.0.2", "127.0.0.3"] (NewMultiArgString ",")
    (by decide) (by decide) rfl (by
      intro v hv i hi
      simp only [List.mem_cons, List.mem_singleton, List.not_mem_nil, or_false] at hv
      rcases hv with rfl | rfl <;>
        (have hi2 : i < 9 := hi
         interval_cases i <;> decide))

/-- C20 fails as stated: delimiter `aa` and the values `a`, `b`, neither of
which contains `aa`: the joined text is `aaab`, and `Set` appends the empty
string and `ab`. -/
theorem MultiArgString_Set_joined_straddle :
    ("aa" : String) ≠ "" ∧
      (∀ v ∈ (["a", "b"] : List String), strings.Contains v "aa" = false) ∧
      strings.Join ["a", "b"] "aa" = "aaab" ∧
      ((NewMultiArgString "aa").Set (strings.Join ["a", "b"] "aa")).1.Args = ["", "ab"] ∧
      ((NewMultiArgString "aa").Set (strings.Join ["a", "b"] "aa")).1.Args ≠
        (NewMultiArgString "aa").Args ++ ["a", "b"] :=
  ⟨by decide, by decide, by decide, by decide, by decide⟩

/-! ### The first token and the key `name` -/

/-- C11, amended: in a round with `field_idx == 0` and no scanner error,
whatever the rest of the parser state (`expecting_name`, `expecting_value`,
`field_name`), a token that is an identifier or a quoted string is stored as
the flag name (under key `name`, with `field_idx` becoming 1 and the rest of
the state unchanged), and a token of any other type (a symbol) makes
`parse_tag` return nil. So on a tag whose scan begins with the round `it`,
`parse_tag` goes on with the name set when `it` is an identifier or a string,
and returns nil when it is a symbol or another token. -/
theorem parse_tag_first_token (env : Env) (tag : String) (it : ScanItem) (rest : List ScanItem)
    (htag : tag ≠ "") (hscan : env.Scan tag = it :: rest) (herr : it.Err = false) :
    (∀ st : TagState, st.field_idx = 0 →
      ((it.Token.Typ = .TokenTypeIdent ∨ it.Token.Typ = .TokenTypeString) →
        parse_tag_step st it =
          .next { st with fields := Function.update st.fields "name" it.Token.Text,
                          field_idx := 1 }) ∧
      ((it.Token.Typ = .TokenTypeSymbol ∨ it.Token.Typ = .TokenTypeOther) →
        parse_tag_step st it = .retNil)) ∧
    ((it.Token.Typ = .TokenTypeIdent ∨ it.Token.Typ = .TokenTypeString) →
      parse_tag env tag =
        parse_tag_loop rest
          { TagState.init with fields := Function.update TagState.init.fields "name" it.Token.Text,
                               field_idx := 1 }) ∧
    ((it.Token.Typ = .TokenTypeSymbol ∨ it.Token.Typ = .TokenTypeOther) →
      parse_tag env tag = .ok none) := by
  have hstep : ∀ st : TagState, st.field_idx = 0 →
      ((it.Token.Typ = .TokenTypeIdent ∨ it.Token.Typ = .TokenTypeString) →
        parse_tag_step st it =
          .next { st with fields := Function.update st.fields "name" it.Token.Text,
                          field_idx := 1 }) ∧
      ((it.Token.Typ = .TokenTypeSymbol ∨ it.Token.Typ = .TokenTypeOther) →
        parse_tag_step st it = .retNil) := by
    intro st hidx
    constructor
    · intro h
      rcases h with h | h <;> simp [parse_tag_step, herr, hidx, h]
    · intro h
      rcases h with h | h <;> simp [parse_tag_step, herr, hidx, h]
  refine ⟨hstep, ?_, ?_⟩
  · intro h
    simp only [parse_tag, htag, if_false, hscan, parse_tag_loop]
    rw [(hstep TagState.init rfl).1 h]
  · intro h
    simp only [parse_tag, htag, if_false, hscan, parse_tag_loop]
    rw [(hstep TagState.init rfl).2 h]

/-- Witness of the amended C11: the tag `ip`, whose only token is an
identifier. -/
theorem parse_tag_first_token_witness :
    parse_tag env64 "ip" =
      parse_tag_loop []
        { TagState.init with fields := Function.update TagState.init.fields "name" "ip",
                             field_idx := 1 } :=
  (parse_tag_first_token env64 "ip"
    { Err := false, Token := { Typ := .TokenTypeIdent, Text := "ip" } } [] (by decide)
    (by decide) rfl).2.1 (Or.inl rfl)

/-- C11 fails as stated: the token stream of the tag `,ip` is not empty and
begins with the symbol `,`; `parse_tag` returns nil. -/
theorem parse_tag_symbol_first :
    env64.Scan ",ip" =
        [symbolItem ",", { Err := false, Token := { Typ := .TokenTypeIdent, Text := "ip" } }] ∧
      parse_tag env64 ",ip" = .ok none :=
  ⟨by decide, by rfl⟩

/-- C12 fails on the code: the first token of the tag `ip,name='x'` is the
identifier `ip`, and `parse_tag` returns a triple whose flag name is `x`: the
name is kept in the map `fields` under the key `name`, where the pair with key
`name` overwrites it. -/
theorem parse_tag_name_key_overwrites :
    (env64.Scan "ip,name='x'").head? =
        some { Err := false, Token := { Typ := .TokenTypeIdent, Text := "ip" } } ∧
      parse_tag env64 "ip,name='x'" =
        .ok (some { flag_name := "x", delimiter := "", usage_string := "" }) :=
  ⟨by decide, by rfl⟩

/-- C13 fails on the code: `name` is a key other than `del` and `usage`; the
tag `ip` gives the flag name `ip`, and with the pair `,name='x'` appended the
flag name is `x`; `FlagFromStruct` then defines the flag `x` and no flag `ip`. -/
theorem parse_tag_appended_name_key :
    parse_tag env64 "ip" =
        .ok (some { flag_name := "ip", delimiter := "", usage_string := "" }) ∧
      parse_tag env64 ("ip" ++ ",name='x'") =
        .ok (some { flag_name := "x", delimiter := "", usage_string := "" }) ∧
      (∃ fs m, (NewFlagSet "test" .ContinueOnError).FlagFromStruct env64 zeroMem
          (.structPtr "T" (some nameKeyFields)) = .ret fs m none ∧
        fs.flag_flagset.formal.map (fun fl => fl.Name) = ["x"]) :=
  ⟨by rfl, by rfl, _, _, rfl, by decide⟩

/-! ### Key order and whitespace -/

theorem scan_comma (rest : List Char) :
    scanLoop .start (',' :: rest) = symbolItem "," :: scanLoop .start rest := by
  simp [scanLoop, startChar_comma]

theorem scan_quoted (raw rest : List Char) (h : literalBody raw = true) :
    scanLoop .start (quoteChar :: (raw ++ quoteChar :: rest)) =
      stringItem (unescapeQuotes raw).reverse :: scanLoop .start rest := by
  have := scan_literal raw [] rest h
  simp only [List.append_nil] at this
  simp only [scanLoop, startChar_quote, List.nil_append, this]

theorem loop_first (it : ScanItem) (rest : List ScanItem) (herr : it.Err = false)
    (h : it.Token.Typ = .TokenTypeIdent ∨ it.Token.Typ = .TokenTypeString) :
    parse_tag_loop (it :: rest) TagState.init =
      parse_tag_loop rest
        { TagState.init with fields := Function.update TagState.init.fields "name" it.Token.Text,
                             field_idx := 1 } := by
  rcases h with h | h <;> simp [parse_tag_loop, parse_tag_step, herr, h, TagState.init]

/-- C14, amended: for every name `n`, written as an identifier or as a quoted
string, and all texts `D` and `U` in which every quote stands right after a
backslash, which escapes it, and which do not end in a backslash, `parse_tag`
returns the same triple for `n,del='D',usage='U'` as for `n,usage='U',del='D'`:
the name, `D` and `U` with their escaped quotes replaced by quotes. -/
theorem parse_tag_key_order (n D U : String) (hD : literalBody D.data = true)
    (hU : literalBody U.data = true) :
    (isIdent n →
      parse_tag env64 (n ++ ",del='" ++ D ++ "',usage='" ++ U ++ "'") =
          parse_tag env64 (n ++ ",usage='" ++ U ++ "',del='" ++ D ++ "'") ∧
        parse_tag env64 (n ++ ",del='" ++ D ++ "',usage='" ++ U ++ "'") =
          .ok (some { flag_name := n, delimiter := String.mk (unescapeQuotes D.data),
                      usage_string := String.mk (unescapeQuotes U.data) })) ∧
    (literalBody n.data = true →
      parse_tag env64 ("'" ++ n ++ "'" ++ ",del='" ++ D ++ "',usage='" ++ U ++ "'") =
          parse_tag env64 ("'" ++ n ++ "'" ++ ",usage='" ++ U ++ "',del='" ++ D ++ "'") ∧
        parse_tag env64 ("'" ++ n ++ "'" ++ ",del='" ++ D ++ "',usage='" ++ U ++ "'") =
          .ok (some { flag_name := "'" ++ String.mk (unescapeQuotes n.data) ++ "'",
                      delimiter := String.mk (unescapeQuotes D.data),
                      usage_string := String.mk (unescapeQuotes U.data) })) := by
  constructor
  · intro hn
    have hne : n.data ≠ [] := hn.1
    have h1 : parse_tag env64 (n ++ ",del='" ++ D ++ "',usage='" ++ U ++ "'") =
        .ok (some { flag_name := n, delimiter := String.mk (unescapeQuotes D.data),
                    usage_string := String.mk (unescapeQuotes U.data) }) := by
      rw [parse_tag_nonempty _ _ (by simp [hne])]
      have hd : (n ++ ",del='" ++ D ++ "',usage='" ++ U ++ "'").data =
          n.data ++ ',' :: ("del".data ++ '=' :: quoteChar :: (D.data ++ quoteChar :: ',' ::
            ("usage".data ++ '=' :: quoteChar :: (U.data ++ quoteChar :: [])))) := by
        simp only [String.data_append]
        show n.data ++ [',', 'd', 'e', 'l', '=', quoteChar] ++ D.data ++
          [quoteChar, ',', 'u', 's', 'a', 'g', 'e', '=', quoteChar] ++ U.data ++ [quoteChar] = _
        simp
      show parse_tag_loop (scanLoop .start _) _ = _
      rw [hd, scan_name_comma n hn, scan_pair "del" isIdent_del _ _ hD, scan_comma,
        scan_pair "usage" isIdent_usage _ _ hU, scan_nil,
        loop_name, loop_comma _ _ (by simp), loop_pair _ _ _ _ (by simp) rfl (by decide),
        loop_comma _ _ (by simp), loop_pair _ _ _ _ (by simp) rfl (by decide)]
      simp [parse_tag_loop, Function.update, TagState.init]
    have h2 : parse_tag env64 (n ++ ",usage='" ++ U ++ "',del='" ++ D ++ "'") =
        .ok (some { flag_name := n, delimiter := String.mk (unescapeQuotes D.data),
                    usage_string := String.mk (unescapeQuotes U.data) }) := by
      rw [parse_tag_nonempty _ _ (by simp [hne])]
      have hd : (n ++ ",usage='" ++ U ++ "',del='" ++ D ++ "'").data =
          n.data ++ ',' :: ("usage".data ++ '=' :: quoteChar :: (U.data ++ quoteChar :: ',' ::
            ("del".data ++ '=' :: quoteChar :: (D.data ++ quoteChar :: [])))) := by
        simp only [String.data_append]
        show n.data ++ [',', 'u', 's', 'a', 'g', 'e', '=', quoteChar] ++ U.data ++
          [quoteChar, ',', 'd', 'e', 'l', '=', quoteChar] ++ D.data ++ [quoteChar] = _
        simp
      show parse_tag_loop (scanLoop .start _) _ = _
      rw [hd, scan_name_comma n hn, scan_pair "usage" isIdent_usage _ _ hU, scan_comma,
        scan_pair "del" isIdent_del _ _ hD, scan_nil,
        loop_name, loop_comma _ _ (by simp), loop_pair _ _ _ _ (by simp) rfl (by decide),
        loop_comma _ _ (by simp), loop_pair _ _ _ _ (by simp) rfl (by decide)]
      simp [parse_tag_loop, Function.update, TagState.init]
    exact ⟨by rw [h1, h2], h1⟩
  · intro hn
    have h1 : parse_tag env64 ("'" ++ n ++ "'" ++ ",del='" ++ D ++ "',usage='" ++ U ++ "'") =
        .ok (some { flag_name := "'" ++ String.mk (unescapeQuotes n.data) ++ "'",
                    delimiter := String.mk (unescapeQuotes D.data),
                    usage_string := String.mk (unescapeQuotes U.data) }) := by
      rw [parse_tag_nonempty _ _ (by simp)]
      have hd : ("'" ++ n ++ "'" ++ ",del='" ++ D ++ "',usage='" ++ U ++ "'").data =
          quoteChar :: (n.data ++ quoteChar :: ',' :: ("del".data ++ '=' :: quoteChar ::
            (D.data ++ quoteChar :: ',' ::
              ("usage".data ++ '=' :: quoteChar :: (U.data ++ quoteChar :: []))))) := by
        simp only [String.data_append]
        show [quoteChar] ++ n.data ++ [quoteChar] ++ [',', 'd', 'e', 'l', '=', quoteChar] ++
          D.data ++ [quoteChar, ',', 'u', 's', 'a', 'g', 'e', '=', quoteChar] ++ U.data ++
          [quoteChar] = _
        simp
      show parse_tag_loop (scanLoop .start _) _ = _
      rw [hd, scan_quoted _ _ hn, scan_comma, scan_pair "del" isIdent_del _ _ hD, scan_comma,
        scan_pair "usage" isIdent_usage _ _ hU, scan_nil,
        loop_first _ _ rfl (Or.inr rfl), loop_comma _ _ (by simp),
        loop_pair _ _ _ _ (by simp) rfl (by decide),
        loop_comma _ _ (by simp), loop_pair _ _ _ _ (by simp) rfl (by decide)]
      simp [parse_tag_loop, Function.update, TagState.init, stringItem]
      rfl
    have h2 : parse_tag env64 ("'" ++ n ++ "'" ++ ",usage='" ++ U ++ "',del='" ++ D ++ "'") =
        .ok (some { flag_name := "'" ++ String.mk (unescapeQuotes n.data) ++ "'",
                    delimiter := String.mk (unescapeQuotes D.data),
                    usage_string := String.mk (unescapeQuotes U.data) }) := by
      rw [parse_tag_nonempty _ _ (by simp)]
      have hd : ("'" ++ n ++ "'" ++ ",usage='" ++ U ++ "',del='" ++ D ++ "'").data =
          quoteChar :: (n.data ++ quoteChar :: ',' :: ("usage".data ++ '=' :: quoteChar ::
            (U.data ++ quoteChar :: ',' ::
              ("del".data ++ '=' :: quoteChar :: (D.data ++ quoteChar :: []))))) := by
        simp only [String.data_append]
        show [quoteChar] ++ n.data ++ [quoteChar] ++ [',', 'u', 's', 'a', 'g', 'e', '=', quoteChar] ++
          U.data ++ [quoteChar, ',', 'd', 'e', 'l', '=', quoteChar] ++ D.data ++
          [quoteChar] = _
        simp
      show parse_tag_loop (scanLoop .start _) _ = _
      rw [hd, scan_quoted _ _ hn, scan_comma, scan_pair "usage" isIdent_usage _ _ hU, scan_comma,
        scan_pair "del" isIdent_del _ _ hD, scan_nil,
        loop_first _ _ rfl (Or.inr rfl), loop_comma _ _ (by simp),
        loop_pair _ _ _ _ (by simp) rfl (by decide),
        loop_comma _ _ (by simp), loop_pair _ _ _ _ (by simp) rfl (by decide)]
      simp [parse_tag_loop, Function.update, TagState.init, stringItem]
      rfl
    exact ⟨by rw [h1, h2], h1⟩

theorem parse_tag_key_order_witness :
    (parse_tag env64 ("ip" ++ ",del='" ++ "," ++ "',usage='" ++ "The IP address" ++ "'") =
        parse_tag env64 ("ip" ++ ",usage='" ++ "The IP address" ++ "',del='" ++ "," ++ "'") ∧
      parse_tag env64 ("ip" ++ ",del='" ++ "," ++ "',usage='" ++ "The IP address" ++ "'") =
        .ok (some { flag_name := "ip", delimiter := String.mk (unescapeQuotes ",".data),
                    usage_string := String.mk (unescapeQuotes "The IP address".data) })) ∧
      String.mk (unescapeQuotes ",".data) = "," ∧
      String.mk (unescapeQuotes "The IP address".data) = "The IP address" :=
  ⟨(parse_tag_key_order "ip" "," "The IP address" (by decide) (by decide)).1
    ⟨by decide, by decide⟩, by decide, by decide⟩

/-- C14 fails as stated: with the value `x',usage='y` for `D` and the value `U`
for `U`, the tag `n,del='D',usage='U'` reads `n,del='x',usage='y',usage='U'`
and the tag of the other order reads `n,usage='U',del='x',usage='y'`; the pair
with key `usage` that comes last wins, and `parse_tag` returns the usage `U`
for the first tag and `y` for the second. -/
theorem parse_tag_key_order_matters :
    parse_tag env64 ("n" ++ ",del='" ++ "x',usage='y" ++ "',usage='" ++ "U" ++ "'") =
        .ok (some { flag_name := "n", delimiter := "x", usage_string := "U" }) ∧
      parse_tag env64 ("n" ++ ",usage='" ++ "U" ++ "',del='" ++ "x',usage='y" ++ "'") =
        .ok (some { flag_name := "n", delimiter := "x", usage_string := "y" }) :=
  ⟨by rfl, by rfl⟩

theorem scanLoop_congr : ∀ (a : List Char) (mode : ScanMode) (r1 r2 : List Char),
    scanLoop (modeAfter mode a) r1 = scanLoop (modeAfter mode a) r2 →
      scanLoop mode (a ++ r1) = scanLoop mode (a ++ r2) := by
  intro a
  induction a with
  | nil => intro mode r1 r2 h; cases mode <;> simpa [modeAfter] using h
  | cons c t ih =>
    intro mode r1 r2 h
    cases mode with
    | start =>
      simp only [modeAfter] at h
      simp only [List.cons_append, scanLoop, List.append_eq, ih _ _ _ h]
    | ident acc =>
      simp only [modeAfter] at h
      simp only [List.cons_append, scanLoop, List.append_eq]
      split
      · rename_i hc; rw [if_pos hc] at h; exact ih _ _ _ h
      · rename_i hc; rw [if_neg hc] at h; rw [ih _ _ _ h]
    | str acc =>
      simp only [modeAfter] at h
      simp only [List.cons_append, scanLoop, List.append_eq]
      split
      · rename_i hc; rw [if_pos hc] at h; exact ih _ _ _ h
      · rename_i hc
        rw [if_neg hc] at h
        split
        · rename_i hq; rw [if_pos hq] at h; rw [ih _ _ _ h]
        · rename_i hq; rw [if_neg hq] at h; exact ih _ _ _ h
    | strEsc acc =>
      simp only [modeAfter] at h
      simp only [List.cons_append, scanLoop, List.append_eq]
      split
      · rename_i hc; rw [if_pos hc] at h; exact ih _ _ _ h
      · rename_i hc
        rw [if_neg hc] at h
        split
        · rename_i hq; rw [if_pos hq] at h; exact ih _ _ _ h
        · rename_i hq; rw [if_neg hq] at h; exact ih _ _ _ h

theorem startChar_of_space {c : Char} (h : isSpaceChar c = true) : startChar c = ([], .start) := by
  simp [startChar, h]

theorem isSpaceChar_not_ident {c : Char} (h : isSpaceChar c = true) : isIdentChar c = false := by
  cases hc : isIdentChar c with
  | false => rfl
  | true => rw [isIdentChar_not_space hc] at h; cases h

theorem scan_spaces (sp b : List Char) (hsp : ∀ c ∈ sp, isSpaceChar c = true) :
    scanLoop .start (sp ++ b) = scanLoop .start b := by
  induction sp with
  | nil => rfl
  | cons c t ih =>
    have hc := startChar_of_space (hsp c (List.mem_cons_self _ _))
    simp only [List.cons_append, scanLoop, hc, List.nil_append]
    exact ih (fun d hd => hsp d (List.mem_cons_of_mem _ hd))

theorem scan_ident_flush (acc b : List Char)
    (hb : ∀ c, b.head? = some c → isIdentChar c = false) :
    scanLoop (.ident acc) b = identItem acc :: scanLoop .start b := by
  cases b with
  | nil => rfl
  | cons d t =>
    have hd := hb d rfl
    simp [scanLoop, hd]

theorem scan_ident_spaces (acc sp b : List Char) (hsp : ∀ c ∈ sp, isSpaceChar c = true)
    (hb : ∀ c, b.head? = some c → isIdentChar c = false) :
    scanLoop (.ident acc) (sp ++ b) = scanLoop (.ident acc) b := by
  cases sp with
  | nil => rfl
  | cons c t =>
    have hc := hsp c (List.mem_cons_self _ _)
    rw [scan_ident_flush acc b hb,
      scan_ident_flush acc (c :: t ++ b) (by
        intro d hd
        simp only [List.cons_append, List.head?_cons, Option.some.injEq] at hd
        subst hd
        exact isSpaceChar_not_ident hc),
      scan_spaces (c :: t) b hsp]

/-- C15: for every tag, written as the text `a` followed by the text `b` (not
both empty), where the position between them lies between two tokens and not
inside a quoted string, inserting whitespace `sp` at that position, or removing
it, does not change what `parse_tag` returns. -/
theorem parse_tag_whitespace (a sp b : List Char) (hsp : ∀ c ∈ sp, isSpaceChar c = true)
    (hab : a ++ b ≠ []) (hpos : BetweenTokens a b) :
    parse_tag env64 (String.mk (a ++ sp ++ b)) = parse_tag env64 (String.mk (a ++ b)) := by
  have h1 : (String.mk (a ++ sp ++ b)).data ≠ [] := by
    intro h
    apply hab
    simp only [List.append_eq_nil] at h ⊢
    exact ⟨h.1.1, h.2⟩
  rw [parse_tag_nonempty _ _ h1, parse_tag_nonempty _ _ hab]
  show parse_tag_loop (scanLoop .start (a ++ sp ++ b)) _ =
    parse_tag_loop (scanLoop .start (a ++ b)) _
  rw [List.append_assoc]
  congr 1
  apply scanLoop_congr
  rcases hpos with h | ⟨acc, h, hb⟩
  · rw [h]; exact scan_spaces sp b hsp
  · rw [h]; exact scan_ident_spaces acc sp b hsp hb

theorem parse_tag_whitespace_witness :
    (parse_tag env64 (String.mk ("spacing".data ++ " ".data ++ ", usage = 'Spec with spaces'".data)) =
        parse_tag env64 (String.mk ("spacing".data ++ ", usage = 'Spec with spaces'".data))) ∧
      parse_tag env64 "spacing , usage = 'Spec with spaces'" =
        .ok (some { flag_name := "spacing", delimiter := "", usage_string := "Spec with spaces" }) ∧
      parse_tag env64 "spacing,usage='Spec with spaces'" =
        .ok (some { flag_name := "spacing", delimiter := "", usage_string := "Spec with spaces" }) :=
  ⟨parse_tag_whitespace "spacing".data " ".data ", usage = 'Spec with spaces'".data
      (by decide) (by decide) (Or.inr ⟨"gnicaps".data, by decide, by decide⟩),
    by rfl, by rfl⟩

/-! ### Which stores `FlagSep` accepts -/

theorem Var_fresh (f : flag.FlagSet) (v : Value) (name usage : String)
    (hv : flag.validName name = true) (h : f.lookup name = none) :
    f.Var v name usage =
      some { f with formal := f.formal ++ [{ Name := name, Usage := usage, Value := v }] } := by
  simp [flag.FlagSet.Var, h, hv]

theorem Var_redefined (f : flag.FlagSet) (v : Value) (name usage : String) (fl : flag.Flag)
    (h : f.lookup name = some fl) : f.Var v name usage = none := by
  simp [flag.FlagSet.Var, h]

theorem varPanic_redefined (f : flag.FlagSet) (name : String) (fl : flag.Flag)
    (h : f.lookup name = some fl) : f.varPanic name = .flagRedefined name := by
  simp [flag.FlagSet.varPanic, h]

theorem lookup_append_one (f : flag.FlagSet) (fl : flag.Flag) (n : String) :
    ({ f with formal := f.formal ++ [fl] } : flag.FlagSet).lookup n = none ↔
      f.lookup n = none ∧ fl.Name ≠ n := by
  simp only [flag.FlagSet.lookup, List.find?_eq_none, List.mem_append, List.mem_singleton,
    decide_eq_true_eq]
  constructor
  · intro h
    exact ⟨fun x hx => h x (Or.inl hx), h fl (Or.inr rfl)⟩
  · rintro ⟨h1, h2⟩ x (hx | rfl)
    · exact h1 x hx
    · exact h2

theorem supported_cases (t : Ty) (h : t.supported = true) :
    (∃ k : ScalarKind, t = k.ty) ∨ ∃ k : ElemKind, t = k.sliceTy := by
  cases t with
  | bool => exact Or.inl ⟨.bool, rfl⟩
  | int => exact Or.inl ⟨.int, rfl⟩
  | int64 => exact Or.inl ⟨.int64, rfl⟩
  | uint => exact Or.inl ⟨.uint, rfl⟩
  | uint64 => exact Or.inl ⟨.uint64, rfl⟩
  | float64 => exact Or.inl ⟨.float64, rfl⟩
  | string => exact Or.inl ⟨.string, rfl⟩
  | other kind => simp [Ty.supported, Ty.scalarKind] at h
  | named n u => simp [Ty.supported, Ty.scalarKind] at h
  | slice elem =>
    right
    cases elem with
    | int => exact ⟨.int, rfl⟩
    | int64 => exact ⟨.int64, rfl⟩
    | uint => exact ⟨.uint, rfl⟩
    | uint64 => exact ⟨.uint64, rfl⟩
    | float64 => exact ⟨.float64, rfl⟩
    | string => exact ⟨.string, rfl⟩
    | bool => simp [Ty.supported] at h
    | other kind => simp [Ty.supported] at h
    | named n u => simp [Ty.supported] at h
    | slice e => simp [Ty.supported] at h

theorem sliceTy_supported (k : ElemKind) : k.sliceTy.supported = true := by cases k <;> rfl

theorem scalarTy_supported (k : ScalarKind) : k.ty.supported = true := by cases k <;> rfl

theorem scalarKind_eq (t : Ty) (k : ScalarKind) (h : t.scalarKind = some k) : t = k.ty := by
  cases t <;> simp [Ty.scalarKind] at h <;> subst h <;> rfl

theorem FlagSep_sliceTy (fs : FlagSet) (m : Mem) (k : ElemKind) (p : Ptr)
    (name usage del : String) :
    fs.FlagSep m (.ptr k.sliceTy (some p)) name usage del =
      fs.set_slice_case m k k.sliceTy p name usage del := by
  cases k <;> rfl

theorem FlagSep_scalarTy (fs : FlagSet) (m : Mem) (k : ScalarKind) (p : Ptr)
    (name usage del : String) :
    fs.FlagSep m (.ptr k.ty (some p)) name usage del = fs.scalarVar m k p name usage := by
  cases k <;> rfl

/-- For a name that `flag.FlagSet.Var` accepts and that is not yet registered,
`FlagSep` returns nil on a non-nil pointer to a variable of a supported type,
and registers exactly that name. -/
theorem FlagSep_supported (fs : FlagSet) (m : Mem) (t : Ty) (p : Ptr) (name usage del : String)
    (hv : flag.validName name = true) (hfresh : fs.flag_flagset.lookup name = none)
    (ht : t.supported = true) :
    ∃ fs1 m1, fs.FlagSep m (.ptr t (some p)) name usage del = .ret fs1 m1 none ∧
      ∀ n, fs1.flag_flagset.lookup n = none ↔ fs.flag_flagset.lookup n = none ∧ name ≠ n := by
  rcases supported_cases t ht with ⟨k, rfl⟩ | ⟨k, rfl⟩
  · rw [FlagSep_scalarTy]
    simp only [FlagSet.scalarVar, Var_fresh _ _ _ _ hv hfresh]
    exact ⟨_, _, rfl, fun n => lookup_append_one _ _ n⟩
  · rw [FlagSep_sliceTy]
    simp only [FlagSet.set_slice_case, Var_fresh _ _ _ _ hv hfresh, if_true]
    exact ⟨_, _, rfl, fun n => lookup_append_one _ _ n⟩

theorem set_slice_case_result (fs : FlagSet) (m : Mem) (k : ElemKind) (t : Ty) (p : Ptr)
    (name usage sep : String) (hv : flag.validName name = true)
    (hfresh : fs.flag_flagset.lookup name = none) :
    (fs.set_slice_case m k t p name usage sep).result =
      some (if t = k.sliceTy then none else some (.notSliceOf k)) := by
  simp only [FlagSet.set_slice_case, Var_fresh _ _ _ _ hv hfresh]
  split <;> rfl

theorem set_slice_result (fs : FlagSet) (m : Mem) (t : Ty) (p : Ptr)
    (name usage sep : String) (hv : flag.validName name = true)
    (hfresh : fs.flag_flagset.lookup name = none) (ht : t.supported = false) :
    ∃ err, (fs.set_slice m t p name usage sep).result = some (some err) := by
  have hk : ∀ k : ElemKind, t ≠ k.sliceTy := by
    intro k hk
    rw [hk, sliceTy_supported] at ht
    cases ht
  unfold FlagSet.set_slice
  split <;>
    first
    | (rw [set_slice_case_result _ _ _ _ _ _ _ _ hv hfresh, if_neg (hk _)]; exact ⟨_, rfl⟩)
    | exact ⟨_, rfl⟩

/-- For a name that `flag.FlagSet.Var` accepts and that is not yet registered,
`FlagSep` returns an error on every store that is not a non-nil pointer to a
variable of a supported type, a nil pointer to one of the seven scalar types
apart. -/
theorem FlagSep_unsupported (fs : FlagSet) (m : Mem) (store : Store) (name usage del : String)
    (hv : flag.validName name = true) (hfresh : fs.flag_flagset.lookup name = none)
    (hs : store.supported = false)
    (hnil : ∀ t, store = .ptr t none → t.scalarKind = none) :
    ∃ err, (fs.FlagSep m store name usage del).result = some (some err) := by
  cases store with
  | nil => exact ⟨_, rfl⟩
  | value t => exact ⟨_, rfl⟩
  | structPtr n f => exact ⟨_, rfl⟩
  | ptr t p =>
    cases p with
    | none =>
      simp only [FlagSet.FlagSep, hnil t rfl]
      exact ⟨_, rfl⟩
    | some p =>
      simp only [Store.supported] at hs
      simp only [FlagSet.FlagSep]
      split
      · exact set_slice_result fs m t p name usage del hv hfresh hs
      · cases hk : t.scalarKind with
        | none => exact ⟨_, rfl⟩
        | some k =>
          rw [scalarKind_eq t k hk, scalarTy_supported] at hs
          cases hs

/-- `FlagSep` returns nil only on a non-nil pointer to a variable of a
supported type. -/
theorem FlagSep_nil_supported (fs : FlagSet) (m : Mem) (store : Store) (name usage del : String)
    (h : (fs.FlagSep m store name usage del).result = some none) : store.supported = true := by
  cases store with
  | nil => cases h
  | value t => cases h
  | structPtr n f => cases h
  | ptr t p =>
    cases p with
    | none =>
      simp only [FlagSet.FlagSep] at h
      split at h <;> cases h
    | some p =>
      simp only [Store.supported]
      simp only [FlagSet.FlagSep] at h
      split at h
      · unfold FlagSet.set_slice at h
        have hc : ∀ k : ElemKind, (fs.set_slice_case m k t p name usage del).result = some none →
            t.supported = true := by
          intro k hr
          unfold FlagSet.set_slice_case at hr
          dsimp only at hr
          split at hr
          · cases hr
          · split at hr
            · rename_i heq; rw [heq]; exact sliceTy_supported k
            · cases hr
        split at h <;> first | exact hc _ h | cases h
      · cases hk : t.scalarKind with
        | none => rw [hk] at h; cases h
        | some k => rw [scalarKind_eq t k hk]; exact scalarTy_supported k

/-- C16, the failing input: the name `count` is not registered in a new flag
set, and `FlagSep` on the nil pointer `(*int)(nil)` does not return an error: it
panics on the dereference `*v` of its type switch, while on the nil interface
it returns the error of its check `store == nil`. -/
theorem FlagSep_nil_int_pointer :
    (NewFlagSet "test" .ContinueOnError).flag_flagset.lookup "count" = none ∧
      (NewFlagSet "test" .ContinueOnError).FlagSep zeroMem (.ptr .int none) "count"
          "Count (int)" "" =
        .panic (NewFlagSet "test" .ContinueOnError) zeroMem .nilDereference ∧
      (NewFlagSet "test" .ContinueOnError).FlagSep zeroMem .nil "count" "Count (int)" "" =
        .ret (NewFlagSet "test" .ContinueOnError) zeroMem (some .storeNil) :=
  ⟨by decide, by rfl, by rfl⟩

/-! ### A name that is already registered -/

/-- C17, amended: when `name` is already registered in the flag set, `FlagSep`
(and `Flag`, its call with the empty delimiter) on a non-nil pointer to a
variable of a supported type, scalar or slice, returns no error value: it
panics with the "flag redefined" message of `flag.FlagSet.Var`. The flag set it
leaves is the one it was given, so the earlier registration stays in effect,
and no caller variable has changed. -/
theorem FlagSep_redefined_panics (fs : FlagSet) (m : Mem) (t : Ty) (p : Ptr)
    (name usage del : String) (fl : flag.Flag)
    (hreg : fs.flag_flagset.lookup name = some fl) (ht : t.supported = true) :
    ∃ m1, fs.FlagSep m (.ptr t (some p)) name usage del = .panic fs m1 (.flagRedefined name) ∧
      m1.scalars = m.scalars ∧ m1.slices = m.slices := by
  rcases supported_cases t ht with ⟨k, rfl⟩ | ⟨k, rfl⟩
  · rw [FlagSep_scalarTy]
    simp only [FlagSet.scalarVar, Var_redefined _ _ _ _ _ hreg, setScalar_self,
      varPanic_redefined _ _ _ hreg]
    exact ⟨_, rfl, rfl, rfl⟩
  · rw [FlagSep_sliceTy]
    simp only [FlagSet.set_slice_case, Var_redefined _ _ _ _ _ hreg,
      varPanic_redefined _ _ _ hreg]
    exact ⟨_, rfl, rfl, rfl⟩

theorem FlagSep_redefined_panics_witness :
    ∃ m1, multivalueSet.FlagSep multivalueMem (.ptr .int (some 1)) "count" "Count again" "" =
        .panic multivalueSet m1 (.flagRedefined "count") ∧
      m1.scalars = multivalueMem.scalars ∧ m1.slices = multivalueMem.slices :=
  FlagSep_redefined_panics multivalueSet multivalueMem .int 1 "count" "Count again" ""
    { Name := "count", Usage := "Count (int)", Value := .scalar .int 0 } (by decide) (by decide)

/-- C17 fails as stated: after the two `Flag` calls of `ExampleMultivalue` the
names `count` and `ip` are registered, and a further `Flag` call with either
name, on an int and on a slice of strings, ends in a panic and not in a
returned error. -/
theorem Flag_duplicate_name_panics :
    multivalueSet.flag_flagset.lookup "count" =
        some { Name := "count", Usage := "Count (int)", Value := .scalar .int 0 } ∧
      multivalueSet.Flag multivalueMem (.ptr .int (some 1)) "count" "Count again" =
        .panic multivalueSet (multivalueMem.setScalar .int 1 (multivalueMem.scalars .int 1))
          (.flagRedefined "count") ∧
      (multivalueSet.Flag multivalueMem (.ptr .int (some 1)) "count" "Count again").result =
        none ∧
      (multivalueSet.flag_flagset.lookup "ip").isSome = true ∧
      (multivalueSet.Flag multivalueMem (.ptr (.slice .string) (some 1)) "ip" "again").result =
        none :=
  ⟨by decide, by rfl, by decide, by decide, by decide⟩

/-! ### `FlagFromStruct` -/

theorem parse_tag_step_panic (st : TagState) (it : ScanItem)
    (h : parse_tag_step st it = .panic) :
    it.Token.Typ = .TokenTypeString ∧ it.Token.Text.length < 2 := by
  unfold parse_tag_step at h
  split at h
  · cases h
  · split at h
    · split at h <;> cases h
    · split at h
      · split at h
        · cases h
        · split at h
          · split at h <;> cases h
          · cases h
      · cases h
      · split at h
        · cases h
        · split at h
          · split at h
            · cases h
            · split at h
              · rename_i htyp
                split at h
                · rename_i hlen; exact ⟨htyp, hlen⟩
                · cases h
              · cases h
          · cases h

theorem parse_tag_loop_ok : ∀ (items : List ScanItem) (st : TagState),
    (∀ it ∈ items, it.Token.Typ = .TokenTypeString → 2 ≤ it.Token.Text.length) →
      parse_tag_loop items st ≠ .error () := by
  intro items
  induction items with
  | nil => intro st _ h; cases h
  | cons it rest ih =>
    intro st hq h
    unfold parse_tag_loop at h
    split at h
    · exact ih _ (fun x hx => hq x (List.mem_cons_of_mem _ hx)) h
    · cases h
    · rename_i hstep
      have := parse_tag_step_panic st it hstep
      have := hq it (List.mem_cons_self _ _) this.1
      omega

theorem parse_tag_no_panic (env : Env) (hq : env.StringsQuoted) (tag : String) :
    parse_tag env tag ≠ .error () := by
  unfold parse_tag
  split
  · intro h; cases h
  · exact parse_tag_loop_ok _ _ (hq tag)

theorem startChar_not_string (c : Char) :
    ∀ it ∈ (startChar c).1, it.Token.Typ ≠ .TokenTypeString := by
  intro it hit
  unfold startChar at hit
  split at hit
  · cases hit
  · split at hit
    · cases hit
    · split at hit
      · cases hit
      · simp only [List.mem_singleton] at hit
        subst hit
        simp

theorem scanLoop_quoted : ∀ (cs : List Char) (mode : ScanMode),
    ∀ it ∈ scanLoop mode cs, it.Token.Typ = .TokenTypeString → 2 ≤ it.Token.Text.length := by
  intro cs
  induction cs with
  | nil =>
    intro mode it hit htyp
    cases mode <;> simp [scanLoop, identItem, errItem] at hit <;> subst hit <;> cases htyp
  | cons c t ih =>
    intro mode it hit htyp
    cases mode with
    | start =>
      simp only [scanLoop, List.mem_append] at hit
      rcases hit with hit | hit
      · exact absurd htyp (startChar_not_string c it hit)
      · exact ih _ it hit htyp
    | ident acc =>
      simp only [scanLoop] at hit
      split at hit
      · exact ih _ it hit htyp
      · simp only [List.mem_cons, List.mem_append] at hit
        rcases hit with rfl | hit | hit
        · cases htyp
        · exact absurd htyp (startChar_not_string c it hit)
        · exact ih _ it hit htyp
    | str acc =>
      simp only [scanLoop] at hit
      split at hit
      · exact ih _ it hit htyp
      · split at hit
        · simp only [List.mem_cons] at hit
          rcases hit with rfl | hit
          · simp [stringItem, String.length]
          · exact ih _ it hit htyp
        · exact ih _ it hit htyp
    | strEsc acc =>
      simp only [scanLoop] at hit
      split at hit
      · exact ih _ it hit htyp
      · split at hit <;> exact ih _ it hit htyp

theorem env64_StringsQuoted : env64.StringsQuoted := by
  intro s it hit htyp
  exact scanLoop_quoted s.data .start it hit htyp

theorem bindFields_eq_bindSelected (env : Env) (hq : env.StringsQuoted) (typeName : String) :
    ∀ (fields : List StructField) (fs : FlagSet) (m : Mem),
      FlagSet.bindFields env typeName fields fs m =
        FlagSet.bindSelected typeName (selectedFields env fields) fs m := by
  intro fields
  induction fields with
  | nil => intro fs m; rfl
  | cons f rest ih =>
    intro fs m
    have ih2 : ∀ fs m, FlagSet.bindFields env typeName rest fs m =
        FlagSet.bindSelected typeName (List.filterMap _ rest) fs m := ih
    unfold FlagSet.bindFields
    simp only [selectedFields, List.filterMap_cons]
    cases hup : first_char_is_upper env f.Name with
    | false => simp only [if_true, Bool.false_eq_true, if_false]; exact ih2 fs m
    | true =>
      simp only [Bool.true_eq_false, if_false, if_true]
      cases hp : parse_tag env f.Tag with
      | error e => exact absurd hp (parse_tag_no_panic env hq f.Tag)
      | ok r =>
        cases r with
        | none => exact ih2 fs m
        | some td =>
          by_cases hn : td.flag_name = ""
          · simp only [hn, if_true]; exact ih2 fs m
          · simp only [hn, if_false, FlagSet.bindSelected]
            split <;> first | exact ih2 _ _ | rfl

theorem bindSelected_ok (typeName : String) : ∀ (sel : List (StructField × tag_data))
    (fs : FlagSet) (m : Mem),
    (∀ x ∈ sel, x.1.Typ.supported = true ∧ flag.validName x.2.flag_name = true ∧
      fs.flag_flagset.lookup x.2.flag_name = none) →
    (sel.map fun x => x.2.flag_name).Nodup →
      ∃ fs1 m1, FlagSet.bindSelected typeName sel fs m = .ret fs1 m1 none := by
  intro sel
  induction sel with
  | nil => intro fs m _ _; exact ⟨fs, m, rfl⟩
  | cons x rest ih =>
    intro fs m hsel hnd
    obtain ⟨hs, hv, hf⟩ := hsel x (List.mem_cons_self _ _)
    obtain ⟨fs1, m1, heq, hl⟩ :=
      FlagSep_supported fs m x.1.Typ x.1.addr x.2.flag_name x.2.usage_string x.2.delimiter
        hv hf hs
    simp only [List.map_cons, List.nodup_cons, List.mem_map, not_exists, not_and] at hnd
    simp only [FlagSet.bindSelected, heq]
    apply ih fs1 m1 _ hnd.2
    intro y hy
    obtain ⟨hys, hyv, hyf⟩ := hsel y (List.mem_cons_of_mem _ hy)
    exact ⟨hys, hyv, (hl _).2 ⟨hyf, fun h => hnd.1 y hy h.symm⟩⟩

/-- C18, amended: `FlagFromStruct` returns an error and leaves the flag set as
it was (no flag registered) for every store that is not a non-nil pointer to a
struct: the nil interface, a value that is no pointer, a pointer (nil or not)
to a scalar or a slice, a nil struct pointer. It returns nil for every non-nil
pointer to a struct whose annotated exported fields (name starting with an
upper-case letter, tag parsing to a triple with a non-empty flag name) all have
supported types and flag names that `flag.FlagSet.Var` accepts (not beginning
with `-`, containing no `=`), that are not registered in the flag set and that
differ from each other. The tokenizer is any one whose string tokens keep their
quotes. -/
theorem FlagFromStruct_error_or_nil (env : Env) (hq : env.StringsQuoted) (fs : FlagSet)
    (m : Mem) :
    (∀ store : Store, store.isStructPtr = false →
      ∃ err, fs.FlagFromStruct env m store = .ret fs m (some err)) ∧
    (∀ (typeName : String) (fields : List StructField),
      (∀ x ∈ selectedFields env fields,
        x.1.Typ.supported = true ∧ flag.validName x.2.flag_name = true ∧
          fs.flag_flagset.lookup x.2.flag_name = none) →
      ((selectedFields env fields).map fun x => x.2.flag_name).Nodup →
      ∃ fs1 m1, fs.FlagFromStruct env m (.structPtr typeName (some fields)) =
        .ret fs1 m1 none) := by
  constructor
  · intro store hs
    cases store with
    | nil => exact ⟨_, rfl⟩
    | value t => exact ⟨_, rfl⟩
    | ptr t p => exact ⟨_, rfl⟩
    | structPtr n f =>
      cases f with
      | none => exact ⟨_, rfl⟩
      | some f => cases hs
  · intro typeName fields hsel hnd
    show ∃ fs1 m1, FlagSet.bindFields env typeName fields fs m = .ret fs1 m1 none
    rw [bindFields_eq_bindSelected env hq]
    exact bindSelected_ok typeName _ fs m hsel hnd

theorem myFlagStruct_selected :
    selectedFields env64 myFlagStructFields =
      [({ Name := "IP", Tag := "ip, usage='The IP address'", Typ := .string, addr := 0 },
        { flag_name := "ip", delimiter := "", usage_string := "The IP address" }),
       ({ Name := "Count", Tag := "cnt,usage='The count'", Typ := .int, addr := 0 },
        { flag_name := "cnt", delimiter := "", usage_string := "The count" }),
       ({ Name := "Default", Tag := "default,usage='Field to show defaults'", Typ := .string,
          addr := 1 },
        { flag_name := "default", delimiter := "", usage_string := "Field to show defaults" }),
       ({ Name := "Quote", Tag := "quote,usage='Field to show embedded (\\') chars'",
          Typ := .string, addr := 2 },
        { flag_name := "quote", delimiter := "",
          usage_string := "Field to show embedded (') chars" }),
       ({ Name := "Spaces", Tag := "spacing , usage = 'Spec with spaces'", Typ := .string,
          addr := 3 },
        { flag_name := "spacing", delimiter := "", usage_string := "Spec with spaces" })] := by
  rfl

theorem FlagFromStruct_error_or_nil_witness :
    (∃ err, (NewFlagSet "test" .ContinueOnError).FlagFromStruct env64 zeroMem
        (.ptr .int (some 0)) = .ret (NewFlagSet "test" .ContinueOnError) zeroMem (some err)) ∧
      ∃ fs1 m1, (NewFlagSet "test" .ContinueOnError).FlagFromStruct env64 zeroMem
        (.structPtr "MyFlagStruct" (some myFlagStructFields)) = .ret fs1 m1 none :=
  ⟨(FlagFromStruct_error_or_nil env64 env64_StringsQuoted (NewFlagSet "test" .ContinueOnError)
      zeroMem).1 (.ptr .int (some 0)) rfl,
    (FlagFromStruct_error_or_nil env64 env64_StringsQuoted (NewFlagSet "test" .ContinueOnError)
      zeroMem).2 "MyFlagStruct" myFlagStructFields
      (by rw [myFlagStruct_selected]; decide) (by rw [myFlagStruct_selected]; decide)⟩

/-- C18, the counterexample: the one annotated exported field of each of the
two structs has the supported type `string` and a flag name that is not
registered in the new flag set, and `FlagFromStruct` does not return nil: it
panics in `flag.FlagSet.Var`, on the name `-y` ("flag begins with -") and on
the name `'a=b'` ("flag contains ="). -/
theorem FlagFromStruct_panics_on_flag_name :
    selectedFields env64 dashNameFields =
        [({ Name := "A", Tag := "x,name='-y'", Typ := .string, addr := 0 },
          { flag_name := "-y", delimiter := "", usage_string := "" })] ∧
      selectedFields env64 equalsNameFields =
        [({ Name := "A", Tag := "'a=b'", Typ := .string, addr := 0 },
          { flag_name := "'a=b'", delimiter := "", usage_string := "" })] ∧
      Ty.string.supported = true ∧
      (NewFlagSet "test" .ContinueOnError).flag_flagset.lookup "-y" = none ∧
      (NewFlagSet "test" .ContinueOnError).flag_flagset.lookup "'a=b'" = none ∧
      (NewFlagSet "test" .ContinueOnError).FlagFromStruct env64 zeroMem
          (.structPtr "T" (some dashNameFields)) =
        .panic (NewFlagSet "test" .ContinueOnError)
          (zeroMem.setScalar .string 0 (zeroMem.scalars .string 0))
          (.flagBeginsWithDash "-y") ∧
      (NewFlagSet "test" .ContinueOnError).FlagFromStruct env64 zeroMem
          (.structPtr "T" (some equalsNameFields)) =
        .panic (NewFlagSet "test" .ContinueOnError)
          (zeroMem.setScalar .string 0 (zeroMem.scalars .string 0))
          (.flagContainsEq "'a=b'") :=
  ⟨by rfl, by rfl, by rfl, by rfl, by rfl, by rfl, by rfl⟩

theorem selectedFields_skip (env : Env) (f : StructField) (pre post : List StructField)
    (h : f.Tag = "" ∨ first_char_is_upper env f.Name = false) :
    selectedFields env (pre ++ f :: post) = selectedFields env (pre ++ post) := by
  have hf : selectedFields env [f] = [] := by
    rcases h with h | h
    · simp [selectedFields, List.filterMap_cons, parse_tag, h]
    · simp [selectedFields, List.filterMap_cons, h]
  have hsplit : pre ++ f :: post = pre ++ ([f] ++ post) := rfl
  rw [hsplit]
  simp only [selectedFields, List.filterMap_append] at hf ⊢
  rw [hf, List.nil_append]

/-- C19, amended: for every non-nil pointer to a struct, `FlagFromStruct` calls
`FlagSep`, in field declaration order, for the fields whose name starts with an
upper-case letter and whose tag parses to a triple with a non-empty flag name,
passing the field's address and the triple's name, usage and delimiter, up to
the first call that returns an error (which it returns, wrapped with the field
name) or panics: the fields after that one are not bound. A field with an empty
tag text or with a lower-case first letter is skipped and is no error: the
struct without it gives the same run. The tokenizer is any one whose string
tokens keep their quotes. -/
theorem FlagFromStruct_calls_in_order (env : Env) (hq : env.StringsQuoted) (fs : FlagSet)
    (m : Mem) (typeName : String) :
    (∀ fields : List StructField,
      fs.FlagFromStruct env m (.structPtr typeName (some fields)) =
        fs.bindSelected typeName (selectedFields env fields) m) ∧
    (∀ (f : StructField) (pre post : List StructField),
      f.Tag = "" ∨ first_char_is_upper env f.Name = false →
      fs.FlagFromStruct env m (.structPtr typeName (some (pre ++ f :: post))) =
        fs.FlagFromStruct env m (.structPtr typeName (some (pre ++ post)))) := by
  have h1 : ∀ fields : List StructField,
      fs.FlagFromStruct env m (.structPtr typeName (some fields)) =
        fs.bindSelected typeName (selectedFields env fields) m :=
    fun fields => bindFields_eq_bindSelected env hq typeName fields fs m
  refine ⟨h1, ?_⟩
  intro f pre post h
  rw [h1, h1, selectedFields_skip env f pre post h]

theorem FlagFromStruct_calls_in_order_witness :
    (NewFlagSet "test" .ContinueOnError).FlagFromStruct env64 zeroMem
        (.structPtr "MyFlagStruct" (some myFlagStructFields)) =
      (NewFlagSet "test" .ContinueOnError).bindSelected "MyFlagStruct"
        (selectedFields env64 myFlagStructFields) zeroMem ∧
    ((NewFlagSet "test" .ContinueOnError).FlagFromStruct env64 zeroMem
        (.structPtr "MyFlagStruct" (some myFlagStructFields))).flagSet.flag_flagset.formal.map
        (fun fl => (fl.Name, fl.Usage, fl.Value)) =
      [("ip", "The IP address", .scalar .string 0), ("cnt", "The count", .scalar .int 0),
       ("default", "Field to show defaults", .scalar .string 1),
       ("quote", "Field to show embedded (') chars", .scalar .string 2),
       ("spacing", "Spec with spaces", .scalar .string 3)] :=
  ⟨(FlagFromStruct_calls_in_order env64 env64_StringsQuoted (NewFlagSet "test" .ContinueOnError)
      zeroMem "MyFlagStruct").1 myFlagStructFields, by rfl⟩

/-- C19 fails as stated: in the struct with the fields `A int32` tagged `a` and
`B int` tagged `b` both fields start with an upper-case letter and have a tag
that parses to a triple with a non-empty name, yet `FlagFromStruct` returns at
the error of the call for `A` and makes no call for `B`: the flag `b` is not
registered in the flag set it leaves, as it is after a call of `FlagSep` for
each of the two fields. -/
theorem FlagFromStruct_stops_at_error :
    selectedFields env64 int32ThenIntFields =
        [({ Name := "A", Tag := "a", Typ := .other "int32", addr := 0 },
          { flag_name := "a", delimiter := "", usage_string := "" }),
         ({ Name := "B", Tag := "b", Typ := .int, addr := 0 },
          { flag_name := "b", delimiter := "", usage_string := "" })] ∧
      ((NewFlagSet "test" .ContinueOnError).FlagFromStruct env64 zeroMem
          (.structPtr "T" (some int32ThenIntFields))).result =
        some (some (.field "A" "T" (.unsupportedType "a"))) ∧
      ((NewFlagSet "test" .ContinueOnError).FlagFromStruct env64 zeroMem
          (.structPtr "T" (some int32ThenIntFields))).flagSet.flag_flagset.lookup "b" = none ∧
      (registerAll (selectedRegs (selectedFields env64 int32ThenIntFields))
          (NewFlagSet "test" .ContinueOnError) zeroMem).map
          (fun s => s.1.flag_flagset.lookup "b") =
        some (some { Name := "b", Usage := "", Value := .scalar .int 0 }) :=
  ⟨by rfl, by rfl, by rfl, by rfl⟩

/-! ### Output -/

/-- C21, the failing input: a flag set fresh from `NewFlagSet` has output
`os.Stderr`, but after `SetOutput(nil)` the method `Output` returns nil, while
`Output` of the underlying `flag.FlagSet`, given the same nil, returns
`os.Stderr`. -/
theorem Output_after_SetOutput_nil :
    (NewFlagSet "test" .ContinueOnError).Output = some .Stderr ∧
      ((NewFlagSet "test" .ContinueOnError).SetOutput none).Output = none ∧
      ((NewFlagSet "test" .ContinueOnError).SetOutput none).flag_flagset.Output = .Stderr :=
  ⟨by decide, by decide, by decide⟩

/-! ### The delimiter of a scalar flag -/

/-- C23: for every store that points to a scalar (bool, int, int64, uint,
uint64, float64, string), nil or not, and every delimiter `del`, `FlagSep` does
what `Flag` does: same flag set, same memory, same result; so it is for every
store that is not a non-nil pointer to a variable of slice kind; and for every
store `Flag` is `FlagSep` with the empty delimiter. -/
theorem FlagSep_delimiter_only_for_slices (fs : FlagSet) (m : Mem) (name usage del : String) :
    (∀ (k : ScalarKind) (p : Option Ptr),
      fs.FlagSep m (.ptr k.ty p) name usage del = fs.Flag m (.ptr k.ty p) name usage) ∧
    (∀ store : Store, (∀ t p, store = .ptr t (some p) → t.Kind ≠ .Slice) →
      fs.FlagSep m store name usage del = fs.Flag m store name usage) ∧
    (∀ store : Store, fs.Flag m store name usage = fs.FlagSep m store name usage "") := by
  have h2 : ∀ store : Store, (∀ t p, store = .ptr t (some p) → t.Kind ≠ .Slice) →
      fs.FlagSep m store name usage del = fs.Flag m store name usage := by
    intro store h
    cases store with
    | nil => rfl
    | value t => rfl
    | structPtr n f => rfl
    | ptr t p =>
      cases p with
      | none => rfl
      | some p => simp only [FlagSet.Flag, FlagSet.FlagSep, h t p rfl, if_false]
  refine ⟨?_, h2, fun _ => rfl⟩
  intro k p
  apply h2
  intro t q h
  cases h
  exact (ScalarKind_ty k).2

theorem FlagSep_delimiter_only_for_slices_witness :
    multivalueSet.FlagSep multivalueMem (.ptr .int (some 1)) "n" "A number" "," =
      multivalueSet.Flag multivalueMem (.ptr .int (some 1)) "n" "A number" :=
  (FlagSep_delimiter_only_for_slices multivalueSet multivalueMem "n" "A number" ",").2.1
    (.ptr .int (some 1)) (by intro t p h; cases h; decide)

/-! ### Accumulators are append-only -/

theorem appendConverted_extends {α : Type} (conv : String → Except NumError α) :
    ∀ (pieces : List String) (acc : List α), acc <+: (appendConverted conv pieces acc).1 := by
  intro pieces
  induction pieces with
  | nil => intro acc; exact List.prefix_refl _
  | cons p rest ih =>
    intro acc
    unfold appendConverted
    split
    · exact List.prefix_refl _
    · exact (List.prefix_append acc _).trans (ih _)

/-- C24: for each of the six accumulator types, every state of the accumulator
and every text, the `Args` before a `Set` call is a prefix of the `Args` after
it, whether the call returns nil or an error, and the delimiter is unchanged;
the accumulator each constructor returns has empty `Args`. -/
theorem accumulators_append_only (env : Env) (val del : String) :
    (∀ ma : MultiArgInt, ma.Args <+: (ma.Set env val).1.Args ∧ (ma.Set env val).1.Del = ma.Del) ∧
    (∀ ma : MultiArgInt64, ma.Args <+: (ma.Set val).1.Args ∧ (ma.Set val).1.Del = ma.Del) ∧
    (∀ ma : MultiArgUint, ma.Args <+: (ma.Set env val).1.Args ∧ (ma.Set env val).1.Del = ma.Del) ∧
    (∀ ma : MultiArgUint64, ma.Args <+: (ma.Set val).1.Args ∧ (ma.Set val).1.Del = ma.Del) ∧
    (∀ ma : MultiArgFloat64,
      ma.Args <+: (ma.Set env val).1.Args ∧ (ma.Set env val).1.Del = ma.Del) ∧
    (∀ mas : MultiArgString, mas.Args <+: (mas.Set val).1.Args ∧ (mas.Set val).1.Del = mas.Del) ∧
    (NewMultiArgInt del).Args = [] ∧ (NewMultiArgInt64 del).Args = [] ∧
    (NewMultiArgUint del).Args = [] ∧ (NewMultiArgUint64 del).Args = [] ∧
    (NewMultiArgFloat64 del).Args = [] ∧ (NewMultiArgString del).Args = [] :=
  ⟨fun _ => ⟨appendConverted_extends _ _ _, rfl⟩, fun _ => ⟨appendConverted_extends _ _ _, rfl⟩,
    fun _ => ⟨appendConverted_extends _ _ _, rfl⟩, fun _ => ⟨appendConverted_extends _ _ _, rfl⟩,
    fun _ => ⟨appendConverted_extends _ _ _, rfl⟩, fun _ => ⟨List.prefix_append _ _, rfl⟩,
    rfl, rfl, rfl, rfl, rfl, rfl⟩

/-! ### A quoted name, and the width of `int` -/

/-- C28 fails on the code: the first token of the tag `'ip',usage='The IP'` is
the string literal `'ip'`, and the flag name `parse_tag` returns is the token
text with its two quotes, while the string literal after `usage=` comes back
without them. -/
theorem parse_tag_quoted_name_keeps_quotes :
    (env64.Scan "'ip',usage='The IP'").head? =
        some { Err := false, Token := { Typ := .TokenTypeString, Text := "'ip'" } } ∧
      parse_tag env64 "'ip',usage='The IP'" =
        .ok (some { flag_name := "'ip'", delimiter := "", usage_string := "The IP" }) ∧
      parse_tag_loop [{ Err := false, Token := { Typ := .TokenTypeString, Text := "'ip'" } }]
          TagState.init =
        .ok (some { flag_name := "'ip'", delimiter := "", usage_string := "" }) :=
  ⟨by decide, by rfl, by rfl⟩

/-- C29 fails on the code where `int` has 32 bits: `MultiArgInt.Set` and
`MultiArgUint.Set` accept the piece `4294967296`, which is 2^32, and append 0;
`MultiArgInt.Set` accepts `2147483648`, which is 2^31, and appends -2^31. -/
theorem MultiArgInt_Set_wraps_on_32_bits :
    env32.IntSize = 32 ∧
      (NewMultiArgInt "").Set env32 "4294967296" = ({ Args := [0], Del := "" }, none) ∧
      (NewMultiArgUint "").Set env32 "4294967296" = ({ Args := [0], Del := "" }, none) ∧
      (NewMultiArgInt "").Set env32 "2147483648" =
        ({ Args := [-2147483648], Del := "" }, none) :=
  ⟨rfl, by decide, by decide, by decide⟩

/-! ### The number of pieces of a split -/

theorem splitLoop_length (sep : List Char) : ∀ (s : List Char) (skip : Nat) (cur : List Char),
    (splitLoop sep skip cur s).length = countLoop sep skip s + 1 := by
  intro s
  induction s with
  | nil => intro skip cur; cases skip <;> rfl
  | cons c t ih =>
    intro skip cur
    cases skip with
    | succ k => simp only [splitLoop, countLoop]; exact ih k cur
    | zero =>
      simp only [splitLoop, countLoop]
      split
      · simp only [List.length_cons, ih]
      · exact ih 0 _

theorem Join_data_cons (v : String) (rest : List String) (sep : String) (h : rest ≠ []) :
    (strings.Join (v :: rest) sep).data = v.data ++ sep.data ++ (strings.Join rest sep).data := by
  cases rest with
  | nil => exact absurd rfl h
  | cons w r => rw [Join_cons]; simp [String.data_append]

theorem splitLoop_Join_data (sep : List Char) (hsep : sep ≠ []) :
    ∀ (s : List Char) (skip : Nat) (cur : List Char),
      (strings.Join (splitLoop sep skip cur s) (String.mk sep)).data =
        cur.reverse ++ s.drop skip := by
  intro s
  induction s with
  | nil => intro skip cur; cases skip <;> simp [splitLoop, strings.Join]
  | cons c t ih =>
    intro skip cur
    cases skip with
    | succ k => simp only [splitLoop, List.drop_succ_cons]; exact ih k cur
    | zero =>
      simp only [splitLoop, List.drop_zero]
      split
      · rename_i hpre
        have hne : splitLoop sep (sep.length - 1) [] t ≠ [] := by
          intro h
          have := splitLoop_ne_nil sep t (sep.length - 1) []
          rw [h] at this
          exact Nat.lt_irrefl _ this
        rw [Join_data_cons _ _ _ hne, ih]
        obtain ⟨r, hr⟩ := List.isPrefixOf_iff_prefix.mp hpre
        cases sep with
        | nil => exact absurd rfl hsep
        | cons d sep2 =>
          simp only [List.cons_append, List.cons.injEq] at hr
          obtain ⟨rfl, rfl⟩ := hr
          simp
      · rw [ih]; simp

/-- C30: for a `MultiArgString`, `Set(val)` never fails. With a non-empty
delimiter `D` it appends exactly `1 + c` elements, `c` being the number of
non-overlapping occurrences of `D` in `val` counted from the left
(`strings.Count`); empty pieces are kept, so that the appended elements joined
by `D` are `val` again. With the empty delimiter it appends `val` itself as a
single element. -/
theorem MultiArgString_Set_pieces (mas : MultiArgString) (val : String) :
    (mas.Set val).2 = none ∧
    (mas.Del ≠ "" → ∃ pieces, (mas.Set val).1.Args = mas.Args ++ pieces ∧
      pieces.length = 1 + strings.Count val mas.Del ∧ strings.Join pieces mas.Del = val) ∧
    (mas.Del = "" → (mas.Set val).1.Args = mas.Args ++ [val]) := by
  refine ⟨rfl, ?_, ?_⟩
  · intro hD
    have hdata : mas.Del.data ≠ [] := by
      intro h
      apply hD
      cases hdel : mas.Del with
      | mk l => rw [hdel] at h; cases h; rfl
    refine ⟨splitLoop mas.Del.data 0 [] val.data, ?_, ?_, ?_⟩
    · simp [MultiArgString.Set, splitArgs, hD, strings.Split, hdata]
    · rw [splitLoop_length]
      simp [strings.Count, hdata, Nat.add_comm]
    · have h := splitLoop_Join_data mas.Del.data hdata val.data 0 []
      simp only [List.reverse_nil, List.nil_append, List.drop_zero] at h
      exact String.ext h
  · intro hD
    simp [MultiArgString.Set, splitArgs, hD]

theorem MultiArgString_Set_pieces_witness :
    (∃ pieces, ((NewMultiArgString ",").Set "a,,b").1.Args = [] ++ pieces ∧
      pieces.length = 1 + strings.Count "a,,b" "," ∧ strings.Join pieces "," = "a,,b") ∧
    ((NewMultiArgString ",").Set "a,,b").1.Args = ["a", "", "b"] ∧
    strings.Count "a,,b" "," = 2 ∧
    ((NewMultiArgString ",").Set "").1.Args = [""] ∧
    ((NewMultiArgString "").Set "a,,b").1.Args = ["a,,b"] ∧
    strings.Count "aaa" "aa" = 1 ∧ ((NewMultiArgString "aa").Set "aaa").1.Args = ["", "a"] :=
  ⟨(MultiArgString_Set_pieces (NewMultiArgString ",") "a,,b").2.1 (by decide),
    by decide, by decide, by decide, by decide, by decide, by decide⟩

/-! ### One flag and at most one record per call -/

theorem Var_some (f f1 : flag.FlagSet) (v : Value) (name usage : String)
    (h : f.Var v name usage = some f1) :
    f1 = { f with formal := f.formal ++ [{ Name := name, Usage := usage, Value := v }] } := by
  unfold flag.FlagSet.Var at h
  split at h
  · cases h
  · split at h
    · cases h
    · cases h; rfl

theorem set_slice_case_ret (fs : FlagSet) (m : Mem) (k : ElemKind) (t : Ty) (p : Ptr)
    (name usage sep : String) (fs1 : FlagSet) (m1 : Mem) (err : Option BindError)
    (h : fs.set_slice_case m k t p name usage sep = .ret fs1 m1 err) :
    fs1.flag_flagset =
        { fs.flag_flagset with
          formal := fs.flag_flagset.formal ++
            [{ Name := name, Usage := usage, Value := .multiArg m.accs.length }] } ∧
      (err = none →
        fs1.special_flags = fs.special_flags ++
          [{ val_ptr := (k, p), arg := m.accs.length,
             set_func := some { k := k, arg := m.accs.length, ptr := p } }]) ∧
      (err ≠ none → fs1.special_flags = fs.special_flags) := by
  unfold FlagSet.set_slice_case at h
  dsimp only at h
  split at h
  · cases h
  · rename_i f1 hvar
    have hf := Var_some _ _ _ _ _ hvar
    split at h
    · cases h; exact ⟨hf, fun _ => rfl, fun hne => absurd rfl hne⟩
    · cases h; exact ⟨hf, fun hn => (by cases hn), fun _ => rfl⟩

theorem set_slice_ret (fs : FlagSet) (m : Mem) (t : Ty) (p : Ptr)
    (name usage sep : String) (fs1 : FlagSet) (m1 : Mem) (err : Option BindError)
    (h : fs.set_slice m t p name usage sep = .ret fs1 m1 err) :
    (err = none →
      fs1.flag_flagset =
          { fs.flag_flagset with
            formal := fs.flag_flagset.formal ++
              [{ Name := name, Usage := usage, Value := .multiArg m.accs.length }] } ∧
        ∃ k, fs1.special_flags = fs.special_flags ++
          [{ val_ptr := (k, p), arg := m.accs.length,
             set_func := some { k := k, arg := m.accs.length, ptr := p } }]) ∧
      (err ≠ none → fs1.special_flags = fs.special_flags) := by
  have hc : ∀ k : ElemKind, fs.set_slice_case m k t p name usage sep = .ret fs1 m1 err → _ :=
    fun k hk => set_slice_case_ret fs m k t p name usage sep fs1 m1 err hk
  unfold FlagSet.set_slice at h
  split at h <;>
    first
    | exact ⟨fun hn => ⟨(hc _ h).1, _, (hc _ h).2.1 hn⟩, (hc _ h).2.2⟩
    | (cases h; exact ⟨fun hn => (by cases hn), fun _ => rfl⟩)

theorem FlagSep_ret (fs : FlagSet) (m : Mem) (store : Store) (name usage del : String)
    (fs1 : FlagSet) (m1 : Mem) (err : Option BindError)
    (h : fs.FlagSep m store name usage del = .ret fs1 m1 err) :
    (err = none →
      (∃ v, fs1.flag_flagset =
        { fs.flag_flagset with
          formal := fs.flag_flagset.formal ++ [{ Name := name, Usage := usage, Value := v }] }) ∧
      (store.pointsToSlice = true →
        ∃ spec, fs1.special_flags = fs.special_flags ++ [spec] ∧ spec.set_func ≠ none ∧
          fs1.flag_flagset.formal.getLast? =
            some { Name := name, Usage := usage, Value := .multiArg spec.arg }) ∧
      (store.pointsToSlice = false → fs1.special_flags = fs.special_flags)) ∧
    (err ≠ none → fs1.special_flags = fs.special_flags) := by
  cases store with
  | nil => cases h; exact ⟨fun hn => (by cases hn), fun _ => rfl⟩
  | value t => cases h; exact ⟨fun hn => (by cases hn), fun _ => rfl⟩
  | structPtr n f => cases h; exact ⟨fun hn => (by cases hn), fun _ => rfl⟩
  | ptr t p =>
    cases p with
    | none =>
      simp only [FlagSet.FlagSep] at h
      split at h <;> cases h
      exact ⟨fun hn => (by cases hn), fun _ => rfl⟩
    | some p =>
      simp only [FlagSet.FlagSep] at h
      split at h
      · rename_i hk
        have hs := set_slice_ret fs m t p name usage del fs1 m1 err h
        refine ⟨fun hn => ?_, hs.2⟩
        obtain ⟨hf, k, hsp⟩ := hs.1 hn
        refine ⟨⟨_, hf⟩, fun _ => ⟨_, hsp, by simp, ?_⟩, fun hps => ?_⟩
        · rw [hf]; simp
        · simp [Store.pointsToSlice, hk] at hps
      · rename_i hk
        split at h
        · rename_i k hsk
          unfold FlagSet.scalarVar at h
          dsimp only at h
          split at h
          · cases h
          · rename_i f1 hvar
            cases h
            refine ⟨fun _ => ⟨⟨_, Var_some _ _ _ _ _ hvar⟩, fun hps => ?_, fun _ => rfl⟩,
              fun hne => absurd rfl hne⟩
            simp [Store.pointsToSlice, hk] at hps
        · cases h; exact ⟨fun hn => (by cases hn), fun _ => rfl⟩

theorem registerAll_records : ∀ (regs : List Reg) (fs : FlagSet) (m : Mem) (fs1 : FlagSet)
    (m1 : Mem), registerAll regs fs m = some (fs1, m1) →
    fs1.special_flags.length = fs.special_flags.length + sliceSuccesses regs fs m ∧
      ((∀ spec ∈ fs.special_flags, spec.set_func ≠ none) →
        ∀ spec ∈ fs1.special_flags, spec.set_func ≠ none) := by
  intro regs
  induction regs with
  | nil =>
    intro fs m fs1 m1 h
    simp only [registerAll, Option.some.injEq, Prod.mk.injEq] at h
    obtain ⟨rfl, rfl⟩ := h
    exact ⟨rfl, fun h => h⟩
  | cons r rest ih =>
    intro fs m fs1 m1 h
    unfold registerAll at h
    unfold sliceSuccesses
    split at h
    · rename_i fs2 m2 err hsep
      have hret := FlagSep_ret fs m r.store r.name r.usage r.del fs2 m2 err hsep
      obtain ⟨hlen, hfun⟩ := ih fs2 m2 fs1 m1 h
      by_cases hc : err = none ∧ r.store.pointsToSlice = true
      · obtain ⟨spec, hsp, hsf, _⟩ := (hret.1 hc.1).2.1 hc.2
        rw [if_pos hc, hlen, hsp]
        refine ⟨by simp only [List.length_append, List.length_singleton]; omega, fun hall => ?_⟩
        apply hfun
        intro s hs
        rw [hsp] at hs
        rcases List.mem_append.mp hs with hs | hs
        · exact hall s hs
        · rw [List.mem_singleton.mp hs]; exact hsf
      · have hsame : fs2.special_flags = fs.special_flags := by
          by_cases hn : err = none
          · have hps : r.store.pointsToSlice = false := by
              cases hp : r.store.pointsToSlice with
              | false => rfl
              | true => exact absurd ⟨hn, hp⟩ hc
            exact (hret.1 hn).2.2 hps
          · exact hret.2 hn
        rw [if_neg hc, hlen, hsame]
        exact ⟨by omega, fun hall => hfun (by rw [hsame]; exact hall)⟩
    · cases h

/-- C26: every `FlagSep` call (and `Flag` call, its special case) that returns
nil has registered exactly one flag with the underlying flag set, under the
name given: it has appended exactly one deferred-commit record to
`special_flags`, with a non-nil `set_func` and for the accumulator of that flag,
when `store` points to a slice, and none when it points to a scalar. So after
any calls on a flag set from `NewFlagSet`, `special_flags` has as many records
as calls returned nil for a slice store, each with a non-nil `set_func`. -/
theorem FlagSep_one_flag_one_record :
    (∀ (fs : FlagSet) (m : Mem) (store : Store) (name usage del : String) (fs1 : FlagSet)
        (m1 : Mem), fs.FlagSep m store name usage del = .ret fs1 m1 none →
      (∃ v, fs1.flag_flagset =
        { fs.flag_flagset with
          formal := fs.flag_flagset.formal ++ [{ Name := name, Usage := usage, Value := v }] }) ∧
      (store.pointsToSlice = true →
        ∃ spec, fs1.special_flags = fs.special_flags ++ [spec] ∧ spec.set_func ≠ none ∧
          fs1.flag_flagset.formal.getLast? =
            some { Name := name, Usage := usage, Value := .multiArg spec.arg }) ∧
      (store.pointsToSlice = false → fs1.special_flags = fs.special_flags)) ∧
    (∀ (regs : List Reg) (name : String) (eh : ErrorHandling) (m0 : Mem) (fs : FlagSet)
        (m : Mem), registerAll regs (NewFlagSet name eh) m0 = some (fs, m) →
      fs.special_flags.length = sliceSuccesses regs (NewFlagSet name eh) m0 ∧
        ∀ spec ∈ fs.special_flags, spec.set_func ≠ none) := by
  constructor
  · intro fs m store name usage del fs1 m1 h
    exact (FlagSep_ret fs m store name usage del fs1 m1 none h).1 rfl
  · intro regs name eh m0 fs m h
    have := registerAll_records regs (NewFlagSet name eh) m0 fs m h
    refine ⟨by rw [this.1]; simp [NewFlagSet], this.2 ?_⟩
    intro spec hs
    simp [NewFlagSet] at hs

theorem FlagSep_one_flag_one_record_witness :
    (multivalueSet.special_flags.length =
        sliceSuccesses multivalueRegs (NewFlagSet "test" .ContinueOnError) zeroMem ∧
      ∀ spec ∈ multivalueSet.special_flags, spec.set_func ≠ none) ∧
    multivalueSet.special_flags =
      [{ val_ptr := (.string, 0), arg := 0, set_func := some { k := .string, arg := 0, ptr := 0 } }] ∧
    multivalueSet.flag_flagset.formal.map (fun fl => (fl.Name, fl.Value)) =
      [("ip", .multiArg 0), ("count", .scalar .int 0)] :=
  ⟨FlagSep_one_flag_one_record.2 multivalueRegs "test" .ContinueOnError zeroMem multivalueSet
      multivalueMem (by rfl), by decide, by decide⟩

/-! ### The deferred commit -/

theorem SetFunc_call_kind (sf : SetFunc) (m : Mem) (a : Accum) (ha : m.accs[sf.arg]? = some a)
    (hk : a.kind ≠ sf.k) : sf.call m = m := by
  unfold SetFunc.call
  split <;> first
    | rfl
    | (rename_i hsf heq; rw [ha] at heq; cases heq; exact absurd hsf.symm hk)

theorem SetFunc_call_at (sf : SetFunc) (accs : List Accum) (k : ElemKind) (p : Ptr) :
    (∀ m : Mem, m.accs = accs → (sf.call m).slices k p = m.slices k p) ∨
      ∃ c, ∀ m : Mem, m.accs = accs → (sf.call m).slices k p = c := by
  by_cases h : sf.k = k ∧ sf.ptr = p
  · obtain ⟨rfl, rfl⟩ := h
    cases ha : accs[sf.arg]? with
    | none =>
      left
      intro m hm
      rw [SetFunc_call_empty sf m (by intro a h2; rw [hm, ha] at h2; cases h2)]
    | some a =>
      by_cases hk : a.kind = sf.k
      · by_cases hl : 0 < a.len
        · right
          refine ⟨(a.vals sf.k).getD [], ?_⟩
          intro m hm
          have := SetFunc_call_write sf m a (by rw [hm]; exact ha) hk hl
          rw [this]; rfl
        · left
          intro m hm
          rw [SetFunc_call_empty sf m (by
            intro b h2; rw [hm, ha] at h2; cases h2; omega)]
      · left
        intro m hm
        rw [SetFunc_call_kind sf m a (by rw [hm]; exact ha) hk]
  · left
    intro m _
    exact SetFunc_call_frame sf m k p h

theorem runSetFuncs_at (accs : List Accum) (k : ElemKind) (p : Ptr) :
    ∀ specs : List flag_spec,
      (∀ m : Mem, m.accs = accs → (runSetFuncs specs m).slices k p = m.slices k p) ∨
        ∃ c, ∀ m : Mem, m.accs = accs → (runSetFuncs specs m).slices k p = c := by
  intro specs
  induction specs with
  | nil => left; intro m _; rfl
  | cons s rest ih =>
    cases hs : s.set_func with
    | none =>
      rcases ih with ih | ⟨c, ih⟩
      · left; intro m hm; simp only [runSetFuncs, hs]; exact ih m hm
      · right; refine ⟨c, ?_⟩; intro m hm; simp only [runSetFuncs, hs]; exact ih m hm
    | some sf =>
      rcases ih with ih | ⟨c, ih⟩
      · rcases SetFunc_call_at sf accs k p with h1 | ⟨c, h1⟩
        · left
          intro m hm
          simp only [runSetFuncs, hs]
          rw [ih _ (by rw [(SetFunc_call_accs sf m).1]; exact hm)]
          exact h1 m hm
        · right
          refine ⟨c, ?_⟩
          intro m hm
          simp only [runSetFuncs, hs]
          rw [ih _ (by rw [(SetFunc_call_accs sf m).1]; exact hm)]
          exact h1 m hm
      · right
        refine ⟨c, ?_⟩
        intro m hm
        simp only [runSetFuncs, hs]
        exact ih _ (by rw [(SetFunc_call_accs sf m).1]; exact hm)

theorem runSetFuncs_frame (k : ElemKind) (p : Ptr) : ∀ (specs : List flag_spec) (m : Mem),
    (∀ spec ∈ specs, ∀ sf, spec.set_func = some sf → ¬ (sf.k = k ∧ sf.ptr = p)) →
      (runSetFuncs specs m).slices k p = m.slices k p := by
  intro specs
  induction specs with
  | nil => intro m _; rfl
  | cons s rest ih =>
    intro m h
    have hrest : ∀ spec ∈ rest, ∀ sf, spec.set_func = some sf → ¬ (sf.k = k ∧ sf.ptr = p) :=
      fun spec hs => h spec (List.mem_cons_of_mem _ hs)
    cases hs : s.set_func with
    | none => simp only [runSetFuncs, hs]; exact ih m hrest
    | some sf =>
      simp only [runSetFuncs, hs]
      rw [ih _ hrest]
      exact SetFunc_call_frame sf m k p (h s (List.mem_cons_self _ _) sf hs)

/-- C25: the deferred-commit step (the loop of `FlagSet.Parse` over
`special_flags`) runs the records in list order, which is registration order:
the step for `l1 ++ l2` is the step for `l1` followed by the step for `l2`. It
is idempotent: run a second time with no `Set` call in between, it leaves every
destination, and the rest of the memory, as the first run left it. And when two
records `s1`, registered earlier, and `s2`, registered later, are bound to the
same destination and the accumulator of `s2` is not empty (its flag was
supplied), the destination ends with the values of `s2`, provided no record
after `s2` writes to that destination. -/
theorem commit_idempotent_later_wins (specs : List flag_spec) (m : Mem) :
    (∀ l1 l2 : List flag_spec, runSetFuncs (l1 ++ l2) m = runSetFuncs l2 (runSetFuncs l1 m)) ∧
    ((runSetFuncs specs (runSetFuncs specs m)).slices = (runSetFuncs specs m).slices ∧
      (runSetFuncs specs (runSetFuncs specs m)).accs = (runSetFuncs specs m).accs ∧
      (runSetFuncs specs (runSetFuncs specs m)).scalars = (runSetFuncs specs m).scalars) ∧
    (∀ (pre mid post : List flag_spec) (s1 s2 : flag_spec) (a2 : Accum),
      specs = pre ++ s1 :: (mid ++ s2 :: post) → s1.val_ptr = s2.val_ptr →
      s2.set_func = some { k := s2.val_ptr.1, arg := s2.arg, ptr := s2.val_ptr.2 } →
      m.accs[s2.arg]? = some a2 → a2.kind = s2.val_ptr.1 → 0 < a2.len →
      (∀ spec ∈ post, ∀ sf, spec.set_func = some sf →
        ¬ (sf.k = s2.val_ptr.1 ∧ sf.ptr = s2.val_ptr.2)) →
      a2.vals s2.val_ptr.1 =
        some ((runSetFuncs specs m).slices s2.val_ptr.1 s2.val_ptr.2)) := by
  refine ⟨fun l1 l2 => runSetFuncs_append l1 l2 m, ⟨?_, ?_, ?_⟩, ?_⟩
  · funext k p
    rcases runSetFuncs_at m.accs k p specs with h | ⟨c, h⟩
    · exact h _ (runSetFuncs_accs specs m).1
    · rw [h _ (runSetFuncs_accs specs m).1, h m rfl]
  · exact (runSetFuncs_accs specs _).1
  · exact (runSetFuncs_accs specs _).2
  · intro pre mid post s1 s2 a2 hspecs _ hsf ha hk hl hpost
    have hsplit : specs = (pre ++ s1 :: mid) ++ ([s2] ++ post) := by
      rw [hspecs]; simp
    rw [hsplit, runSetFuncs_append, runSetFuncs_append,
      runSetFuncs_frame _ _ post _ hpost]
    simp only [runSetFuncs, hsf]
    exact SetFunc_call_write { k := s2.val_ptr.1, arg := s2.arg, ptr := s2.val_ptr.2 } _ a2
      (by rw [(runSetFuncs_accs _ m).1]; exact ha) hk hl

theorem commit_idempotent_later_wins_witness :
    (Accum.string { Args := ["2"], Del := "" }).vals .string =
        some ((runSetFuncs aliasSliceState.1.special_flags
          (aliasSliceState.1.flag_flagset.Parse env64 ["-a", "1", "-b", "2"]
            aliasSliceState.2).2.1).slices .string 0) ∧
      (aliasSliceState.1.flag_flagset.Parse env64 ["-a", "1", "-b", "2"]
          aliasSliceState.2).2.1.accs =
        [.string { Args := ["1"], Del := "" }, .string { Args := ["2"], Del := "" }] :=
  ⟨(commit_idempotent_later_wins aliasSliceState.1.special_flags
      (aliasSliceState.1.flag_flagset.Parse env64 ["-a", "1", "-b", "2"]
        aliasSliceState.2).2.1).2.2 [] [] []
      { val_ptr := (.string, 0), arg := 0, set_func := some { k := .string, arg := 0, ptr := 0 } }
      { val_ptr := (.string, 0), arg := 1, set_func := some { k := .string, arg := 1, ptr := 0 } }
      (.string { Args := ["2"], Del := "" })
      (by decide) rfl rfl (by decide) rfl (by decide) (by intro spec h; cases h),
    by decide⟩

/-! ### The converters of scalar flags and of accumulators -/

theorem parseDigits_base0 (base cutoff maxVal : Nat) : ∀ (l : List Char) (n : Nat),
    '_' ∉ l → parseDigits base true cutoff maxVal l n = parseDigits base false cutoff maxVal l n := by
  intro l
  induction l with
  | nil => intro n _; rfl
  | cons c t ih =>
    intro n h
    have hc : c ≠ '_' := fun hc => h (by rw [hc]; exact List.mem_cons_self _ _)
    have ht : '_' ∉ t := fun ht => h (List.mem_cons_of_mem _ ht)
    simp only [parseDigits, hc, false_and, if_false, ih _ ht]

theorem detectBase_plain (l : List Char) (h : l.head? ≠ some '0') : detectBase l = (10, l) := by
  unfold detectBase
  split
  · simp at h
  · simp at h
  · rfl

theorem ParseUint_base0 (s : String) (bitSize : Nat) (hu : '_' ∉ s.data)
    (h0 : s.data.head? ≠ some '0') :
    strconv.ParseUint s 0 bitSize = strconv.ParseUint s 10 bitSize := by
  have hc : s.data.contains '_' = false := by
    simpa using hu
  have h10 : ¬ (10 : Nat) = 0 := by decide
  unfold strconv.ParseUint
  split
  · rfl
  · simp only [if_true, if_neg h10, detectBase_plain _ h0, decide_True, decide_eq_true_eq,
      parseDigits_base0 _ _ _ _ _ hu, hc, Bool.false_eq_true, false_and, h10, and_false,
      if_false, decide_False]

theorem ParseInt_base0 (s : String) (bitSize : Nat) (h : NoBasePrefix s) :
    strconv.ParseInt s 0 bitSize = strconv.ParseInt s 10 bitSize := by
  obtain ⟨hu, _, h0⟩ := h
  have hrest : strconv.ParseUint (String.mk (match s.data with
      | '+' :: t => t
      | '-' :: t => t
      | l => l)) 0 bitSize = strconv.ParseUint (String.mk (match s.data with
      | '+' :: t => t
      | '-' :: t => t
      | l => l)) 10 bitSize := by
    apply ParseUint_base0
    · show '_' ∉ (match s.data with
        | '+' :: t => t
        | '-' :: t => t
        | l => l)
      split
      · rename_i t heq; rw [heq] at hu; exact fun ht => hu (List.mem_cons_of_mem _ ht)
      · rename_i t heq; rw [heq] at hu; exact fun ht => hu (List.mem_cons_of_mem _ ht)
      · exact hu
    · exact h0
  unfold strconv.ParseInt
  split
  · rfl
  · dsimp only
    rw [hrest]

theorem Set_single {α : Type} (conv : String → Except NumError α) (s : String) (v : α) :
    appendConverted conv (splitArgs "" s) [] = ([v], none) ↔ conv s = .ok v := by
  simp only [splitArgs, if_true, appendConverted]
  cases conv s with
  | error e => simp
  | ok w => simp [appendConverted]

/-- C27, amended: float64 and string have one converter, used for scalar and
sequence flags alike: for every text `s`, a scalar flag of that type accepts `s`
with value `v` if and only if the accumulator of that element type with the
empty delimiter accepts `s` and appends exactly `v`. For int64 and uint64, and
for int and uint where `int` has 64 bits, the same holds for every text with no
underscore whose first character, after an optional sign, is not `0`: the
scalar flags convert with base 0 (the prefix of the text tells the base), the
accumulators with base 10. -/
theorem converters_of_scalar_and_accumulator (env : Env) (s : String) :
    (∀ v, parseScalar env .float64 s = .ok v ↔
      (NewMultiArgFloat64 "").Set env s = ({ Args := [v], Del := "" }, none)) ∧
    (∀ v, parseScalar env .string s = .ok v ↔
      (NewMultiArgString "").Set s = ({ Args := [v], Del := "" }, none)) ∧
    (NoBasePrefix s →
      (∀ v, parseScalar env .int64 s = .ok v ↔
        (NewMultiArgInt64 "").Set s = ({ Args := [v], Del := "" }, none)) ∧
      (∀ v, parseScalar env .uint64 s = .ok v ↔
        (NewMultiArgUint64 "").Set s = ({ Args := [v], Del := "" }, none)) ∧
      (env.IntSize = 64 →
        (∀ v, parseScalar env .int s = .ok v ↔
          (NewMultiArgInt "").Set env s = ({ Args := [v], Del := "" }, none)) ∧
        (∀ v, parseScalar env .uint s = .ok v ↔
          (NewMultiArgUint "").Set env s = ({ Args := [v], Del := "" }, none)))) := by
  have hpair : ∀ {α : Type} (r : List α × Option NumError) (v : α),
      (r.1 = [v] ∧ r.2 = none) ↔ r = ([v], none) := by
    intro α r v
    constructor
    · rintro ⟨h1, h2⟩; exact Prod.ext h1 h2
    · intro h; rw [h]; exact ⟨rfl, rfl⟩
  refine ⟨?_, ?_, ?_⟩
  · intro v
    simp only [MultiArgFloat64.Set, NewMultiArgFloat64, Prod.mk.injEq, MultiArgFloat64.mk.injEq,
      and_true, hpair, Set_single, parseScalar]
  · intro v
    simp [MultiArgString.Set, NewMultiArgString, splitArgs, parseScalar]
  · intro hp
    refine ⟨?_, ?_, ?_⟩
    · intro v
      simp only [MultiArgInt64.Set, NewMultiArgInt64, Prod.mk.injEq, MultiArgInt64.mk.injEq,
        and_true, hpair, Set_single, parseScalar, convInt64, ParseInt_base0 s 64 hp]
    · intro v
      simp only [MultiArgUint64.Set, NewMultiArgUint64, Prod.mk.injEq, MultiArgUint64.mk.injEq,
        and_true, hpair, Set_single, parseScalar, convUint64, ParseUint_base0 s 64 hp.1 hp.2.1]
    · intro h64
      refine ⟨?_, ?_⟩
      · intro v
        simp only [MultiArgInt.Set, NewMultiArgInt, Prod.mk.injEq, MultiArgInt.mk.injEq,
          and_true, hpair, Set_single, parseScalar, convInt, h64, ParseInt_base0 s 64 hp]
      · intro v
        simp only [MultiArgUint.Set, NewMultiArgUint, Prod.mk.injEq, MultiArgUint.mk.injEq,
          and_true, hpair, Set_single, parseScalar, convUint, h64,
          ParseUint_base0 s 64 hp.1 hp.2.1]

theorem converters_of_scalar_and_accumulator_witness :
    (parseScalar env64 .int64 "-42" = .ok (-42) ↔
        (NewMultiArgInt64 "").Set "-42" = ({ Args := [-42], Del := "" }, none)) ∧
      parseScalar env64 .int64 "-42" = .ok (-42) :=
  ⟨((converters_of_scalar_and_accumulator env64 "-42").2.2
      ⟨by decide, by decide, by decide⟩).1 (-42), by rfl⟩

/-- C27 fails as stated: the scalar int64 flag accepts the text `0x10` with
value 16 and the `MultiArgInt64` with the empty delimiter rejects it; the
scalar int flag accepts `010` with value 8 and the `MultiArgInt` accepts it and
appends 10. -/
theorem scalar_and_accumulator_converters_differ :
    parseScalar env64 .int64 "0x10" = .ok 16 ∧
      (NewMultiArgInt64 "").Set "0x10" =
        ({ Args := [], Del := "" }, some ⟨"ParseInt", "0x10", .ErrSyntax⟩) ∧
      parseScalar env64 .int "010" = .ok 8 ∧
      (NewMultiArgInt "").Set env64 "010" = ({ Args := [10], Del := "" }, none) :=
  ⟨by rfl, by decide, by rfl, by decide⟩

/-! ### Values of a failed parse -/

theorem IsPrefix_refl (a : Accum) : a.IsPrefix a := by
  cases a <;> exact List.prefix_refl _

theorem IsPrefix_trans (a b c : Accum) (h1 : a.IsPrefix b) (h2 : b.IsPrefix c) :
    a.IsPrefix c := by
  cases a <;> cases b <;> cases c <;>
    first
    | exact List.IsPrefix.trans h1 h2
    | exact h1.elim
    | exact h2.elim

theorem IsPrefix_kind (a b : Accum) (h : a.IsPrefix b) : b.kind = a.kind := by
  cases a <;> cases b <;> first | rfl | exact h.elim

theorem Accum_Set_extends (env : Env) (a : Accum) (s : String) : a.IsPrefix (a.Set env s).1 := by
  cases a with
  | int a => exact appendConverted_extends _ _ _
  | int64 a => exact appendConverted_extends _ _ _
  | uint a => exact appendConverted_extends _ _ _
  | uint64 a => exact appendConverted_extends _ _ _
  | float64 a => exact appendConverted_extends _ _ _
  | string a => exact List.prefix_append _ _

theorem Value_Set_accs_extend (env : Env) (v : Value) (s : String) (m : Mem) (id : Nat)
    (a : Accum) (ha : m.accs[id]? = some a) :
    ∃ a2, (v.Set env s m).1.accs[id]? = some a2 ∧ a.IsPrefix a2 := by
  by_cases hv : v = .multiArg id
  · subst hv
    have hlt : id < m.accs.length := by
      by_contra hge
      rw [List.getElem?_eq_none (by omega)] at ha
      cases ha
    exact ⟨(a.Set env s).1, by simp [Value.Set, ha, List.getElem?_set_self, hlt],
      Accum_Set_extends env a s⟩
  · exact ⟨a, by rw [Value_Set_accs_other env v s m id hv]; exact ha, IsPrefix_refl a⟩

theorem flag_Parse_accs_extend (env : Env) (f : flag.FlagSet) (args : List String) (m : Mem)
    (id : Nat) (a : Accum) (ha : m.accs[id]? = some a) :
    ∃ a2, (f.Parse env args m).2.1.accs[id]? = some a2 ∧ a.IsPrefix a2 := by
  rw [flag_Parse_mem]
  exact parseArgs_mem_invariant env (fun m2 => ∃ a2, m2.accs[id]? = some a2 ∧ a.IsPrefix a2)
    f.formal
    (fun fl _ s m2 h2 => by
      obtain ⟨a1, h1, hp1⟩ := h2
      obtain ⟨a2, h3, hp2⟩ := Value_Set_accs_extend env fl.Value s m2 id a1 h1
      exact ⟨a2, h3, IsPrefix_trans _ _ _ hp1 hp2⟩) args
    { f with parsed := true, args := args } m rfl ⟨a, ha, IsPrefix_refl a⟩

theorem Parse_accs (env : Env) (fs : FlagSet) (args : List String) (m : Mem) :
    (fs.Parse env args m).2.1.accs = (fs.flag_flagset.Parse env args m).2.1.accs ∧
      (fs.Parse env args m).1.special_flags = fs.special_flags := by
  unfold FlagSet.Parse
  dsimp only
  split
  · exact ⟨rfl, rfl⟩
  · exact ⟨(runSetFuncs_accs _ _).1, rfl⟩
  · exact ⟨rfl, rfl⟩
  · exact ⟨rfl, rfl⟩

/-! ### Accumulators own their arrays -/

theorem go_writeAt_getElem? {α : Type} : ∀ (vs : List α) (i : Nat) (cells : List α) (n : Nat),
    (Go.writeAt i vs cells)[n]? =
      if i ≤ n ∧ n < i + vs.length ∧ n < cells.length then vs[n - i]? else cells[n]? := by
  intro vs
  induction vs with
  | nil =>
    intro i cells n
    simp only [Go.writeAt, List.length_nil, Nat.add_zero]
    rw [if_neg (by omega)]
  | cons v vs ih =>
    intro i cells n
    simp only [Go.writeAt, ih, List.length_set, List.length_cons, List.getElem?_set]
    by_cases h1 : i + 1 ≤ n ∧ n < i + 1 + vs.length ∧ n < cells.length
    · have h2 : i ≤ n ∧ n < i + (vs.length + 1) ∧ n < cells.length := by omega
      rw [if_pos h1, if_pos h2]
      have : n - i = (n - (i + 1)) + 1 := by omega
      rw [this, List.getElem?_cons_succ]
    · rw [if_neg h1]
      by_cases h3 : i = n
      · subst h3
        by_cases h4 : i < cells.length
        · have h2 : i ≤ i ∧ i < i + (vs.length + 1) ∧ i < cells.length := by omega
          rw [if_pos rfl, if_pos h4, if_pos h2]
          simp
        · have h2 : ¬ (i ≤ i ∧ i < i + (vs.length + 1) ∧ i < cells.length) := by omega
          rw [if_pos rfl, if_neg h4, if_neg h2]
          exact (List.getElem?_eq_none (by omega)).symm
      · have h2 : ¬ (i ≤ n ∧ n < i + (vs.length + 1) ∧ n < cells.length) := by omega
        rw [if_neg h3, if_neg h2]

theorem go_elems_getElem? {α : Type} (arrays : List (List α)) (s : Go.Slice) (n : Nat) :
    (s.elems arrays)[n]? = if n < s.len then (arrays.getD s.arr [])[s.off + n]? else none := by
  simp [Go.Slice.elems, List.getElem?_take, List.getElem?_drop]

theorem go_elems_length {α : Type} (arrays : List (List α)) (s : Go.Slice)
    (h : s.Fits arrays) : (s.elems arrays).length = s.len := by
  by_cases hc : 0 < s.cap
  · obtain ⟨cells, hcells, hlen⟩ := h.2 hc
    have := h.1
    simp [Go.Slice.elems, List.getD_eq_getElem?_getD, hcells]
    omega
  · have := h.1
    have h0 : s.len = 0 := by omega
    simp [Go.Slice.elems, h0]

/-- An `append` to a slice that lies in an allocated array: the result holds
the elements of the slice and the values, lies in an allocated array, and has
either the array and the capacity of the slice or a new array. -/
theorem go_append_elems {α : Type} (grow : Nat → Nat → Nat) (hgrow : ∀ c n, n ≤ grow c n)
    (zero : α) (arrays : List (List α)) (s : Go.Slice) (vs : List α) (h : s.Fits arrays) :
    (Go.append grow zero arrays s vs).2.elems (Go.append grow zero arrays s vs).1 =
        s.elems arrays ++ vs ∧
      (Go.append grow zero arrays s vs).2.Fits (Go.append grow zero arrays s vs).1 ∧
      (((Go.append grow zero arrays s vs).2.arr = s.arr ∧
          (Go.append grow zero arrays s vs).2.cap = s.cap) ∨
        arrays.length ≤ (Go.append grow zero arrays s vs).2.arr) := by
  have hlen := go_elems_length arrays s h
  unfold Go.append
  split
  · rename_i hcap
    dsimp only
    refine ⟨?_, ?_, Or.inl ⟨rfl, rfl⟩⟩
    · by_cases hc : 0 < s.cap
      · obtain ⟨cells, hcells, hfit⟩ := h.2 hc
        apply List.ext_getElem?
        intro n
        rw [go_elems_getElem?, List.getElem?_append, hlen, go_elems_getElem?]
        simp only [List.getD_eq_getElem?_getD, List.getElem?_modify, hcells, Option.map_eq_map,
          Option.map_some', Option.getD_some, if_true, go_writeAt_getElem?]
        by_cases h1 : n < s.len
        · have h2 : ¬ (s.off + s.len ≤ s.off + n ∧ s.off + n < s.off + s.len + vs.length ∧
              s.off + n < cells.length) := by omega
          have h3 : n < s.len + vs.length := by omega
          rw [if_neg h2]
          simp [h1, h3]
        · rw [if_neg h1]
          by_cases h3 : n < s.len + vs.length
          · have h2 : s.off + s.len ≤ s.off + n ∧ s.off + n < s.off + s.len + vs.length ∧
                s.off + n < cells.length := by omega
            rw [if_pos h2]
            simp only [h3, if_true]
            congr 1
            omega
          · simp only [h3, if_false]
            exact (List.getElem?_eq_none (by omega)).symm
      · have hl := h.1
        have h0 : s.len = 0 := by omega
        have hv : vs = [] := by
          cases vs with
          | nil => rfl
          | cons x xs => simp at hcap; omega
        subst hv
        simp [Go.Slice.elems, h0]
    · refine ⟨by simpa using hcap, ?_⟩
      intro hc
      obtain ⟨cells, hcells, hfit⟩ := h.2 hc
      refine ⟨Go.writeAt (s.off + s.len) vs cells, ?_, ?_⟩
      · simp [List.getElem?_modify, hcells]
      · rw [go_writeAt_length]; exact hfit
  · rename_i hcap
    dsimp only
    have hg := hgrow s.cap (s.len + vs.length)
    refine ⟨?_, ?_, Or.inr (le_refl _)⟩
    · have hE : (s.elems arrays ++ vs).length = s.len + vs.length := by
        rw [List.length_append, hlen]
      show List.take (s.len + vs.length) (List.drop 0 ((arrays ++ [s.elems arrays ++ vs ++
        List.replicate (grow s.cap (s.len + vs.length) - (s.len + vs.length)) zero]).getD
          arrays.length [])) = s.elems arrays ++ vs
      rw [List.getD_eq_getElem?_getD, List.getElem?_concat_length, Option.getD_some,
        List.drop_zero]
      exact List.take_left' hE
    · refine ⟨hg, ?_⟩
      intro _
      refine ⟨_, List.getElem?_concat_length _ _, ?_⟩
      have hl2 : (s.elems arrays).length = s.len := hlen
      simp only [List.length_append, List.length_replicate, hl2]
      omega

theorem go_append_Fits_other {α : Type} (grow : Nat → Nat → Nat) (zero : α)
    (arrays : List (List α)) (s t : Go.Slice) (vs : List α) (h : t.Fits arrays) :
    t.Fits (Go.append grow zero arrays s vs).1 := by
  refine ⟨h.1, ?_⟩
  intro hc
  obtain ⟨cells, hcells, hfit⟩ := h.2 hc
  unfold Go.append
  split
  · dsimp only
    by_cases harr : s.arr = t.arr
    · refine ⟨Go.writeAt (s.off + s.len) vs cells, ?_, ?_⟩
      · simp [List.getElem?_modify, hcells, harr]
      · rw [go_writeAt_length]; exact hfit
    · refine ⟨cells, ?_, hfit⟩
      simp [List.getElem?_modify, hcells, harr]
  · dsimp only
    refine ⟨cells, ?_, hfit⟩
    have hlt : t.arr < arrays.length := by
      by_contra hge
      rw [List.getElem?_eq_none (by omega)] at hcells
      cases hcells
    rw [List.getElem?_append_left hlt]
    exact hcells

theorem go_Extends_refl {α : Type} (st : List (List α) × Go.Slice) (h : st.2.Fits st.1) :
    Go.Extends st st :=
  ⟨List.prefix_refl _, h, Or.inl ⟨rfl, rfl⟩, le_refl _, fun _ ht => ht⟩

theorem go_Extends_trans {α : Type} (a b c : List (List α) × Go.Slice)
    (h1 : Go.Extends a b) (h2 : Go.Extends b c) : Go.Extends a c := by
  obtain ⟨p1, _, o1, l1, t1⟩ := h1
  obtain ⟨p2, f2, o2, l2, t2⟩ := h2
  refine ⟨List.IsPrefix.trans p1 p2, f2, ?_, le_trans l1 l2, fun t ht => t2 t (t1 t ht)⟩
  rcases o2 with ⟨ha, hc⟩ | hfresh
  · rcases o1 with ⟨ha1, hc1⟩ | hfresh1
    · exact Or.inl ⟨by rw [ha, ha1], by rw [hc, hc1]⟩
    · exact Or.inr (by rw [ha]; exact hfresh1)
  · exact Or.inr (le_trans l1 hfresh)

theorem go_append_Extends {α : Type} (grow : Nat → Nat → Nat) (hgrow : ∀ c n, n ≤ grow c n)
    (zero : α) (st : List (List α) × Go.Slice) (vs : List α) (h : st.2.Fits st.1) :
    Go.Extends st (Go.append grow zero st.1 st.2 vs) := by
  obtain ⟨h1, h2, h3⟩ := go_append_elems grow hgrow zero st.1 st.2 vs h
  exact ⟨by rw [h1]; exact List.prefix_append _ _, h2, h3, go_append_length grow zero _ _ _,
    fun t ht => go_append_Fits_other grow zero st.1 st.2 t vs ht⟩

theorem go_appendConverted_Extends {α : Type} (grow : Nat → Nat → Nat)
    (hgrow : ∀ c n, n ≤ grow c n) (zero : α) (conv : String → Except NumError α) :
    ∀ (pieces : List String) (st : List (List α) × Go.Slice), st.2.Fits st.1 →
      Go.Extends st (Go.appendConverted grow zero conv pieces st).1 := by
  intro pieces
  induction pieces with
  | nil => intro st h; exact go_Extends_refl st h
  | cons s rest ih =>
    intro st h
    simp only [Go.appendConverted]
    cases conv s with
    | error e => exact go_Extends_refl st h
    | ok x =>
      dsimp only
      have h1 := go_append_Extends grow hgrow zero st [x] h
      exact go_Extends_trans _ _ _ h1 (ih _ h1.2.1)

theorem go_accumSet_Extends (grow : Nat → Nat → Nat) (hgrow : ∀ c n, n ≤ grow c n) (env : Env)
    (k : ElemKind) (Del : String) (arrays : List (List k.type)) (Args : Go.Slice) (val : String)
    (h : Args.Fits arrays) :
    Go.Extends (arrays, Args) (Go.accumSet grow env k Del arrays Args val).1 := by
  cases k
  case string => exact go_append_Extends grow hgrow _ (arrays, Args) _ h
  all_goals exact go_appendConverted_Extends grow hgrow _ _ _ (arrays, Args) h

theorem go_Fits_allocated {α : Type} (arrays : List (List α)) (s : Go.Slice) (h : s.Fits arrays)
    (hc : 0 < s.cap) : s.arr < arrays.length := by
  obtain ⟨cells, hcells, _⟩ := h.2 hc
  by_contra hge
  rw [List.getElem?_eq_none (by omega)] at hcells
  cases hcells

/-- A `Set` of a registered value keeps the accumulators the owners of their
arrays, and every accumulator keeps its elements in front. -/
theorem Go_Value_Set_owned (grow : Nat → Nat → Nat) (hgrow : ∀ c n, n ≤ grow c n) (env : Env)
    (val : Value) (s : String) (h : Go.Mem) (ho : h.Owned) :
    (Go.Value.Set grow env val s h).1.Owned ∧
      ∀ (i : Nat) (k : ElemKind) (Args : Go.Slice) (Del : String),
        h.accs[i]? = some { k := k, Args := Args, Del := Del } →
        ∃ Args2, (Go.Value.Set grow env val s h).1.accs[i]? =
            some { k := k, Args := Args2, Del := Del } ∧
          Args.elems (h.arrays k) <+: Args2.elems ((Go.Value.Set grow env val s h).1.arrays k) := by
  have hsame : h.Owned ∧ ∀ (i : Nat) (k : ElemKind) (Args : Go.Slice) (Del : String),
      h.accs[i]? = some { k := k, Args := Args, Del := Del } →
      ∃ Args2, h.accs[i]? = some { k := k, Args := Args2, Del := Del } ∧
        Args.elems (h.arrays k) <+: Args2.elems (h.arrays k) :=
    ⟨ho, fun i k Args Del ha => ⟨Args, ha, List.prefix_refl _⟩⟩
  cases val with
  | scalar k2 p2 =>
    simp only [Go.Value.Set]
    cases parseScalar env k2 s <;> exact hsame
  | multiArg id =>
    simp only [Go.Value.Set]
    cases hacc : h.accs[id]? with
    | none => exact hsame
    | some b =>
      obtain ⟨bk, bArgs, bDel⟩ := b
      dsimp only
      have hbfit : bArgs.Fits (h.arrays bk) := ho.1 _ (List.getElem?_mem hacc)
      have hext := go_accumSet_Extends grow hgrow env bk bDel (h.arrays bk) bArgs s hbfit
      have hkeep : ∀ v : Go.Slice, v.Clear bArgs (h.arrays bk).length →
          v.elems (Go.accumSet grow env bk bDel (h.arrays bk) bArgs s).1.1 =
            v.elems (h.arrays bk) :=
        fun v hv => (go_accumSet_keeps grow env bk bDel (h.arrays bk) bArgs v s hv).1
      generalize Go.accumSet grow env bk bDel (h.arrays bk) bArgs s = r at hext hkeep
      obtain ⟨hpre, hfit, hor, hlen, hothers⟩ := hext
      dsimp only at hpre hfit hor hlen hothers
      have hidlt : id < h.accs.length := by
        by_contra hge
        rw [List.getElem?_eq_none (by omega)] at hacc
        cases hacc
      refine ⟨⟨?_, ?_⟩, ?_⟩
      · intro c hc
        rcases List.mem_or_eq_of_mem_set hc with hc1 | hc1
        · obtain ⟨ck, cArgs, cDel⟩ := c
          by_cases hk : ck = bk
          · subst hk
            simpa using hothers cArgs (ho.1 ⟨ck, cArgs, cDel⟩ hc1)
          · simpa [Function.update_noteq hk] using ho.1 _ hc1
        · subst hc1
          simpa using hfit
      · intro i j a c hai hcj hij hk hca hcc
        simp only [List.getElem?_set] at hai hcj
        obtain ⟨ak, aArgs, aDel⟩ := a
        obtain ⟨ck, cArgs, cDel⟩ := c
        simp only at hk hca hcc ⊢
        subst hk
        by_cases hi : id = i
        · have hj : ¬ id = j := fun e => hij (by rw [← hi, ← e])
          rw [if_pos hi, if_pos hidlt] at hai
          rw [if_neg hj] at hcj
          cases hai
          rcases hor with ⟨harr, hcap⟩ | hfresh
          · rw [harr]
            exact ho.2 id j _ _ hacc hcj hj rfl (by rw [← hcap]; exact hca) hcc
          · have := go_Fits_allocated _ _ (ho.1 _ (List.getElem?_mem hcj)) hcc
            simp only at hfresh this
            omega
        · rw [if_neg hi] at hai
          by_cases hj : id = j
          · rw [if_pos hj, if_pos hidlt] at hcj
            cases hcj
            rcases hor with ⟨harr, hcap⟩ | hfresh
            · rw [harr]
              exact ho.2 i id _ _ hai hacc (fun e => hi e.symm) rfl hca (by rw [← hcap]; exact hcc)
            · have := go_Fits_allocated _ _ (ho.1 _ (List.getElem?_mem hai)) hca
              simp only at hfresh this
              omega
          · rw [if_neg hj] at hcj
            exact ho.2 i j _ _ hai hcj hij rfl hca hcc
      · intro i k Args Del hai
        by_cases hi : id = i
        · subst hi
          rw [hacc] at hai
          cases hai
          refine ⟨r.1.2, by simp [hidlt], ?_⟩
          simpa using hpre
        · refine ⟨Args, by simpa [List.getElem?_set, hi] using hai, ?_⟩
          by_cases hk : k = bk
          · subst hk
            have hafit := ho.1 _ (List.getElem?_mem hai)
            simp only at hafit
            have hclear : Args.Clear bArgs (h.arrays k).length := by
              intro hv
              have hcap : 0 < Args.cap := by have := hafit.1; omega
              refine ⟨go_Fits_allocated _ _ hafit hcap, ?_⟩
              intro harr hlt
              have hbc : 0 < bArgs.cap := by omega
              exact absurd harr.symm
                (ho.2 i id _ _ hai hacc (fun e => hi e.symm) rfl hcap hbc)
            simp only [Function.update_same]
            rw [hkeep Args hclear]
          · simp [Function.update_noteq hk]

theorem go_flag_Parse_owned (grow : Nat → Nat → Nat) (hgrow : ∀ c n, n ≤ grow c n) (env : Env)
    (f : flag.FlagSet) (args : List String) (h : Go.Mem) (ho : h.Owned) (i : Nat)
    (k : ElemKind) (Args : Go.Slice) (Del : String)
    (ha : h.accs[i]? = some { k := k, Args := Args, Del := Del }) :
    (Go.flag.FlagSet.Parse grow env f args h).2.1.Owned ∧
      ∃ Args2, (Go.flag.FlagSet.Parse grow env f args h).2.1.accs[i]? =
          some { k := k, Args := Args2, Del := Del } ∧
        Args.elems (h.arrays k) <+:
          Args2.elems ((Go.flag.FlagSet.Parse grow env f args h).2.1.arrays k) := by
  rw [go_flag_Parse_mem]
  exact go_parseArgs_mem_invariant grow env
    (fun h2 => h2.Owned ∧ ∃ Args2, h2.accs[i]? = some { k := k, Args := Args2, Del := Del } ∧
      Args.elems (h.arrays k) <+: Args2.elems (h2.arrays k)) f.formal
    (fun fl _ s m2 h2 => by
      obtain ⟨ho2, Args2, ha2, hp2⟩ := h2
      obtain ⟨ho3, hext⟩ := Go_Value_Set_owned grow hgrow env fl.Value s m2 ho2
      obtain ⟨Args3, ha3, hp3⟩ := hext i k Args2 Del ha2
      exact ⟨ho3, Args3, ha3, List.IsPrefix.trans hp2 hp3⟩) args
    { f with parsed := true, args := args } h rfl ⟨ho, Args, ha, List.prefix_refl _⟩

theorem go_SetFunc_call_accs (sf : SetFunc) (h : Go.Mem) :
    (Go.SetFunc.call sf h).accs = h.accs ∧ (Go.SetFunc.call sf h).arrays = h.arrays := by
  unfold Go.SetFunc.call
  split
  · split <;> exact ⟨rfl, rfl⟩
  · exact ⟨rfl, rfl⟩

theorem go_runSetFuncs_accs : ∀ (specs : List flag_spec) (h : Go.Mem),
    (Go.runSetFuncs specs h).accs = h.accs ∧ (Go.runSetFuncs specs h).arrays = h.arrays := by
  intro specs
  induction specs with
  | nil => intro h; exact ⟨rfl, rfl⟩
  | cons f rest ih =>
    intro h
    simp only [Go.runSetFuncs]
    split
    · rename_i sf _
      rw [(ih _).1, (ih _).2, (go_SetFunc_call_accs sf h).1, (go_SetFunc_call_accs sf h).2]
      exact ⟨rfl, rfl⟩
    · exact ih h

theorem go_runSetFuncs_append : ∀ (l1 l2 : List flag_spec) (h : Go.Mem),
    Go.runSetFuncs (l1 ++ l2) h = Go.runSetFuncs l2 (Go.runSetFuncs l1 h) := by
  intro l1
  induction l1 with
  | nil => intro l2 h; rfl
  | cons f rest ih =>
    intro l2 h
    simp only [List.cons_append, Go.runSetFuncs]
    split <;> exact ih _ _

theorem go_SetFunc_call_frame (sf : SetFunc) (h : Go.Mem) (k : ElemKind) (p : Ptr)
    (hne : ¬ (sf.k = k ∧ sf.ptr = p)) :
    (Go.SetFunc.call sf h).slices k p = h.slices k p := by
  unfold Go.SetFunc.call
  split
  · split
    · simp only [Go.Mem.setSlice]
      by_cases hk : sf.k = k
      · subst hk
        have hp : p ≠ sf.ptr := fun e => hne ⟨rfl, e.symm⟩
        simp [Function.update_noteq hp]
      · simp [Function.update_noteq (Ne.symm hk)]
    · rfl
  · rfl

theorem go_runSetFuncs_frame (k : ElemKind) (p : Ptr) : ∀ (specs : List flag_spec) (h : Go.Mem),
    (∀ spec ∈ specs, ∀ sf, spec.set_func = some sf → ¬ (sf.k = k ∧ sf.ptr = p)) →
      (Go.runSetFuncs specs h).slices k p = h.slices k p := by
  intro specs
  induction specs with
  | nil => intro h _; rfl
  | cons s rest ih =>
    intro h hall
    have hrest : ∀ spec ∈ rest, ∀ sf, spec.set_func = some sf → ¬ (sf.k = k ∧ sf.ptr = p) :=
      fun spec hs => hall spec (List.mem_cons_of_mem _ hs)
    cases hs : s.set_func with
    | none => simp only [Go.runSetFuncs, hs]; exact ih h hrest
    | some sf =>
      simp only [Go.runSetFuncs, hs]
      rw [ih _ hrest]
      exact go_SetFunc_call_frame sf h k p (hall s (List.mem_cons_self _ _) sf hs)

theorem go_SetFunc_call_write (sf : SetFunc) (h : Go.Mem) (Args : Go.Slice) (Del : String)
    (ha : h.accs[sf.arg]? = some { k := sf.k, Args := Args, Del := Del }) (hlen : 0 < Args.len) :
    (Go.SetFunc.call sf h).slices sf.k sf.ptr = Args := by
  simp [Go.SetFunc.call, ha, hlen, Go.Mem.setSlice]

theorem go_Parse_success_mem (grow : Nat → Nat → Nat) (env : Env) (fs : FlagSet)
    (args : List String) (h : Go.Mem)
    (hok : (Go.flag.FlagSet.Parse grow env fs.flag_flagset args h).2.2 = .returned none) :
    (Go.FlagSet.Parse grow env fs args h).2.1 =
      Go.runSetFuncs fs.special_flags (Go.flag.FlagSet.Parse grow env fs.flag_flagset args h).2.1 := by
  unfold Go.FlagSet.Parse
  dsimp only
  rw [hok]

theorem go_Parse_special_flags (grow : Nat → Nat → Nat) (env : Env) (fs : FlagSet)
    (args : List String) (h : Go.Mem) :
    (Go.FlagSet.Parse grow env fs args h).1.special_flags = fs.special_flags := by
  unfold Go.FlagSet.Parse
  dsimp only
  split <;> rfl

/-- C22, amended: the values appended to an accumulator during a `Parse` call
that failed are not copied into a destination by that call: every slice
variable holds the slice value it held before, and the elements it held before
when it is clear of the accumulators (as it is until the caller appends in
place to a destination that a commit made share the array of its accumulator).
The values stay in the accumulator, which keeps its elements in front of those
it gains, and a later successful `Parse` on the same flag set assigns the whole
slice of the accumulator, these values first, to the destination of its record
(when no record after it writes to the same destination). The accumulators own
their arrays, as they do from `NewMultiArgX` on, and the capacity `grow` that
`append` allocates is any that holds the length needed. -/
theorem failed_Parse_values_stay_accumulated (grow : Nat → Nat → Nat)
    (hgrow : ∀ c n, n ≤ grow c n) (env : Env) (fs : FlagSet) (h : Go.Mem)
    (args1 args2 : List String) (pre post : List flag_spec) (spec : flag_spec)
    (Args0 : Go.Slice) (Del : String) (hown : h.Owned)
    (hspec : fs.special_flags = pre ++ spec :: post)
    (hshape : spec.set_func =
      some { k := spec.val_ptr.1, arg := spec.arg, ptr := spec.val_ptr.2 })
    (ha0 : h.accs[spec.arg]? = some { k := spec.val_ptr.1, Args := Args0, Del := Del })
    (hpost : ∀ s ∈ post, ∀ sf, s.set_func = some sf →
      ¬ (sf.k = spec.val_ptr.1 ∧ sf.ptr = spec.val_ptr.2))
    (hfail : (Go.flag.FlagSet.Parse grow env fs.flag_flagset args1 h).2.2 ≠ .returned none)
    (hok : (Go.flag.FlagSet.Parse grow env (Go.FlagSet.Parse grow env fs args1 h).1.flag_flagset
      args2 (Go.FlagSet.Parse grow env fs args1 h).2.1).2.2 = .returned none) :
    (Go.FlagSet.Parse grow env fs args1 h).2.1.slices = h.slices ∧
    (∀ (k : ElemKind) (p : Ptr), h.Apart k p →
      (Go.FlagSet.Parse grow env fs args1 h).2.1.elems k p = h.elems k p) ∧
    ∃ Args1 Args2,
      (Go.FlagSet.Parse grow env fs args1 h).2.1.accs[spec.arg]? =
        some { k := spec.val_ptr.1, Args := Args1, Del := Del } ∧
      Args0.elems (h.arrays spec.val_ptr.1) <+:
        Args1.elems ((Go.FlagSet.Parse grow env fs args1 h).2.1.arrays spec.val_ptr.1) ∧
      (Go.FlagSet.Parse grow env (Go.FlagSet.Parse grow env fs args1 h).1 args2
          (Go.FlagSet.Parse grow env fs args1 h).2.1).2.1.accs[spec.arg]? =
        some { k := spec.val_ptr.1, Args := Args2, Del := Del } ∧
      Args1.elems ((Go.FlagSet.Parse grow env fs args1 h).2.1.arrays spec.val_ptr.1) <+:
        Args2.elems ((Go.FlagSet.Parse grow env (Go.FlagSet.Parse grow env fs args1 h).1 args2
          (Go.FlagSet.Parse grow env fs args1 h).2.1).2.1.arrays spec.val_ptr.1) ∧
      (0 < Args2.len →
        (Go.FlagSet.Parse grow env (Go.FlagSet.Parse grow env fs args1 h).1 args2
          (Go.FlagSet.Parse grow env fs args1 h).2.1).2.1.slices spec.val_ptr.1 spec.val_ptr.2 =
            Args2 ∧
        (Go.FlagSet.Parse grow env (Go.FlagSet.Parse grow env fs args1 h).1 args2
          (Go.FlagSet.Parse grow env fs args1 h).2.1).2.1.elems spec.val_ptr.1 spec.val_ptr.2 =
            Args2.elems ((Go.FlagSet.Parse grow env (Go.FlagSet.Parse grow env fs args1 h).1
              args2 (Go.FlagSet.Parse grow env fs args1 h).2.1).2.1.arrays spec.val_ptr.1)) := by
  have h1 : (Go.FlagSet.Parse grow env fs args1 h).2.1 =
      (Go.flag.FlagSet.Parse grow env fs.flag_flagset args1 h).2.1 := by
    unfold Go.FlagSet.Parse
    dsimp only
    split
    · rfl
    · rename_i hh; exact absurd hh hfail
    · rfl
    · rfl
  obtain ⟨ho1, Args1, ha1, hp1⟩ :=
    go_flag_Parse_owned grow hgrow env fs.flag_flagset args1 h hown spec.arg _ Args0 Del ha0
  rw [← h1] at ho1 ha1 hp1
  have hsl : (Go.FlagSet.Parse grow env fs args1 h).2.1.slices = h.slices := by
    rw [h1]; exact go_flag_Parse_slices grow env _ args1 h
  have hel : ∀ (k : ElemKind) (p : Ptr), h.Apart k p →
      (Go.FlagSet.Parse grow env fs args1 h).2.1.elems k p = h.elems k p := by
    intro k p hap
    rw [h1]
    exact (go_flag_Parse_keeps grow env _ args1 h k p hap).2.1
  have hsf1 : (Go.FlagSet.Parse grow env fs args1 h).1.special_flags = pre ++ spec :: post := by
    rw [go_Parse_special_flags]; exact hspec
  generalize (Go.FlagSet.Parse grow env fs args1 h).1 = fs1 at hok hsf1 ⊢
  generalize (Go.FlagSet.Parse grow env fs args1 h).2.1 = mem1 at hok ho1 ha1 hp1 hsl hel ⊢
  obtain ⟨_, Args2, ha2, hp2⟩ :=
    go_flag_Parse_owned grow hgrow env fs1.flag_flagset args2 mem1 ho1 spec.arg _ Args1 Del ha1
  have hmem2 := go_Parse_success_mem grow env fs1 args2 mem1 hok
  refine ⟨hsl, hel, Args1, Args2, ha1, hp1, ?_, ?_, ?_⟩
  · rw [hmem2, (go_runSetFuncs_accs _ _).1]; exact ha2
  · rw [hmem2, (go_runSetFuncs_accs _ _).2]; exact hp2
  · intro hpos
    have hw : (Go.FlagSet.Parse grow env fs1 args2 mem1).2.1.slices spec.val_ptr.1
        spec.val_ptr.2 = Args2 := by
      rw [hmem2, hsf1]
      have hsplit : pre ++ spec :: post = pre ++ ([spec] ++ post) := rfl
      rw [hsplit, go_runSetFuncs_append, go_runSetFuncs_append,
        go_runSetFuncs_frame _ _ post _ hpost]
      simp only [Go.runSetFuncs, hshape]
      exact go_SetFunc_call_write
        { k := spec.val_ptr.1, arg := spec.arg, ptr := spec.val_ptr.2 } _ Args2 Del
        (by rw [(go_runSetFuncs_accs _ _).1]; exact ha2) hpos
    exact ⟨hw, by simp only [Go.Mem.elems]; rw [hw]⟩

theorem go_growslice_le (c n : Nat) : n ≤ Go.growslice c n := by
  unfold Go.growslice
  split <;> omega

theorem intSliceHeap_Owned : intSliceHeap.Owned := by
  constructor
  · intro a ha
    simp only [intSliceHeap, List.mem_singleton] at ha
    subst ha
    exact ⟨le_refl _, fun hc => absurd hc (by decide)⟩
  · intro i j a b hi hj hij _ hca _
    cases i with
    | zero =>
      simp only [intSliceHeap, List.getElem?_cons_zero, Option.some.injEq] at hi
      subst hi
      exact absurd hca (by decide)
    | succ n => simp [intSliceHeap] at hi

theorem failed_Parse_values_stay_accumulated_witness :
    intSliceFailed.2.1.slices = intSliceHeap.slices ∧
    (∀ (k : ElemKind) (p : Ptr), intSliceHeap.Apart k p →
      intSliceFailed.2.1.elems k p = intSliceHeap.elems k p) ∧
    ∃ Args1 Args2,
      intSliceFailed.2.1.accs[0]? = some { k := .int, Args := Args1, Del := "" } ∧
      Go.Slice.nil.elems (intSliceHeap.arrays .int) <+:
        Args1.elems (intSliceFailed.2.1.arrays .int) ∧
      (Go.FlagSet.Parse Go.growslice env64 intSliceFailed.1 ["-n", "2"]
          intSliceFailed.2.1).2.1.accs[0]? = some { k := .int, Args := Args2, Del := "" } ∧
      Args1.elems (intSliceFailed.2.1.arrays .int) <+:
        Args2.elems ((Go.FlagSet.Parse Go.growslice env64 intSliceFailed.1 ["-n", "2"]
          intSliceFailed.2.1).2.1.arrays .int) ∧
      (0 < Args2.len →
        (Go.FlagSet.Parse Go.growslice env64 intSliceFailed.1 ["-n", "2"]
          intSliceFailed.2.1).2.1.slices .int 0 = Args2 ∧
        (Go.FlagSet.Parse Go.growslice env64 intSliceFailed.1 ["-n", "2"]
          intSliceFailed.2.1).2.1.elems .int 0 =
          Args2.elems ((Go.FlagSet.Parse Go.growslice env64 intSliceFailed.1 ["-n", "2"]
            intSliceFailed.2.1).2.1.arrays .int)) :=
  failed_Parse_values_stay_accumulated Go.growslice go_growslice_le env64 intSliceState.1
    intSliceHeap ["-n", "1", "-n", "x"] ["-n", "2"] [] []
    { val_ptr := (.int, 0), arg := 0, set_func := some { k := .int, arg := 0, ptr := 0 } }
    Go.Slice.nil "" intSliceHeap_Owned (by decide) rfl (by decide)
    (by intro s hs; cases hs) (by decide) (by decide)

/-- C22 fails as stated: with the flag `n` bound to a `[]int`, `Parse` of
`-n 1 -n x` fails after the value 1 has been appended to the accumulator and
leaves the destination empty; the next `Parse` on the same flag set, of no
arguments, succeeds and assigns the slice of the accumulator, which holds that
1, to the destination. -/
theorem failed_Parse_value_copied_by_later_Parse :
    (Go.flag.FlagSet.Parse Go.growslice env64 intSliceState.1.flag_flagset
        ["-n", "1", "-n", "x"] intSliceHeap).2.2 =
        .returned (some (.invalidValue "x" "n" .ErrSyntax)) ∧
      intSliceFailed.2.1.accs =
        [{ k := .int, Args := { arr := 0, off := 0, len := 1, cap := 1 }, Del := "" }] ∧
      intSliceFailed.2.1.arrays .int = [[1]] ∧
      intSliceFailed.2.1.elems .int 0 = [] ∧
      (Go.flag.FlagSet.Parse Go.growslice env64 intSliceFailed.1.flag_flagset []
          intSliceFailed.2.1).2.2 = .returned none ∧
      (Go.FlagSet.Parse Go.growslice env64 intSliceFailed.1 []
          intSliceFailed.2.1).2.1.elems .int 0 = [1] :=
  ⟨by decide, by decide, by decide, by decide, by decide, by decide⟩

/-! ### A value is expected only while a key is pending -/

theorem parse_tag_step_key (st st2 : TagState) (it : ScanItem)
    (hinv : st.expecting_value = true → st.field_name ≠ "")
    (hne : it.Err = false →
      it.Token.Typ = .TokenTypeIdent ∨ it.Token.Typ = .TokenTypeString → it.Token.Text ≠ "")
    (h : parse_tag_step st it = .next st2) :
    st2.expecting_value = true → st2.field_name ≠ "" := by
  unfold parse_tag_step at h
  split at h
  · cases h
  · rename_i herr
    have herr2 : it.Err = false := by simpa using herr
    split at h
    · split at h
      · cases h
      · cases h; exact hinv
    · split at h
      · split at h
        · cases h; exact hinv
        · split at h
          · split at h
            · cases h
            · rename_i hfn; cases h; exact fun _ => hfn
          · cases h; exact hinv
      · cases h; exact hinv
      · rename_i token_type hsym hoth
        have htyp : it.Token.Typ = .TokenTypeIdent ∨ it.Token.Typ = .TokenTypeString := by
          cases htt : it.Token.Typ with
          | TokenTypeIdent => exact Or.inl rfl
          | TokenTypeString => exact Or.inr rfl
          | TokenTypeSymbol => exact absurd htt (by simpa using hsym)
          | TokenTypeOther => exact absurd htt (by simpa using hoth)
        split at h
        · cases h; exact fun _ => hne herr2 htyp
        · split at h
          · split at h
            · cases h
            · split at h
              · split at h
                · cases h
                · cases h; intro hv; cases hv
              · cases h; intro hv; cases hv
          · cases h; exact hinv

theorem parse_tag_step_retNil (st : TagState) (it : ScanItem)
    (h : parse_tag_step st it = .retNil) : RejectCause st it ∨ ValueWithoutKey st it := by
  unfold parse_tag_step at h
  split at h
  · rename_i herr; exact Or.inl (Or.inl herr)
  · rename_i herr
    have herr2 : it.Err = false := by simpa using herr
    split at h
    · rename_i hidx
      split at h
      · rename_i htyp; exact Or.inl (Or.inr (Or.inl ⟨hidx, htyp.1, htyp.2⟩))
      · cases h
    · rename_i hidx
      split at h
      · rename_i hsym
        split at h
        · cases h
        · split at h
          · rename_i heq
            split at h
            · rename_i hfn; exact Or.inl (Or.inr (Or.inr ⟨hidx, hsym, heq, hfn⟩))
            · cases h
          · cases h
      · cases h
      · rename_i token_type hsym hoth
        have htyp : it.Token.Typ = .TokenTypeIdent ∨ it.Token.Typ = .TokenTypeString := by
          cases htt : it.Token.Typ with
          | TokenTypeIdent => exact Or.inl rfl
          | TokenTypeString => exact Or.inr rfl
          | TokenTypeSymbol => exact absurd htt (by simpa using hsym)
          | TokenTypeOther => exact absurd htt (by simpa using hoth)
        split at h
        · cases h
        · rename_i hen
          split at h
          · rename_i hev
            split at h
            · rename_i hfn
              exact Or.inr ⟨herr2, hidx, htyp, by simpa using hen, hev, hfn⟩
            · split at h
              · split at h <;> cases h
              · cases h
          · cases h

theorem tagStateAfter_key : ∀ (pre : List ScanItem) (st0 st : TagState),
    (st0.expecting_value = true → st0.field_name ≠ "") →
    (∀ it ∈ pre, it.Err = false →
      it.Token.Typ = .TokenTypeIdent ∨ it.Token.Typ = .TokenTypeString → it.Token.Text ≠ "") →
    tagStateAfter pre st0 = some st → st.expecting_value = true → st.field_name ≠ "" := by
  intro pre
  induction pre with
  | nil =>
    intro st0 st hinv _ h
    simp only [tagStateAfter, Option.some.injEq] at h
    rw [← h]; exact hinv
  | cons it rest ih =>
    intro st0 st hinv hne h
    simp only [tagStateAfter] at h
    cases hs : parse_tag_step st0 it with
    | next st1 =>
      rw [hs] at h
      exact ih st1 st
        (parse_tag_step_key st0 st1 it hinv (hne it (List.mem_cons_self _ _)) hs)
        (fun x hx => hne x (List.mem_cons_of_mem _ hx)) h
    | retNil => rw [hs] at h; cases h
    | panic => rw [hs] at h; cases h

theorem parse_tag_loop_nil : ∀ (items : List ScanItem) (st0 : TagState),
    parse_tag_loop items st0 = .ok none →
      ∃ pre it post st, items = pre ++ it :: post ∧ tagStateAfter pre st0 = some st ∧
        parse_tag_step st it = .retNil := by
  intro items
  induction items with
  | nil => intro st0 h; cases h
  | cons x rest ih =>
    intro st0 h
    simp only [parse_tag_loop] at h
    cases hs : parse_tag_step st0 x with
    | next st1 =>
      rw [hs] at h
      obtain ⟨pre, it, post, st, heq, hst, hstep⟩ := ih st1 h
      refine ⟨x :: pre, it, post, st, by rw [heq]; rfl, ?_, hstep⟩
      simp only [tagStateAfter, hs]; exact hst
    | retNil => exact ⟨[], x, rest, st0, rfl, rfl, hs⟩
    | panic => rw [hs] at h; cases h

/-- C31: in `parse_tag`, for every token stream in which every identifier and
string token has a non-empty text, at every position the loop reaches, when a
value is expected (`expecting_value`) the pending key name (`field_name`) is not
empty; so that no round takes the rejection at the value position for a missing
key, and a tag for which `parse_tag` returns nil is the empty text or has a
round with a scanner error, a first token that is neither an identifier nor a
string, or an `=` while no key name is pending. -/
theorem parse_tag_value_has_key (env : Env) (tag : String)
    (hne : ∀ it ∈ env.Scan tag, it.Err = false →
      it.Token.Typ = .TokenTypeIdent ∨ it.Token.Typ = .TokenTypeString → it.Token.Text ≠ "") :
    (∀ (pre post : List ScanItem) (st : TagState), env.Scan tag = pre ++ post →
      tagStateAfter pre TagState.init = some st →
      (st.expecting_value = true → st.field_name ≠ "") ∧
        ∀ it rest, post = it :: rest → ¬ ValueWithoutKey st it) ∧
    (parse_tag env tag = .ok none →
      tag = "" ∨ ∃ pre it post st, env.Scan tag = pre ++ it :: post ∧
        tagStateAfter pre TagState.init = some st ∧ RejectCause st it) := by
  have hinv : ∀ (pre post : List ScanItem) (st : TagState), env.Scan tag = pre ++ post →
      tagStateAfter pre TagState.init = some st →
      st.expecting_value = true → st.field_name ≠ "" := by
    intro pre post st hscan hst
    apply tagStateAfter_key pre TagState.init st (by intro h; cases h) _ hst
    intro it hit
    exact hne it (by rw [hscan]; exact List.mem_append_left _ hit)
  constructor
  · intro pre post st hscan hst
    refine ⟨hinv pre post st hscan hst, ?_⟩
    intro it rest _ hv
    exact hinv pre post st hscan hst hv.2.2.2.2.1 hv.2.2.2.2.2
  · intro hnil
    by_cases htag : tag = ""
    · exact Or.inl htag
    · right
      unfold parse_tag at hnil
      rw [if_neg htag] at hnil
      obtain ⟨pre, it, post, st, heq, hst, hstep⟩ := parse_tag_loop_nil _ _ hnil
      refine ⟨pre, it, post, st, heq, hst, ?_⟩
      rcases parse_tag_step_retNil st it hstep with hc | hv
      · exact hc
      · exact absurd hv.2.2.2.2.2 (hinv pre (it :: post) st heq hst hv.2.2.2.2.1)

theorem parse_tag_value_has_key_witness :
    "ip,=x" = "" ∨ ∃ pre it post st, env64.Scan "ip,=x" = pre ++ it :: post ∧
      tagStateAfter pre TagState.init = some st ∧ RejectCause st it :=
  (parse_tag_value_has_key env64 "ip,=x" (by decide)).2 (by rfl)

/-! ### What an error of `FlagSep` leaves behind -/

/-- An error of `FlagSep` other than the failed assertion `not a *[]T` of
`set_slice` leaves the flag set and the memory as they were. -/
theorem FlagSep_error_unchanged (fs : FlagSet) (m : Mem) (store : Store)
    (name usage del : String) (fs1 : FlagSet) (m1 : Mem) (err : BindError)
    (h : fs.FlagSep m store name usage del = .ret fs1 m1 (some err))
    (hns : ∀ k, err ≠ .notSliceOf k) : fs1 = fs ∧ m1 = m := by
  have hc : ∀ (k : ElemKind) (t : Ty) (p : Ptr),
      fs.set_slice_case m k t p name usage del = .ret fs1 m1 (some err) → fs1 = fs ∧ m1 = m := by
    intro k t p hk
    unfold FlagSet.set_slice_case at hk
    dsimp only at hk
    split at hk
    · cases hk
    · split at hk
      · cases hk
      · cases hk; exact absurd rfl (hns k)
  cases store with
  | nil => cases h; exact ⟨rfl, rfl⟩
  | value t => cases h; exact ⟨rfl, rfl⟩
  | structPtr n f => cases h; exact ⟨rfl, rfl⟩
  | ptr t p =>
    cases p with
    | none =>
      simp only [FlagSet.FlagSep] at h
      split at h <;> cases h
      exact ⟨rfl, rfl⟩
    | some p =>
      simp only [FlagSet.FlagSep] at h
      split at h
      · unfold FlagSet.set_slice at h
        split at h <;> first | exact hc _ _ _ h | (cases h; exact ⟨rfl, rfl⟩)
      · split at h
        · unfold FlagSet.scalarVar at h
          dsimp only at h
          split at h <;> cases h
        · cases h; exact ⟨rfl, rfl⟩

/-- C32 fails on the code: for a variable of the named slice type `type L []int`
and for one of type `[]N` with `type N int`, `FlagSep` with the name `n`, not
registered before, returns the error of the failed assertion `not a *[]int`,
and in the flag set it leaves the flag `n` is registered with the underlying
flag set, bound to a new accumulator, while no deferred-commit record has been
appended. For a `[]bool`, rejected before the registration, the flag set is
unchanged. -/
theorem FlagSep_error_after_registration :
    (NewFlagSet "test" .ContinueOnError).flag_flagset.lookup "n" = none ∧
      ((NewFlagSet "test" .ContinueOnError).FlagSep zeroMem
        (.ptr (.named "L" (.slice .int)) (some 0)) "n" "" "").result =
          some (some (.notSliceOf .int)) ∧
      ((NewFlagSet "test" .ContinueOnError).FlagSep zeroMem
        (.ptr (.named "L" (.slice .int)) (some 0)) "n" "" "").flagSet.flag_flagset.lookup "n" =
          some { Name := "n", Usage := "", Value := .multiArg 0 } ∧
      ((NewFlagSet "test" .ContinueOnError).FlagSep zeroMem
        (.ptr (.named "L" (.slice .int)) (some 0)) "n" "" "").flagSet.special_flags = [] ∧
      ((NewFlagSet "test" .ContinueOnError).FlagSep zeroMem
        (.ptr (.slice (.named "N" .int)) (some 0)) "n" "" "").result =
          some (some (.notSliceOf .int)) ∧
      ((NewFlagSet "test" .ContinueOnError).FlagSep zeroMem
        (.ptr (.slice (.named "N" .int)) (some 0)) "n" "" "").flagSet.flag_flagset.lookup "n" =
          some { Name := "n", Usage := "", Value := .multiArg 0 } ∧
      ((NewFlagSet "test" .ContinueOnError).FlagSep zeroMem
        (.ptr (.slice .bool) (some 0)) "n" "" "").result =
          some (some (.unsupportedSliceType .Bool "n")) ∧
      ((NewFlagSet "test" .ContinueOnError).FlagSep zeroMem
        (.ptr (.slice .bool) (some 0)) "n" "" "").flagSet = NewFlagSet "test" .ContinueOnError :=
  ⟨by decide, by decide, by decide, by decide, by decide, by decide, by decide, by decide⟩

/-- C33 fails on the code: on the nil pointers `(*string)(nil)` and
`(*bool)(nil)`, of supported scalar types, `FlagSep` returns no error: it
panics on the dereference `*v` of its type switch. On the nil interface and on
the nil pointer `(*[]int)(nil)` it returns an error and leaves the flag set as
it was. -/
theorem FlagSep_nil_scalar_pointer_panics :
    (NewFlagSet "test" .ContinueOnError).FlagSep zeroMem (.ptr .string none) "ip"
        "IP address (string)" "" =
      .panic (NewFlagSet "test" .ContinueOnError) zeroMem .nilDereference ∧
    ((NewFlagSet "test" .ContinueOnError).FlagSep zeroMem (.ptr .bool none) "v" "" "").result =
      none ∧
    (NewFlagSet "test" .ContinueOnError).FlagSep zeroMem (.ptr (.slice .int) none) "n" "" "" =
      .ret (NewFlagSet "test" .ContinueOnError) zeroMem (some (.unsupportedType "n")) ∧
    (NewFlagSet "test" .ContinueOnError).FlagSep zeroMem .nil "n" "" "" =
      .ret (NewFlagSet "test" .ContinueOnError) zeroMem (some .storeNil) :=
  ⟨by rfl, by decide, by rfl, by rfl⟩

end Flagutil
